import Mathlib

/-!
# Shogi rule engine: board state, move validation, move execution, check detection

A shallow embedding of `piece/piece.go` and `board/board.go`.

* Go `int` is modelled by `Int`.  Every coordinate that reaches arithmetic has
  either been range-checked against `[0, 9)` or is the drop sentinel `-1`.
  `isPathClear`, which is also studied on arbitrary coordinates, has a second
  embedding `isPathClear64` whose arithmetic wraps around at 64 bits as in the
  code; the two agree for coordinates below `2^62` in size.
* `Grid [9][9]Piece` is a function `Fin 9 → Fin 9 → Piece` (row first, as in
  `Grid[y][x]`).  Indexing with a Go `int` goes through `Board.cell` /
  `Board.setCell`, which return `none` where Go would panic with an index out
  of range.
* `map[piece.Type]int` is a total function `PType → Int` (a missing key reads
  as `0`).
* Methods with a pointer receiver that mutate the board return the new board.
* `for` loops with an early `return` are recursive functions over the list of
  loop indices; the `for cond { ... }` loop of `isPathClear` carries fuel and
  yields `none` when the fuel is used up.
-/

namespace Shogi

/-! ## piece/piece.go -/

/-- Piece kinds, `piece.Type` (an `iota` enumeration starting at `Empty = 0`). -/
inductive PType where
  | Empty | Pawn | Lance | Knight | Silver | Gold | Bishop | Rook | King
  | PromPawn | PromLance | PromKnight | PromSilver | PromBishop | PromRook
  deriving DecidableEq, Fintype

/-- The integer value of a kind constant. -/
def PType.toInt : PType → Int
  | .Empty => 0 | .Pawn => 1 | .Lance => 2 | .Knight => 3 | .Silver => 4
  | .Gold => 5 | .Bishop => 6 | .Rook => 7 | .King => 8
  | .PromPawn => 9 | .PromLance => 10 | .PromKnight => 11 | .PromSilver => 12
  | .PromBishop => 13 | .PromRook => 14

/-- Players, `piece.Player` (`None = 0` is the zero value of an empty cell). -/
inductive Player where
  | None | Sente | Gote
  deriving DecidableEq, Fintype

/-- The method `Player.Opposite`. -/
def Player.Opposite : Player → Player
  | .Sente => .Gote
  | .Gote => .Sente
  | .None => .None

/-- A piece, `piece.Piece`. -/
structure Piece where
  Typ : PType
  Player : Player
  deriving DecidableEq

/-- The zero value `piece.Piece{}`. -/
def Piece.zero : Piece := ⟨.Empty, .None⟩

/-- A movement direction, `piece.Direction`. -/
structure Direction where
  DX : Int
  DY : Int
  Repeat : Bool
  PromOnly : Bool
  deriving DecidableEq

/-- The table `movements`; a kind without an entry reads as the nil slice. -/
def movements : PType → List Direction
  | .Pawn => [⟨0, -1, false, false⟩]
  | .Lance => [⟨0, -1, true, false⟩]
  | .Knight => [⟨-1, -2, false, false⟩, ⟨1, -2, false, false⟩]
  | .Silver =>
    [⟨-1, -1, false, false⟩, ⟨0, -1, false, false⟩, ⟨1, -1, false, false⟩,
     ⟨-1, 1, false, false⟩, ⟨1, 1, false, false⟩]
  | .Gold =>
    [⟨-1, -1, false, false⟩, ⟨0, -1, false, false⟩, ⟨1, -1, false, false⟩,
     ⟨-1, 0, false, false⟩, ⟨1, 0, false, false⟩, ⟨0, 1, false, false⟩]
  | .Bishop =>
    [⟨-1, -1, true, false⟩, ⟨1, -1, true, false⟩, ⟨-1, 1, true, false⟩,
     ⟨1, 1, true, false⟩]
  | .Rook =>
    [⟨0, -1, true, false⟩, ⟨-1, 0, true, false⟩, ⟨1, 0, true, false⟩,
     ⟨0, 1, true, false⟩]
  | .King =>
    [⟨-1, -1, false, false⟩, ⟨0, -1, false, false⟩, ⟨1, -1, false, false⟩,
     ⟨-1, 0, false, false⟩, ⟨1, 0, false, false⟩, ⟨-1, 1, false, false⟩,
     ⟨0, 1, false, false⟩, ⟨1, 1, false, false⟩]
  | _ => []

/-- The table `promotedMovements`. -/
def promotedMovements : PType → List Direction
  | .PromPawn => movements .Gold
  | .PromLance => movements .Gold
  | .PromKnight => movements .Gold
  | .PromSilver => movements .Gold
  | .PromBishop =>
    movements .Bishop ++
      [⟨0, -1, false, true⟩, ⟨-1, 0, false, true⟩, ⟨1, 0, false, true⟩,
       ⟨0, 1, false, true⟩]
  | .PromRook =>
    movements .Rook ++
      [⟨-1, -1, false, true⟩, ⟨1, -1, false, true⟩, ⟨-1, 1, false, true⟩,
       ⟨1, 1, false, true⟩]
  | _ => []

/-- The method `Type.CanPromote`. -/
def PType.CanPromote : PType → Bool
  | .Pawn | .Lance | .Knight | .Silver | .Bishop | .Rook => true
  | _ => false

/-- The method `Piece.GetMovements`: the second mover's list has `DY` negated. -/
def Piece.GetMovements (p : Piece) : List Direction :=
  let dirs :=
    if p.Typ.toInt ≥ PType.PromPawn.toInt ∧ p.Typ.toInt ≤ PType.PromRook.toInt then
      promotedMovements p.Typ
    else
      movements p.Typ
  if dirs = [] then
    []
  else if p.Player = .Gote then
    dirs.map fun dir => ⟨dir.DX, -dir.DY, dir.Repeat, dir.PromOnly⟩
  else
    dirs

/-! ## board/board.go: data -/

/-- The constant `BoardSize`. -/
def BoardSize : Int := 9

/-- The board, `board.Board`. -/
structure Board where
  Grid : Fin 9 → Fin 9 → Piece
  SenteCaptures : PType → Int
  GoteCaptures : PType → Int
  CurrentPlayer : Player

/-- A move, `board.Move`; a drop has `FromX = FromY = -1`. -/
structure Move where
  FromX : Int
  FromY : Int
  ToX : Int
  ToY : Int
  Piece : PType
  Promote : Bool
  deriving DecidableEq

/-- Reading `b.Grid[y][x]`; `none` is Go's index-out-of-range panic. -/
def Board.cell (b : Board) (y x : Int) : Option Piece :=
  if h : (0 ≤ y ∧ y < 9) ∧ (0 ≤ x ∧ x < 9) then
    some (b.Grid ⟨y.toNat, by omega⟩ ⟨x.toNat, by omega⟩)
  else
    none

/-- The method `GetPiece`. -/
def GetPiece (b : Board) (x y : Int) : Option Piece :=
  b.cell y x

/-- A grid with one cell replaced. -/
def setGrid (g : Fin 9 → Fin 9 → Piece) (y x : Fin 9) (p : Piece) :
    Fin 9 → Fin 9 → Piece :=
  fun y' x' => if y' = y ∧ x' = x then p else g y' x'

/-- Writing `b.Grid[y][x] = p`; `none` is Go's index-out-of-range panic. -/
def Board.setCell (b : Board) (y x : Int) (p : Piece) : Option Board :=
  if h : (0 ≤ y ∧ y < 9) ∧ (0 ≤ x ∧ x < 9) then
    some { b with Grid := setGrid b.Grid ⟨y.toNat, by omega⟩ ⟨x.toNat, by omega⟩ p }
  else
    none

/-- A stock map with the count of one key replaced. -/
def setCount (m : PType → Int) (k : PType) (v : Int) : PType → Int :=
  fun k' => if k' = k then v else m k'

/-- The loop indices `0, 1, ..., BoardSize - 1`. -/
def indices : List Int := [0, 1, 2, 3, 4, 5, 6, 7, 8]

/-- The method `placePiece`, only ever called with constant in-range indices. -/
def placePiece (b : Board) (y x : Fin 9) (pieceType : PType) (player : Player) : Board :=
  { b with Grid := setGrid b.Grid y x ⟨pieceType, player⟩ }

/-- The method `initializePieces`. -/
def initializePieces (b : Board) : Board :=
  let b := placePiece b 8 0 .Lance .Sente
  let b := placePiece b 8 1 .Knight .Sente
  let b := placePiece b 8 2 .Silver .Sente
  let b := placePiece b 8 3 .Gold .Sente
  let b := placePiece b 8 4 .King .Sente
  let b := placePiece b 8 5 .Gold .Sente
  let b := placePiece b 8 6 .Silver .Sente
  let b := placePiece b 8 7 .Knight .Sente
  let b := placePiece b 8 8 .Lance .Sente
  let b := placePiece b 7 1 .Bishop .Sente
  let b := placePiece b 7 7 .Rook .Sente
  let b := (List.finRange 9).foldl (fun b i => placePiece b 6 i .Pawn .Sente) b
  let b := placePiece b 0 0 .Lance .Gote
  let b := placePiece b 0 1 .Knight .Gote
  let b := placePiece b 0 2 .Silver .Gote
  let b := placePiece b 0 3 .Gold .Gote
  let b := placePiece b 0 4 .King .Gote
  let b := placePiece b 0 5 .Gold .Gote
  let b := placePiece b 0 6 .Silver .Gote
  let b := placePiece b 0 7 .Knight .Gote
  let b := placePiece b 0 8 .Lance .Gote
  let b := placePiece b 1 1 .Rook .Gote
  let b := placePiece b 1 7 .Bishop .Gote
  (List.finRange 9).foldl (fun b i => placePiece b 2 i .Pawn .Gote) b

/-- The constructor `New`: empty grid, empty stocks, first mover to move. -/
def New : Board :=
  initializePieces
    { Grid := fun _ _ => Piece.zero
      SenteCaptures := fun _ => 0
      GoteCaptures := fun _ => 0
      CurrentPlayer := .Sente }

/-! ## board/board.go: utilities -/

/-- The function `sign`. -/
def sign (x : Int) : Int :=
  if x < 0 then -1 else if x > 0 then 1 else 0

/-- The function `abs` on unbounded integers; the code calls it behind the range checks
of the validator only, where no negation wraps around. -/
def abs (x : Int) : Int :=
  if x < 0 then -x else x

/-- The function `getNextPlayer`. -/
def getNextPlayer (current : Player) : Player :=
  if current = .Sente then .Gote else .Sente

/-- The function `getPromotedPiece`. -/
def getPromotedPiece : PType → PType
  | .Pawn => .PromPawn
  | .Lance => .PromLance
  | .Knight => .PromKnight
  | .Silver => .PromSilver
  | .Bishop => .PromBishop
  | .Rook => .PromRook
  | t => t

/-- The function `getOriginalPiece`. -/
def getOriginalPiece : PType → PType
  | .PromPawn => .Pawn
  | .PromLance => .Lance
  | .PromKnight => .Knight
  | .PromSilver => .Silver
  | .PromBishop => .Bishop
  | .PromRook => .Rook
  | t => t

/-! ## board/board.go: move validator -/

/-- The loop of `hasOwnPawnInColumn` over the rows `ys`. -/
def hasOwnPawnInColumnLoop (b : Board) (x : Int) : List Int → Option Bool
  | [] => some false
  | y :: ys =>
    match b.cell y x with
    | none => none
    | some p =>
      if p.Typ = .Pawn ∧ p.Player = b.CurrentPlayer then some true
      else hasOwnPawnInColumnLoop b x ys

/-- The method `hasOwnPawnInColumn`. -/
def hasOwnPawnInColumn (b : Board) (x : Int) : Option Bool :=
  hasOwnPawnInColumnLoop b x indices

/-- The method `isValidDrop`. -/
def isValidDrop (b : Board) (move : Move) : Option Bool :=
  if (if b.CurrentPlayer = .Sente then b.SenteCaptures move.Piece ≤ 0
      else b.GoteCaptures move.Piece ≤ 0) then
    some false
  else
    match b.cell move.ToY move.ToX with
    | none => none
    | some c =>
      if c.Typ ≠ .Empty then some false
      else
        match move.Piece with
        | .Pawn =>
          match hasOwnPawnInColumn b move.ToX with
          | none => none
          | some true => some false
          | some false =>
            if (b.CurrentPlayer = .Sente ∧ move.ToY = 0) ∨
                (b.CurrentPlayer = .Gote ∧ move.ToY = BoardSize - 1) then some false
            else some true
        | .Lance =>
          if (b.CurrentPlayer = .Sente ∧ move.ToY = 0) ∨
              (b.CurrentPlayer = .Gote ∧ move.ToY = BoardSize - 1) then some false
          else some true
        | .Knight =>
          if (b.CurrentPlayer = .Sente ∧ move.ToY ≤ 1) ∨
              (b.CurrentPlayer = .Gote ∧ move.ToY ≥ BoardSize - 2) then some false
          else some true
        | _ => some true

/-- The method `mustPromote`. -/
def mustPromote (b : Board) (move : Move) (p : Piece) : Bool :=
  if b.CurrentPlayer = .Sente then
    match p.Typ with
    | .Pawn | .Lance => decide (move.ToY = 0)
    | .Knight => decide (move.ToY ≤ 1)
    | _ => false
  else
    match p.Typ with
    | .Pawn | .Lance => decide (move.ToY = BoardSize - 1)
    | .Knight => decide (move.ToY ≥ BoardSize - 2)
    | _ => false

/-- The method `isValidPromotion`. -/
def isValidPromotion (b : Board) (move : Move) (p : Piece) : Bool :=
  let requestOk : Bool :=
    if move.Promote then
      if ¬ p.Typ.CanPromote then false
      else
        let canPromote : Bool :=
          if b.CurrentPlayer = .Sente then decide (move.FromY ≤ 2 ∨ move.ToY ≤ 2)
          else decide (move.FromY ≥ 6 ∨ move.ToY ≥ 6)
        canPromote
    else true
  if ¬ requestOk then false
  else if ¬ move.Promote ∧ mustPromote b move p then false
  else true

/-- The method `canDropToPosition` (not called by the validator). -/
def canDropToPosition (b : Board) (move : Move) : Bool :=
  if b.CurrentPlayer = .Sente then
    match move.Piece with
    | .Pawn | .Lance => if move.ToY = 0 then false else true
    | .Knight => if move.ToY ≤ 1 then false else true
    | _ => true
  else
    match move.Piece with
    | .Pawn | .Lance => if move.ToY = BoardSize - 1 then false else true
    | .Knight => if move.ToY ≥ BoardSize - 2 then false else true
    | _ => true

/-- The `for x != move.ToX || y != move.ToY` loop of `isPathClear`, started at
`(x, y)` with step `(dx, dy)`; one unit of fuel per test of the loop condition. -/
def isPathClearLoop (b : Board) (move : Move) (dx dy : Int) : Nat → Int → Int → Option Bool
  | 0, _, _ => none
  | fuel + 1, x, y =>
    if x ≠ move.ToX ∨ y ≠ move.ToY then
      if x < 0 ∨ x ≥ BoardSize ∨ y < 0 ∨ y ≥ BoardSize then some false
      else
        match b.cell y x with
        | none => none
        | some c =>
          if c.Typ ≠ .Empty then some false
          else isPathClearLoop b move dx dy fuel (x + dx) (y + dy)
    else some true

/-- The method `isPathClear` on unbounded integers.  Ten units of fuel: the walk visits
at most nine cells of the grid before it reaches the destination or leaves the grid.
It computes what the code computes as long as no subtraction or addition of the code
wraps around, which holds for coordinates below `2^62` in size and so for every call
behind the range checks of the validator; `isPathClear64` is the method on the
64-bit integers of the code. -/
def isPathClear (b : Board) (move : Move) : Option Bool :=
  let dx := sign (move.ToX - move.FromX)
  let dy := sign (move.ToY - move.FromY)
  isPathClearLoop b move dx dy 10 (move.FromX + dx) (move.FromY + dy)

/-- The number of grid cells the loop of `isPathClear` reads when started at `(x, y)`
with step `(dx, dy)`: the loop of `isPathClearLoop` with a counter in place of the
answer. -/
def isPathClearReads (b : Board) (move : Move) (dx dy : Int) : Nat → Int → Int → Nat
  | 0, _, _ => 0
  | fuel + 1, x, y =>
    if x ≠ move.ToX ∨ y ≠ move.ToY then
      if x < 0 ∨ x ≥ BoardSize ∨ y < 0 ∨ y ≥ BoardSize then 0
      else
        match b.cell y x with
        | none => 1
        | some c =>
          if c.Typ ≠ .Empty then 1
          else 1 + isPathClearReads b move dx dy fuel (x + dx) (y + dy)
    else 0

/-- The value a 64-bit Go `int` holds after an arithmetic result `v` wraps around. -/
def wrap64 (v : Int) : Int :=
  (v + 9223372036854775808) % 18446744073709551616 - 9223372036854775808

/-- The values of a 64-bit Go `int`. -/
def isInt64 (v : Int) : Prop :=
  -9223372036854775808 ≤ v ∧ v < 9223372036854775808

/-- The number of grid cells the loop of `isPathClear64` reads when started at `(x, y)`
with step `(dx, dy)`: the loop of `isPathClearLoop64` with a counter in place of the
answer. -/
def isPathClearReads64 (b : Board) (move : Move) (dx dy : Int) : Nat → Int → Int → Nat
  | 0, _, _ => 0
  | fuel + 1, x, y =>
    if x ≠ move.ToX ∨ y ≠ move.ToY then
      if x < 0 ∨ x ≥ BoardSize ∨ y < 0 ∨ y ≥ BoardSize then 0
      else
        match b.cell y x with
        | none => 1
        | some c =>
          if c.Typ ≠ .Empty then 1
          else 1 + isPathClearReads64 b move dx dy fuel (wrap64 (x + dx)) (wrap64 (y + dy))
    else 0

/-- The loop of `isPathClear` with every addition wrapping around as on a 64-bit `int`. -/
def isPathClearLoop64 (b : Board) (move : Move) (dx dy : Int) : Nat → Int → Int → Option Bool
  | 0, _, _ => none
  | fuel + 1, x, y =>
    if x ≠ move.ToX ∨ y ≠ move.ToY then
      if x < 0 ∨ x ≥ BoardSize ∨ y < 0 ∨ y ≥ BoardSize then some false
      else
        match b.cell y x with
        | none => none
        | some c =>
          if c.Typ ≠ .Empty then some false
          else isPathClearLoop64 b move dx dy fuel (wrap64 (x + dx)) (wrap64 (y + dy))
    else some true

/-- The method `isPathClear` as the code computes it, with every subtraction and
addition wrapping around as on a 64-bit `int`. -/
def isPathClear64 (b : Board) (move : Move) : Option Bool :=
  let dx := sign (wrap64 (move.ToX - move.FromX))
  let dy := sign (wrap64 (move.ToY - move.FromY))
  isPathClearLoop64 b move dx dy 10 (wrap64 (move.FromX + dx)) (wrap64 (move.FromY + dy))

/-- The loop of `isValidPieceMove` over the directions of the piece. -/
def isValidPieceMoveLoop (b : Board) (move : Move) (p : Piece) (dx dy : Int) :
    List Direction → Option Bool
  | [] => some false
  | dir :: dirs =>
    if p.Typ = .Knight then
      if dx = dir.DX ∧ dy = dir.DY then some true
      else isValidPieceMoveLoop b move p dx dy dirs
    else if dir.DX = sign dx ∧ dir.DY = sign dy then
      if ¬ dir.Repeat then
        some (decide (abs dx = abs dir.DX ∧ abs dy = abs dir.DY))
      else
        match isPathClear b move with
        | none => none
        | some true => some true
        | some false => isValidPieceMoveLoop b move p dx dy dirs
    else isValidPieceMoveLoop b move p dx dy dirs

/-- The method `isValidPieceMove`. -/
def isValidPieceMove (b : Board) (move : Move) (p : Piece) : Option Bool :=
  let dx := move.ToX - move.FromX
  let dy := move.ToY - move.FromY
  isValidPieceMoveLoop b move p dx dy p.GetMovements

/-- The method `isValidNormalMove`. -/
def isValidNormalMove (b : Board) (move : Move) : Option Bool :=
  match b.cell move.FromY move.FromX with
  | none => none
  | some p =>
    if p.Typ = .Empty ∨ p.Player ≠ b.CurrentPlayer then some false
    else
      match b.cell move.ToY move.ToX with
      | none => none
      | some dest =>
        if dest.Typ ≠ .Empty ∧ dest.Player = b.CurrentPlayer then some false
        else if ¬ isValidPromotion b move p then some false
        else isValidPieceMove b move p

/-- The method `IsValidMove`. -/
def IsValidMove (b : Board) (move : Move) : Option Bool :=
  if move.FromX = -1 ∧ move.FromY = -1 then
    if move.ToX < 0 ∨ move.ToX ≥ BoardSize ∨ move.ToY < 0 ∨ move.ToY ≥ BoardSize then
      some false
    else isValidDrop b move
  else if move.FromX < 0 ∨ move.FromX ≥ BoardSize ∨ move.FromY < 0 ∨ move.FromY ≥ BoardSize ∨
      move.ToX < 0 ∨ move.ToX ≥ BoardSize ∨ move.ToY < 0 ∨ move.ToY ≥ BoardSize then
    some false
  else isValidNormalMove b move

/-! ## board/board.go: stock queries and drops -/

/-- The method `GetCaptures`. -/
def GetCaptures (b : Board) (player : Player) : List PType :=
  let captureMap := if player = .Sente then b.SenteCaptures else b.GoteCaptures
  let pieceTypes : List PType := [.Pawn, .Lance, .Knight, .Silver, .Gold, .Bishop, .Rook]
  pieceTypes.foldl (fun captures pt => captures ++ List.replicate (captureMap pt).toNat pt) []

/-- The method `DropPiece`. -/
def DropPiece (b : Board) (x y : Int) (pieceType : PType) : Option Board :=
  let b1 :=
    if b.CurrentPlayer = .Sente then
      { b with SenteCaptures := setCount b.SenteCaptures pieceType (b.SenteCaptures pieceType - 1) }
    else
      { b with GoteCaptures := setCount b.GoteCaptures pieceType (b.GoteCaptures pieceType - 1) }
  match b1.setCell y x ⟨pieceType, b1.CurrentPlayer⟩ with
  | none => none
  | some b2 => some { b2 with CurrentPlayer := b2.CurrentPlayer.Opposite }

/-- The cells visited by `for y { for x { ... } }`, as `(x, y)`, in visiting order. -/
def scanCells : List (Int × Int) :=
  indices.flatMap fun y => indices.map fun x => (x, y)

/-- The loop of `GetValidDropPositions`. -/
def GetValidDropPositionsLoop (b : Board) (pieceType : PType) :
    List (Int × Int) → Option (List (Int × Int))
  | [] => some []
  | (x, y) :: cells =>
    match isValidDrop b ⟨-1, -1, x, y, pieceType, false⟩ with
    | none => none
    | some ok =>
      match GetValidDropPositionsLoop b pieceType cells with
      | none => none
      | some positions => some (if ok then (x, y) :: positions else positions)

/-- The method `GetValidDropPositions`. -/
def GetValidDropPositions (b : Board) (pieceType : PType) : Option (List (Int × Int)) :=
  GetValidDropPositionsLoop b pieceType scanCells

/-! ## board/board.go: move executor -/

/-- The method `MakeMove`. -/
def MakeMove (b : Board) (move : Move) : Option Board :=
  if move.FromX = -1 ∧ move.FromY = -1 then
    let b1 :=
      if b.CurrentPlayer = .Sente then
        { b with SenteCaptures := setCount b.SenteCaptures move.Piece (b.SenteCaptures move.Piece - 1) }
      else
        { b with GoteCaptures := setCount b.GoteCaptures move.Piece (b.GoteCaptures move.Piece - 1) }
    match b1.setCell move.ToY move.ToX ⟨move.Piece, b1.CurrentPlayer⟩ with
    | none => none
    | some b2 => some { b2 with CurrentPlayer := getNextPlayer b2.CurrentPlayer }
  else
    match b.cell move.FromY move.FromX with
    | none => none
    | some p =>
      match b.cell move.ToY move.ToX with
      | none => none
      | some dest =>
        let b1 :=
          if dest.Typ ≠ .Empty then
            let capturedType := getOriginalPiece dest.Typ
            if b.CurrentPlayer = .Sente then
              { b with SenteCaptures := setCount b.SenteCaptures capturedType (b.SenteCaptures capturedType + 1) }
            else
              { b with GoteCaptures := setCount b.GoteCaptures capturedType (b.GoteCaptures capturedType + 1) }
          else b
        match b1.setCell move.FromY move.FromX Piece.zero with
        | none => none
        | some b2 =>
          let p1 : Piece := if move.Promote then { p with Typ := getPromotedPiece p.Typ } else p
          match b2.setCell move.ToY move.ToX p1 with
          | none => none
          | some b3 => some { b3 with CurrentPlayer := getNextPlayer b3.CurrentPlayer }

/-! ## board/board.go: check detector -/

/-- The loop of `findKing`. -/
def findKingLoop (b : Board) (player : Player) : List (Int × Int) → Option (Int × Int)
  | [] => some (-1, -1)
  | (x, y) :: cells =>
    match b.cell y x with
    | none => none
    | some p =>
      if p.Typ = .King ∧ p.Player = player then some (x, y)
      else findKingLoop b player cells

/-- The method `findKing`. -/
def findKing (b : Board) (player : Player) : Option (Int × Int) :=
  findKingLoop b player scanCells

/-- The loop of `IsCheck`, run on the board whose player to move has been
switched to `opponent`. -/
def IsCheckLoop (b : Board) (opponent : Player) (kingX kingY : Int) :
    List (Int × Int) → Option Bool
  | [] => some false
  | (x, y) :: cells =>
    match b.cell y x with
    | none => none
    | some p =>
      if p.Typ ≠ .Empty ∧ p.Player = opponent then
        match isValidNormalMove b ⟨x, y, kingX, kingY, .Empty, false⟩ with
        | none => none
        | some true => some true
        | some false => IsCheckLoop b opponent kingX kingY cells
      else IsCheckLoop b opponent kingX kingY cells

/-- The method `IsCheck`: the answer together with the board as the call leaves it. -/
def IsCheck (b : Board) : Option (Bool × Board) :=
  match findKing b b.CurrentPlayer with
  | none => none
  | some (kingX, kingY) =>
    if kingX = -1 then some (false, b)
    else
      let opponent := getNextPlayer b.CurrentPlayer
      let tempPlayer := b.CurrentPlayer
      let b1 := { b with CurrentPlayer := opponent }
      match IsCheckLoop b1 opponent kingX kingY scanCells with
      | none => none
      | some true => some (true, { b1 with CurrentPlayer := tempPlayer })
      | some false => some (false, { b1 with CurrentPlayer := tempPlayer })

/-! ## game/game.go: the promotion decision of the move handler -/

/-- The method `Game.shouldPromote`, on the board of the game. -/
def shouldPromote (b : Board) (move : Move) : Option Bool :=
  if move.FromX = -1 ∧ move.FromY = -1 then some false
  else
    match GetPiece b move.FromX move.FromY with
    | none => none
    | some p =>
      if ¬ p.Typ.CanPromote then some false
      else
        let forced : Bool :=
          if b.CurrentPlayer = .Sente then
            if (p.Typ = .Pawn ∨ p.Typ = .Lance) ∧ move.ToY = 0 then true
            else if p.Typ = .Knight ∧ move.ToY ≤ 1 then true
            else false
          else
            if (p.Typ = .Pawn ∨ p.Typ = .Lance) ∧ move.ToY = BoardSize - 1 then true
            else if p.Typ = .Knight ∧ move.ToY ≥ BoardSize - 2 then true
            else false
        if forced then some true
        else if b.CurrentPlayer = .Sente then some (decide (move.FromY ≤ 2 ∨ move.ToY ≤ 2))
        else some (decide (move.FromY ≥ 6 ∨ move.ToY ≥ 6))

/-- The move `Game.handleMove` passes to `MakeMove`: the move it was given, with the
promote flag set when `shouldPromote` says so. -/
def handleMoveArg (b : Board) (move : Move) : Option Move :=
  match shouldPromote b move with
  | none => none
  | some true => some { move with Promote := true }
  | some false => some move

/-! ## Reachable boards and closed forms of the executor -/

/-- Boards reachable from the opening board by moves that `IsValidMove` accepts,
each applied with `MakeMove`. -/
inductive Reachable : Board → Prop
  | init : Reachable New
  | step {b b' : Board} (m : Move) :
      Reachable b → IsValidMove b m = some true → MakeMove b m = some b' → Reachable b'

/-- Validate and apply a list of moves in turn; `none` when a move is rejected. -/
def playMoves (b : Board) : List Move → Option Board
  | [] => some b
  | m :: ms =>
    match IsValidMove b m with
    | some true =>
      match MakeMove b m with
      | some b' => playMoves b' ms
      | none => none
    | _ => none

/-- The board `MakeMove` produces for a drop of `k` on row `ty`, column `tx`. -/
def dropBoard (b : Board) (ty tx : Fin 9) (k : PType) : Board :=
  { Grid := setGrid b.Grid ty tx ⟨k, b.CurrentPlayer⟩
    SenteCaptures :=
      if b.CurrentPlayer = .Sente then setCount b.SenteCaptures k (b.SenteCaptures k - 1)
      else b.SenteCaptures
    GoteCaptures :=
      if b.CurrentPlayer = .Sente then b.GoteCaptures
      else setCount b.GoteCaptures k (b.GoteCaptures k - 1)
    CurrentPlayer := getNextPlayer b.CurrentPlayer }

/-- The piece a board move puts on its destination. -/
def movedPiece (p : Piece) (promote : Bool) : Piece :=
  if promote then { p with Typ := getPromotedPiece p.Typ } else p

/-- The board `MakeMove` produces for a board move from `(fx, fy)` to `(tx, ty)`. -/
def moveBoard (b : Board) (fy fx ty tx : Fin 9) (promote : Bool) : Board :=
  { Grid := setGrid (setGrid b.Grid fy fx Piece.zero) ty tx (movedPiece (b.Grid fy fx) promote)
    SenteCaptures :=
      if (b.Grid ty tx).Typ ≠ .Empty ∧ b.CurrentPlayer = .Sente then
        setCount b.SenteCaptures (getOriginalPiece (b.Grid ty tx).Typ)
          (b.SenteCaptures (getOriginalPiece (b.Grid ty tx).Typ) + 1)
      else b.SenteCaptures
    GoteCaptures :=
      if (b.Grid ty tx).Typ ≠ .Empty ∧ b.CurrentPlayer ≠ .Sente then
        setCount b.GoteCaptures (getOriginalPiece (b.Grid ty tx).Typ)
          (b.GoteCaptures (getOriginalPiece (b.Grid ty tx).Typ) + 1)
      else b.GoteCaptures
    CurrentPlayer := getNextPlayer b.CurrentPlayer }

/-- The board after playing `ms` from the opening board (the opening board itself when
some move of `ms` is rejected). -/
def play (ms : List Move) : Board :=
  (playMoves New ms).getD New

/-- No column of the grid holds two unpromoted pawns of the same owner. -/
def NoDoublePawn (g : Fin 9 → Fin 9 → Piece) : Prop :=
  ∀ (pl : Player) (x y1 y2 : Fin 9), g y1 x = ⟨.Pawn, pl⟩ → g y2 x = ⟨.Pawn, pl⟩ → y1 = y2

/-- The number of cells of the grid whose piece satisfies `f`. -/
def countGrid (f : Piece → Bool) (g : Fin 9 → Fin 9 → Piece) : Nat :=
  ∑ y : Fin 9, ∑ x : Fin 9, if f (g y x) then 1 else 0

/-- The seven kinds a stock can hold. -/
def stockKinds : List PType := [.Pawn, .Lance, .Knight, .Silver, .Gold, .Bishop, .Rook]

/-- The number of pieces of each stock kind in the opening position. -/
def supply : PType → Int
  | .Pawn => 18
  | .Lance => 4
  | .Knight => 4
  | .Silver => 4
  | .Gold => 4
  | .Bishop => 2
  | .Rook => 2
  | _ => 0

/-- The six promoted kinds. -/
def isPromoted : PType → Bool
  | .PromPawn | .PromLance | .PromKnight | .PromSilver | .PromBishop | .PromRook => true
  | _ => false

/-- A piece of kind `k` in base or promoted form. -/
def isKind (k : PType) (p : Piece) : Bool :=
  decide (p.Typ = k ∨ p.Typ = getPromotedPiece k)

/-- Conservation of material: every stock kind keeps its supply over the grid and the
two stocks, and no promoted kind is held in stock. -/
def Conserved (b : Board) : Prop :=
  (∀ k ∈ stockKinds,
    (countGrid (isKind k) b.Grid : Int) + b.SenteCaptures k + b.GoteCaptures k = supply k) ∧
  (∀ k, isPromoted k = true → b.SenteCaptures k = 0 ∧ b.GoteCaptures k = 0)

/-- Boards reachable from the opening board by accepted moves none of which lands on
a square that holds a king. -/
inductive ReachableSparingKings : Board → Prop
  | init : ReachableSparingKings New
  | step {b b' : Board} (m : Move) :
      ReachableSparingKings b → IsValidMove b m = some true →
      (∀ pl : Player, b.cell m.ToY m.ToX ≠ some ⟨.King, pl⟩) →
      MakeMove b m = some b' → ReachableSparingKings b'

/-- The number of kings of `pl` on the grid. -/
def kingCount (pl : Player) (b : Board) : Nat :=
  countGrid (fun p => decide (p = ⟨.King, pl⟩)) b.Grid

/-- Each player has exactly one king on the grid and no stock holds a king. -/
def KingsKept (b : Board) : Prop :=
  kingCount .Sente b = 1 ∧ kingCount .Gote b = 1 ∧
    b.SenteCaptures .King = 0 ∧ b.GoteCaptures .King = 0

/-- The cells of `scanCells` with their indices as elements of `Fin 9`. -/
def finCells : List (Fin 9 × Fin 9) :=
  (List.finRange 9).flatMap fun y => (List.finRange 9).map fun x => (x, y)

/-- The stock the executor and the validator use for the player `pl`: the first mover's
map for `Sente`, the second mover's map otherwise. -/
def stockOf (b : Board) (pl : Player) : PType → Int :=
  if pl = .Sente then b.SenteCaptures else b.GoteCaptures

/-! ## Example positions -/

/-- A board with the listed pieces `(y, x, piece)` placed on the empty grid. -/
def boardOf (cells : List (Fin 9 × Fin 9 × Piece)) (sente gote : PType → Int)
    (player : Player) : Board :=
  { Grid := cells.foldl (fun g c => setGrid g c.1 c.2.1 c.2.2) (fun _ _ => Piece.zero)
    SenteCaptures := sente
    GoteCaptures := gote
    CurrentPlayer := player }

/-- First mover to move, with a pawn one step from the far rank, a knight, a lance, a
bishop behind a pawn, and one pawn and one knight in stock. -/
def positionA : Board :=
  boardOf
    [(8, 4, ⟨.King, .Sente⟩), (1, 4, ⟨.Pawn, .Sente⟩), (3, 2, ⟨.Knight, .Sente⟩),
     (4, 8, ⟨.Lance, .Sente⟩), (7, 1, ⟨.Bishop, .Sente⟩), (5, 3, ⟨.Pawn, .Gote⟩),
     (0, 0, ⟨.King, .Gote⟩), (2, 8, ⟨.Gold, .Gote⟩)]
    (setCount (setCount (fun _ => 0) .Pawn 1) .Knight 1) (fun _ => 0) .Sente

/-- First mover to move, with the second mover's pawn on (4,7) directly in front of
the first mover's king on (4,8). -/
def pawnCheckPosition : Board :=
  boardOf [(8, 4, ⟨.King, .Sente⟩), (7, 4, ⟨.Pawn, .Gote⟩), (0, 4, ⟨.King, .Gote⟩)]
    (fun _ => 0) (fun _ => 0) .Sente

/-- Three accepted opening moves: the first mover opens the bishop's diagonal, the
second mover pushes an edge pawn, and the bishop takes the pawn on (6,2) and promotes. -/
def bishopRaid : List Move :=
  [⟨2, 6, 2, 5, .Empty, false⟩, ⟨0, 2, 0, 3, .Empty, false⟩, ⟨1, 7, 6, 2, .Empty, true⟩]

/-- The raid continued: the second mover pushes the edge pawn again and the promoted
bishop on (6,2) takes the king on (4,0) through the empty cell (5,1). -/
def kingCaptureGame : List Move :=
  bishopRaid ++ [⟨0, 3, 0, 4, .Empty, false⟩, ⟨6, 2, 4, 0, .Empty, false⟩]

/-- First mover to move, with a gold on (4,4) facing the second mover's promoted rook
on (4,3). -/
def positionD : Board :=
  boardOf
    [(8, 4, ⟨.King, .Sente⟩), (4, 4, ⟨.Gold, .Sente⟩), (3, 4, ⟨.PromRook, .Gote⟩),
     (0, 4, ⟨.King, .Gote⟩)]
    (fun _ => 0) (fun _ => 0) .Sente

/-! # Properties -/

/-! ## Reading and writing cells at in-range indices -/

theorem BoardSize_eq : BoardSize = 9 := rfl

theorem exists_fin (v : Int) (h : 0 ≤ v ∧ v < 9) : ∃ i : Fin 9, v = ((i : ℕ) : ℤ) :=
  ⟨⟨v.toNat, by omega⟩, by simp; omega⟩

theorem fin_inRange (i : Fin 9) : (0 : ℤ) ≤ ((i : ℕ) : ℤ) ∧ ((i : ℕ) : ℤ) < 9 := by
  have := i.isLt
  omega

theorem cell_fin (b : Board) (y x : Fin 9) :
    b.cell ((y : ℕ) : ℤ) ((x : ℕ) : ℤ) = some (b.Grid y x) := by
  unfold Board.cell
  rw [dif_pos ⟨fin_inRange y, fin_inRange x⟩]
  simp

theorem setCell_fin (b : Board) (y x : Fin 9) (p : Piece) :
    b.setCell ((y : ℕ) : ℤ) ((x : ℕ) : ℤ) p = some { b with Grid := setGrid b.Grid y x p } := by
  unfold Board.setCell
  rw [dif_pos ⟨fin_inRange y, fin_inRange x⟩]
  simp

theorem cell_eq_some_iff (b : Board) (y x : Int) (p : Piece) :
    b.cell y x = some p ↔ ∃ fy fx : Fin 9, y = ((fy : ℕ) : ℤ) ∧ x = ((fx : ℕ) : ℤ) ∧ b.Grid fy fx = p := by
  constructor
  · intro h
    unfold Board.cell at h
    split at h
    · rename_i hr
      obtain ⟨fy, rfl⟩ := exists_fin y hr.1
      obtain ⟨fx, rfl⟩ := exists_fin x hr.2
      refine ⟨fy, fx, rfl, rfl, ?_⟩
      simpa using h
    · simp at h
  · rintro ⟨fy, fx, rfl, rfl, rfl⟩
    exact cell_fin b fy fx

theorem cell_isSome (b : Board) (y x : Int) (hy : 0 ≤ y ∧ y < 9) (hx : 0 ≤ x ∧ x < 9) :
    ∃ p, b.cell y x = some p := by
  obtain ⟨fy, rfl⟩ := exists_fin y hy
  obtain ⟨fx, rfl⟩ := exists_fin x hx
  exact ⟨_, cell_fin b fy fx⟩

theorem cell_withPlayer (b : Board) (pl : Player) (y x : Int) :
    ({ b with CurrentPlayer := pl } : Board).cell y x = b.cell y x := rfl

/-! ## The validator on in-range moves -/

theorem IsValidMove_of_drop (b : Board) (m : Move) (hdrop : m.FromX = -1 ∧ m.FromY = -1)
    (htx : 0 ≤ m.ToX ∧ m.ToX < 9) (hty : 0 ≤ m.ToY ∧ m.ToY < 9) :
    IsValidMove b m = isValidDrop b m := by
  unfold IsValidMove
  rw [if_pos hdrop, if_neg (by rw [BoardSize_eq]; omega)]

theorem IsValidMove_of_inRange (b : Board) (m : Move)
    (hfx : 0 ≤ m.FromX ∧ m.FromX < 9) (hfy : 0 ≤ m.FromY ∧ m.FromY < 9)
    (htx : 0 ≤ m.ToX ∧ m.ToX < 9) (hty : 0 ≤ m.ToY ∧ m.ToY < 9) :
    IsValidMove b m = isValidNormalMove b m := by
  unfold IsValidMove
  rw [if_neg (by omega), if_neg (by rw [BoardSize_eq]; omega)]

theorem isValidNormalMove_eq (b : Board) (m : Move) (p dest : Piece)
    (hp : b.cell m.FromY m.FromX = some p) (hd : b.cell m.ToY m.ToX = some dest) :
    isValidNormalMove b m =
      if p.Typ = .Empty ∨ p.Player ≠ b.CurrentPlayer then some false
      else if dest.Typ ≠ .Empty ∧ dest.Player = b.CurrentPlayer then some false
      else if ¬ isValidPromotion b m p then some false
      else isValidPieceMove b m p := by
  simp only [isValidNormalMove, hp, hd]

theorem indices_eq : indices = (List.finRange 9).map fun i : Fin 9 => ((i : ℕ) : ℤ) := by
  decide

theorem scanCells_eq :
    scanCells = (List.finRange 9).flatMap fun y : Fin 9 =>
      (List.finRange 9).map fun x : Fin 9 => ((((x : ℕ) : ℤ)), (((y : ℕ) : ℤ))) := by
  decide

theorem hasOwnPawnInColumnLoop_fin (b : Board) (x : Fin 9) (ys : List (Fin 9)) :
    hasOwnPawnInColumnLoop b ((x : ℕ) : ℤ) (ys.map fun i : Fin 9 => ((i : ℕ) : ℤ)) =
      some (decide (∃ y ∈ ys, (b.Grid y x).Typ = .Pawn ∧ (b.Grid y x).Player = b.CurrentPlayer)) := by
  induction ys with
  | nil => simp [hasOwnPawnInColumnLoop]
  | cons y ys ih =>
    simp only [List.map_cons, hasOwnPawnInColumnLoop, cell_fin, ih]
    by_cases h : (b.Grid y x).Typ = .Pawn ∧ (b.Grid y x).Player = b.CurrentPlayer
    · simp [h]
    · simp [h]

theorem hasOwnPawnInColumn_fin (b : Board) (x : Fin 9) :
    hasOwnPawnInColumn b ((x : ℕ) : ℤ) =
      some (decide (∃ y : Fin 9, (b.Grid y x).Typ = .Pawn ∧ (b.Grid y x).Player = b.CurrentPlayer)) := by
  unfold hasOwnPawnInColumn
  rw [indices_eq, hasOwnPawnInColumnLoop_fin]
  simp

/-! ## Check detection and mandatory promotion -/

/-- C1: on `pawnCheckPosition` the first mover is to move with exactly one king, on
(4,8), and the second mover's pawn on (4,7) has the one-step forward displacement onto
the king's square (its piece move is valid with the second mover as mover, and the
capture is accepted by `IsValidMove` once the promote flag is set); yet `IsCheck`
answers false, because the probing move carries no promote flag and the
mandatory-promotion rule rejects it. -/
theorem C1_IsCheck_misses_pawn_attack_on_far_rank :
    pawnCheckPosition.CurrentPlayer = .Sente ∧
    kingCount .Sente pawnCheckPosition = 1 ∧
    findKing pawnCheckPosition .Sente = some (4, 8) ∧
    pawnCheckPosition.cell 7 4 = some ⟨.Pawn, .Gote⟩ ∧
    isValidPieceMove { pawnCheckPosition with CurrentPlayer := .Gote }
      ⟨4, 7, 4, 8, .Empty, false⟩ ⟨.Pawn, .Gote⟩ = some true ∧
    IsValidMove { pawnCheckPosition with CurrentPlayer := .Gote }
      ⟨4, 7, 4, 8, .Empty, true⟩ = some true ∧
    isValidPromotion { pawnCheckPosition with CurrentPlayer := .Gote }
      ⟨4, 7, 4, 8, .Empty, false⟩ ⟨.Pawn, .Gote⟩ = false ∧
    (IsCheck pawnCheckPosition).map Prod.fst = some false := by
  decide

/-- C2: with the promote flag unset, an in-range board move of an unpromoted pawn or
lance onto the mover's farthest rank (row 0 for the first mover, row 8 for the second),
or of an unpromoted knight onto one of the mover's two farthest ranks, is rejected by
`IsValidMove`. -/
theorem C2_unpromoted_move_to_far_rank_rejected (b : Board) (m : Move) (p : Piece)
    (hfx : 0 ≤ m.FromX ∧ m.FromX < 9) (hfy : 0 ≤ m.FromY ∧ m.FromY < 9)
    (htx : 0 ≤ m.ToX ∧ m.ToX < 9) (hty : 0 ≤ m.ToY ∧ m.ToY < 9)
    (hflag : m.Promote = false)
    (hsrc : b.cell m.FromY m.FromX = some p)
    (hcase :
      ((p.Typ = .Pawn ∨ p.Typ = .Lance) ∧
        ((b.CurrentPlayer = .Sente ∧ m.ToY = 0) ∨ (b.CurrentPlayer = .Gote ∧ m.ToY = 8))) ∨
      (p.Typ = .Knight ∧
        ((b.CurrentPlayer = .Sente ∧ m.ToY ≤ 1) ∨ (b.CurrentPlayer = .Gote ∧ 7 ≤ m.ToY)))) :
    IsValidMove b m = some false := by
  obtain ⟨dest, hd⟩ := cell_isSome b m.ToY m.ToX hty htx
  rw [IsValidMove_of_inRange b m hfx hfy htx hty, isValidNormalMove_eq b m p dest hsrc hd]
  have hprom : isValidPromotion b m p = false := by
    rcases hcase with ⟨ht, hr⟩ | ⟨ht, hr⟩
    · rcases ht with ht | ht <;> rcases hr with ⟨hc, hy⟩ | ⟨hc, hy⟩ <;>
        simp [isValidPromotion, mustPromote, hflag, ht, hc, hy, BoardSize_eq]
    · rcases hr with ⟨hc, hy⟩ | ⟨hc, hy⟩ <;>
        simp [isValidPromotion, mustPromote, hflag, ht, hc, hy, BoardSize_eq]
  simp only [hprom]
  split
  · rfl
  · split
    · rfl
    · simp

/-- C2 at a concrete input: the first mover's pawn on (4,1) may not step to (4,0)
unpromoted. -/
theorem C2_unpromoted_move_to_far_rank_rejected_witness :
    IsValidMove positionA ⟨4, 1, 4, 0, .Empty, false⟩ = some false :=
  C2_unpromoted_move_to_far_rank_rejected positionA ⟨4, 1, 4, 0, .Empty, false⟩ ⟨.Pawn, .Sente⟩
    (by decide) (by decide) (by decide) (by decide) rfl (by decide) (by decide)

/-! ## The drop branch of the validator -/

theorem ite_some_bool (c : Prop) [Decidable c] :
    ∃ r, (if c then some false else some true) = some r ∧ (r = true ↔ ¬ c) := by
  by_cases h : c
  · exact ⟨false, by simp [h], by simp [h]⟩
  · exact ⟨true, by simp [h], by simp [h]⟩

theorem BoardSize_sub_one : BoardSize - 1 = 8 := rfl

theorem BoardSize_sub_two : BoardSize - 2 = 7 := rfl

theorem isValidDrop_fin (b : Board) (m : Move) (ty tx : Fin 9)
    (hty : m.ToY = ((ty : ℕ) : ℤ)) (htx : m.ToX = ((tx : ℕ) : ℤ)) :
    ∃ r, isValidDrop b m = some r ∧ (r = true ↔
      (1 ≤ (if b.CurrentPlayer = .Sente then b.SenteCaptures m.Piece
            else b.GoteCaptures m.Piece)) ∧
      (b.Grid ty tx).Typ = .Empty ∧
      (m.Piece = .Pawn →
        (¬ ∃ y : Fin 9, (b.Grid y tx).Typ = .Pawn ∧ (b.Grid y tx).Player = b.CurrentPlayer) ∧
        ¬ ((b.CurrentPlayer = .Sente ∧ m.ToY = 0) ∨ (b.CurrentPlayer = .Gote ∧ m.ToY = 8))) ∧
      (m.Piece = .Lance →
        ¬ ((b.CurrentPlayer = .Sente ∧ m.ToY = 0) ∨ (b.CurrentPlayer = .Gote ∧ m.ToY = 8))) ∧
      (m.Piece = .Knight →
        ¬ ((b.CurrentPlayer = .Sente ∧ m.ToY ≤ 1) ∨ (b.CurrentPlayer = .Gote ∧ 7 ≤ m.ToY)))) := by
  unfold isValidDrop
  by_cases hs : (if b.CurrentPlayer = .Sente then b.SenteCaptures m.Piece ≤ 0
      else b.GoteCaptures m.Piece ≤ 0)
  · rw [if_pos hs]
    refine ⟨false, rfl, ?_⟩
    simp only [Bool.false_eq_true, false_iff, not_and]
    intro h1
    exfalso
    split at hs <;> split at h1 <;> first | omega | contradiction
  · rw [if_neg hs]
    have hs1 : 1 ≤ (if b.CurrentPlayer = .Sente then b.SenteCaptures m.Piece
        else b.GoteCaptures m.Piece) := by
      split at hs <;> split <;> first | omega | contradiction
    rw [hty, htx, cell_fin]
    simp only
    by_cases he : (b.Grid ty tx).Typ = .Empty
    · rw [if_neg (by simpa using he)]
      simp only [hs1, he, true_and]
      cases hk : m.Piece <;>
        simp only [hasOwnPawnInColumn_fin, BoardSize_sub_one, BoardSize_sub_two, ge_iff_le,
          reduceCtorEq, false_implies, true_implies, and_true, true_and] <;>
        first
        | exact ⟨true, rfl, by simp⟩
        | exact ite_some_bool _
        | skip
      by_cases hp : ∃ y : Fin 9, (b.Grid y tx).Typ = .Pawn ∧ (b.Grid y tx).Player = b.CurrentPlayer
      · simp only [hp, decide_True]
        exact ⟨false, rfl, by simp⟩
      · simp only [hp, decide_False, not_false_eq_true, true_and]
        exact ite_some_bool _
    · rw [if_pos (by simpa using he)]
      exact ⟨false, rfl, by simp [he]⟩

/-! ## Closed forms of `MakeMove` -/

theorem fin_cast_inj {a c : Fin 9} (h : ((a : ℕ) : ℤ) = ((c : ℕ) : ℤ)) : a = c :=
  Fin.ext (by exact_mod_cast h)

theorem MakeMove_drop (b : Board) (m : Move) (ty tx : Fin 9)
    (hdrop : m.FromX = -1 ∧ m.FromY = -1)
    (hty : m.ToY = ((ty : ℕ) : ℤ)) (htx : m.ToX = ((tx : ℕ) : ℤ)) :
    MakeMove b m = some (dropBoard b ty tx m.Piece) := by
  unfold MakeMove dropBoard
  rw [if_pos hdrop, hty, htx]
  by_cases hc : b.CurrentPlayer = .Sente
  · simp [hc, setCell_fin]
  · simp [hc, setCell_fin]

theorem MakeMove_move (b : Board) (m : Move) (fy fx ty tx : Fin 9)
    (hfy : m.FromY = ((fy : ℕ) : ℤ)) (hfx : m.FromX = ((fx : ℕ) : ℤ))
    (hty : m.ToY = ((ty : ℕ) : ℤ)) (htx : m.ToX = ((tx : ℕ) : ℤ)) :
    MakeMove b m = some (moveBoard b fy fx ty tx m.Promote) := by
  have hnd : ¬ (m.FromX = -1 ∧ m.FromY = -1) := by
    have := fin_inRange fx
    omega
  unfold MakeMove moveBoard movedPiece
  rw [if_neg hnd, hfy, hfx, hty, htx]
  simp only [cell_fin]
  by_cases he : (b.Grid ty tx).Typ = .Empty
  · simp [he, setCell_fin]
  · by_cases hc : b.CurrentPlayer = .Sente
    · simp [he, hc, setCell_fin]
    · simp [he, hc, setCell_fin]

/-! ## What an accepted move satisfies -/

theorem isValidPieceMoveLoop_sound (b : Board) (m : Move) (p : Piece) (dx dy : Int)
    (dirs : List Direction) (h : isValidPieceMoveLoop b m p dx dy dirs = some true) :
    ∃ dir ∈ dirs,
      (p.Typ = .Knight ∧ dx = dir.DX ∧ dy = dir.DY) ∨
      (p.Typ ≠ .Knight ∧ dir.DX = sign dx ∧ dir.DY = sign dy ∧
        ((dir.Repeat = false ∧ abs dx = abs dir.DX ∧ abs dy = abs dir.DY) ∨
         (dir.Repeat = true ∧ isPathClear b m = some true))) := by
  induction dirs with
  | nil => simp [isValidPieceMoveLoop] at h
  | cons dir dirs ih =>
    unfold isValidPieceMoveLoop at h
    by_cases hk : p.Typ = .Knight
    · rw [if_pos hk] at h
      by_cases hd : dx = dir.DX ∧ dy = dir.DY
      · exact ⟨dir, List.mem_cons_self _ _, Or.inl ⟨hk, hd⟩⟩
      · rw [if_neg hd] at h
        obtain ⟨d, hm, hd'⟩ := ih h
        exact ⟨d, List.mem_cons_of_mem _ hm, hd'⟩
    · rw [if_neg hk] at h
      by_cases hs : dir.DX = sign dx ∧ dir.DY = sign dy
      · rw [if_pos hs] at h
        by_cases hr : dir.Repeat = true
        · rw [if_neg (by simpa using hr)] at h
          cases hpc : isPathClear b m with
          | none => simp [hpc] at h
          | some r =>
            cases r with
            | true =>
              exact ⟨dir, List.mem_cons_self _ _, Or.inr ⟨hk, hs.1, hs.2, Or.inr ⟨hr, rfl⟩⟩⟩
            | false =>
              simp only [hpc] at h
              obtain ⟨d, hm, hd'⟩ := ih h
              rw [hpc] at hd'
              exact ⟨d, List.mem_cons_of_mem _ hm, hd'⟩
        · rw [if_pos (by simpa using hr)] at h
          simp only [Option.some.injEq, decide_eq_true_eq] at h
          exact ⟨dir, List.mem_cons_self _ _,
            Or.inr ⟨hk, hs.1, hs.2, Or.inl ⟨by simpa using hr, h⟩⟩⟩
      · rw [if_neg hs] at h
        obtain ⟨d, hm, hd'⟩ := ih h
        exact ⟨d, List.mem_cons_of_mem _ hm, hd'⟩

theorem isValidNormalMove_inv (b : Board) (m : Move) (fy fx ty tx : Fin 9)
    (hfy : m.FromY = ((fy : ℕ) : ℤ)) (hfx : m.FromX = ((fx : ℕ) : ℤ))
    (hty : m.ToY = ((ty : ℕ) : ℤ)) (htx : m.ToX = ((tx : ℕ) : ℤ))
    (h : isValidNormalMove b m = some true) :
    (b.Grid fy fx).Typ ≠ .Empty ∧ (b.Grid fy fx).Player = b.CurrentPlayer ∧
    ¬ ((b.Grid ty tx).Typ ≠ .Empty ∧ (b.Grid ty tx).Player = b.CurrentPlayer) ∧
    isValidPromotion b m (b.Grid fy fx) = true ∧
    isValidPieceMove b m (b.Grid fy fx) = some true := by
  rw [isValidNormalMove_eq b m (b.Grid fy fx) (b.Grid ty tx)
    (by rw [hfy, hfx, cell_fin]) (by rw [hty, htx, cell_fin])] at h
  split at h
  · simp at h
  · rename_i h1
    split at h
    · simp at h
    · rename_i h2
      split at h
      · simp at h
      · rename_i h3
        push_neg at h1
        exact ⟨h1.1, h1.2, h2, by simpa using h3, h⟩

theorem valid_move_src_ne_dest (b : Board) (fy fx ty tx : Fin 9)
    (h1 : (b.Grid fy fx).Typ ≠ .Empty) (h2 : (b.Grid fy fx).Player = b.CurrentPlayer)
    (h3 : ¬ ((b.Grid ty tx).Typ ≠ .Empty ∧ (b.Grid ty tx).Player = b.CurrentPlayer)) :
    ¬ (ty = fy ∧ tx = fx) := by
  rintro ⟨rfl, rfl⟩
  exact h3 ⟨h1, h2⟩

theorem valid_step_cases (b b' : Board) (m : Move)
    (hv : IsValidMove b m = some true) (hm : MakeMove b m = some b') :
    (∃ ty tx : Fin 9, (m.FromX = -1 ∧ m.FromY = -1) ∧
        m.ToY = ((ty : ℕ) : ℤ) ∧ m.ToX = ((tx : ℕ) : ℤ) ∧
        isValidDrop b m = some true ∧ b' = dropBoard b ty tx m.Piece) ∨
    (∃ fy fx ty tx : Fin 9, m.FromY = ((fy : ℕ) : ℤ) ∧ m.FromX = ((fx : ℕ) : ℤ) ∧
        m.ToY = ((ty : ℕ) : ℤ) ∧ m.ToX = ((tx : ℕ) : ℤ) ∧
        isValidNormalMove b m = some true ∧ b' = moveBoard b fy fx ty tx m.Promote) := by
  unfold IsValidMove at hv
  rw [BoardSize_eq] at hv
  by_cases hd : m.FromX = -1 ∧ m.FromY = -1
  · rw [if_pos hd] at hv
    by_cases hr : m.ToX < 0 ∨ m.ToX ≥ 9 ∨ m.ToY < 0 ∨ m.ToY ≥ 9
    · simp [hr] at hv
    · rw [if_neg hr] at hv
      obtain ⟨ty, hty⟩ := exists_fin m.ToY (by omega)
      obtain ⟨tx, htx⟩ := exists_fin m.ToX (by omega)
      refine Or.inl ⟨ty, tx, hd, hty, htx, hv, ?_⟩
      rw [MakeMove_drop b m ty tx hd hty htx] at hm
      exact (Option.some.inj hm).symm
  · rw [if_neg hd] at hv
    by_cases hr : m.FromX < 0 ∨ m.FromX ≥ 9 ∨ m.FromY < 0 ∨ m.FromY ≥ 9 ∨
        m.ToX < 0 ∨ m.ToX ≥ 9 ∨ m.ToY < 0 ∨ m.ToY ≥ 9
    · simp [hr] at hv
    · rw [if_neg hr] at hv
      obtain ⟨fy, hfy⟩ := exists_fin m.FromY (by omega)
      obtain ⟨fx, hfx⟩ := exists_fin m.FromX (by omega)
      obtain ⟨ty, hty⟩ := exists_fin m.ToY (by omega)
      obtain ⟨tx, htx⟩ := exists_fin m.ToX (by omega)
      refine Or.inr ⟨fy, fx, ty, tx, hfy, hfx, hty, htx, hv, ?_⟩
      rw [MakeMove_move b m fy fx ty tx hfy hfx hty htx] at hm
      exact (Option.some.inj hm).symm

theorem valid_move_applies (b : Board) (m : Move) (hv : IsValidMove b m = some true) :
    ∃ b', MakeMove b m = some b' := by
  unfold IsValidMove at hv
  rw [BoardSize_eq] at hv
  by_cases hd : m.FromX = -1 ∧ m.FromY = -1
  · rw [if_pos hd] at hv
    by_cases hr : m.ToX < 0 ∨ m.ToX ≥ 9 ∨ m.ToY < 0 ∨ m.ToY ≥ 9
    · simp [hr] at hv
    · obtain ⟨ty, hty⟩ := exists_fin m.ToY (by omega)
      obtain ⟨tx, htx⟩ := exists_fin m.ToX (by omega)
      exact ⟨_, MakeMove_drop b m ty tx hd hty htx⟩
  · rw [if_neg hd] at hv
    by_cases hr : m.FromX < 0 ∨ m.FromX ≥ 9 ∨ m.FromY < 0 ∨ m.FromY ≥ 9 ∨
        m.ToX < 0 ∨ m.ToX ≥ 9 ∨ m.ToY < 0 ∨ m.ToY ≥ 9
    · simp [hr] at hv
    · obtain ⟨fy, hfy⟩ := exists_fin m.FromY (by omega)
      obtain ⟨fx, hfx⟩ := exists_fin m.FromX (by omega)
      obtain ⟨ty, hty⟩ := exists_fin m.ToY (by omega)
      obtain ⟨tx, htx⟩ := exists_fin m.ToX (by omega)
      exact ⟨_, MakeMove_move b m fy fx ty tx hfy hfx hty htx⟩

theorem playMoves_reachable (ms : List Move) :
    ∀ b b' : Board, Reachable b → playMoves b ms = some b' → Reachable b' := by
  induction ms with
  | nil =>
    intro b b' hb h
    simp only [playMoves, Option.some.injEq] at h
    exact h ▸ hb
  | cons m ms ih =>
    intro b b' hb h
    unfold playMoves at h
    cases hv : IsValidMove b m with
    | none => simp [hv] at h
    | some r =>
      cases r with
      | false => simp [hv] at h
      | true =>
        cases hm : MakeMove b m with
        | none => simp [hv, hm] at h
        | some b1 =>
          simp only [hv, hm] at h
          exact ih b1 b' (Reachable.step m hb hv hm) h

theorem sign_eq_zero_iff (v : Int) : sign v = 0 ↔ v = 0 := by
  unfold sign
  split
  · omega
  · split <;> omega

theorem getPromotedPiece_ne_pawn (t : PType) : getPromotedPiece t ≠ .Pawn := by
  cases t <;> simp [getPromotedPiece]

theorem pawn_GetMovements_DX (pl : Player) (dir : Direction)
    (h : dir ∈ (⟨.Pawn, pl⟩ : Piece).GetMovements) : dir.DX = 0 ∧ dir.Repeat = false := by
  cases pl <;> simp [Piece.GetMovements, movements, PType.toInt] at h <;> subst h <;> simp

theorem pawn_move_same_column (b : Board) (m : Move) (pl : Player)
    (h : isValidPieceMove b m ⟨.Pawn, pl⟩ = some true) : m.ToX = m.FromX := by
  unfold isValidPieceMove at h
  obtain ⟨dir, hmem, hcase⟩ := isValidPieceMoveLoop_sound b m _ _ _ _ h
  have hdx := (pawn_GetMovements_DX pl dir hmem).1
  rcases hcase with ⟨hk, _⟩ | ⟨_, hsx, _⟩
  · simp at hk
  · rw [hdx] at hsx
    have := (sign_eq_zero_iff _).1 hsx.symm
    omega

theorem New_pawn_rows : ∀ (pl : Player) (y x : Fin 9), New.Grid y x = ⟨.Pawn, pl⟩ →
    (y = 6 ∧ pl = .Sente) ∨ (y = 2 ∧ pl = .Gote) := by
  decide

theorem NoDoublePawn_New : NoDoublePawn New.Grid := by
  intro pl x y1 y2 h1 h2
  have a1 := New_pawn_rows pl y1 x h1
  have a2 := New_pawn_rows pl y2 x h2
  rcases a1 with ⟨rfl, rfl⟩ | ⟨rfl, rfl⟩ <;> rcases a2 with ⟨rfl, h⟩ | ⟨rfl, h⟩ <;>
    first | rfl | (exact absurd h (by decide))

theorem setGrid_apply (g : Fin 9 → Fin 9 → Piece) (y x : Fin 9) (p : Piece) (y' x' : Fin 9) :
    setGrid g y x p y' x' = if y' = y ∧ x' = x then p else g y' x' := rfl

theorem NoDoublePawn_drop (b : Board) (ty tx : Fin 9) (k : PType)
    (hinv : NoDoublePawn b.Grid)
    (hcol : k = .Pawn → ¬ ∃ y : Fin 9,
      (b.Grid y tx).Typ = .Pawn ∧ (b.Grid y tx).Player = b.CurrentPlayer) :
    NoDoublePawn (dropBoard b ty tx k).Grid := by
  intro pl x y1 y2 h1 h2
  simp only [dropBoard, setGrid_apply] at h1 h2
  have hold : ∀ y : Fin 9, ¬ (y = ty ∧ x = tx) → b.Grid y x = ⟨.Pawn, pl⟩ →
      (⟨k, b.CurrentPlayer⟩ : Piece) = ⟨.Pawn, pl⟩ → x = tx → False := by
    intro y _ hy hp hx
    simp only [Piece.mk.injEq] at hp
    subst hx
    exact hcol hp.1 ⟨y, by rw [hy], by rw [hy]; exact hp.2.symm⟩
  by_cases c1 : y1 = ty ∧ x = tx <;> by_cases c2 : y2 = ty ∧ x = tx
  · rw [c1.1, c2.1]
  · rw [if_pos c1] at h1
    rw [if_neg c2] at h2
    exact (hold y2 c2 h2 h1 c1.2).elim
  · rw [if_neg c1] at h1
    rw [if_pos c2] at h2
    exact (hold y1 c1 h1 h2 c2.2).elim
  · rw [if_neg c1] at h1
    rw [if_neg c2] at h2
    exact hinv pl x y1 y2 h1 h2

theorem movedPiece_pawn (p : Piece) (promote : Bool) (pl : Player)
    (h : movedPiece p promote = ⟨.Pawn, pl⟩) : p = ⟨.Pawn, pl⟩ ∧ promote = false := by
  unfold movedPiece at h
  cases promote with
  | false => exact ⟨by simpa using h, rfl⟩
  | true =>
    simp only [if_true, Piece.mk.injEq] at h
    exact absurd h.1 (getPromotedPiece_ne_pawn _)

theorem NoDoublePawn_move (b : Board) (m : Move) (fy fx ty tx : Fin 9)
    (hfx : m.FromX = ((fx : ℕ) : ℤ)) (htx : m.ToX = ((tx : ℕ) : ℤ))
    (hinv : NoDoublePawn b.Grid)
    (hne : ¬ (ty = fy ∧ tx = fx))
    (hmv : isValidPieceMove b m (b.Grid fy fx) = some true) :
    NoDoublePawn (moveBoard b fy fx ty tx m.Promote).Grid := by
  intro pl x y1 y2 h1 h2
  simp only [moveBoard, setGrid_apply] at h1 h2
  have hold : ∀ y : Fin 9, ¬ (y = ty ∧ x = tx) →
      (if y = fy ∧ x = fx then Piece.zero else b.Grid y x) = ⟨.Pawn, pl⟩ →
      ¬ (y = fy ∧ x = fx) ∧ b.Grid y x = ⟨.Pawn, pl⟩ := by
    intro y _ hy
    by_cases c : y = fy ∧ x = fx
    · rw [if_pos c] at hy
      simp [Piece.zero] at hy
    · rw [if_neg c] at hy
      exact ⟨c, hy⟩
  have hnew : ∀ y : Fin 9, ¬ (y = ty ∧ x = tx) →
      (if y = fy ∧ x = fx then Piece.zero else b.Grid y x) = ⟨.Pawn, pl⟩ →
      movedPiece (b.Grid fy fx) m.Promote = ⟨.Pawn, pl⟩ → x = tx → False := by
    intro y hc hy hp hx
    obtain ⟨hnf, hg⟩ := hold y hc hy
    obtain ⟨hsrc, _⟩ := movedPiece_pawn _ _ _ hp
    rw [hsrc] at hmv
    have hcolumn := pawn_move_same_column b m pl hmv
    rw [hfx, htx] at hcolumn
    have hxf : tx = fx := fin_cast_inj hcolumn
    have hxx : x = fx := hx.trans hxf
    subst hxx
    exact hnf ⟨hinv pl x y fy hg hsrc, rfl⟩
  by_cases c1 : y1 = ty ∧ x = tx <;> by_cases c2 : y2 = ty ∧ x = tx
  · rw [c1.1, c2.1]
  · rw [if_pos c1] at h1
    rw [if_neg c2] at h2
    exact (hnew y2 c2 h2 h1 c1.2).elim
  · rw [if_neg c1] at h1
    rw [if_pos c2] at h2
    exact (hnew y1 c1 h1 h2 c2.2).elim
  · rw [if_neg c1] at h1
    rw [if_neg c2] at h2
    exact hinv pl x y1 y2 (hold y1 c1 h1).2 (hold y2 c2 h2).2

theorem isValidDrop_inv (b : Board) (m : Move) (ty tx : Fin 9)
    (hty : m.ToY = ((ty : ℕ) : ℤ)) (htx : m.ToX = ((tx : ℕ) : ℤ))
    (h : isValidDrop b m = some true) :
    (1 ≤ (if b.CurrentPlayer = .Sente then b.SenteCaptures m.Piece
          else b.GoteCaptures m.Piece)) ∧
    (b.Grid ty tx).Typ = .Empty ∧
    (m.Piece = .Pawn → ¬ ∃ y : Fin 9,
      (b.Grid y tx).Typ = .Pawn ∧ (b.Grid y tx).Player = b.CurrentPlayer) := by
  obtain ⟨r, hr, hiff⟩ := isValidDrop_fin b m ty tx hty htx
  rw [h] at hr
  have hrt : r = true := (Option.some.inj hr).symm
  obtain ⟨h1, h2, h3, _⟩ := hiff.1 hrt
  exact ⟨h1, h2, fun hk => (h3 hk).1⟩

theorem reachable_NoDoublePawn (b : Board) (hb : Reachable b) : NoDoublePawn b.Grid := by
  induction hb with
  | init => exact NoDoublePawn_New
  | step m _ hv hm ih =>
    rcases valid_step_cases _ _ m hv hm with
      ⟨ty, tx, _, hty, htx, hd, rfl⟩ | ⟨fy, fx, ty, tx, hfy, hfx, hty, htx, hn, rfl⟩
    · exact NoDoublePawn_drop _ ty tx m.Piece ih (isValidDrop_inv _ m ty tx hty htx hd).2.2
    · obtain ⟨h1, h2, h3, _, h5⟩ := isValidNormalMove_inv _ m fy fx ty tx hfy hfx hty htx hn
      exact NoDoublePawn_move _ m fy fx ty tx hfx htx ih
        (valid_move_src_ne_dest _ fy fx ty tx h1 h2 h3) h5

theorem play_reachable (ms : List Move) : Reachable (play ms) := by
  unfold play
  cases h : playMoves New ms with
  | none =>
    rw [Option.getD_none]
    exact Reachable.init
  | some b =>
    rw [Option.getD_some]
    exact playMoves_reachable ms New b Reachable.init h

/-! ## No double pawn -/

/-- C3: in every board reachable from `New` by accepted moves no column holds two
unpromoted pawns of the same owner; a pawn drop into a column that already holds an
unpromoted pawn of the mover is rejected; and after an accepted pawn drop the
destination column holds exactly one unpromoted pawn of the dropper. -/
theorem C3_no_double_pawn :
    (∀ b : Board, Reachable b → ∀ (pl : Player) (x y1 y2 : Int),
      b.cell y1 x = some ⟨.Pawn, pl⟩ → b.cell y2 x = some ⟨.Pawn, pl⟩ → y1 = y2) ∧
    (∀ (b : Board) (m : Move), (m.FromX = -1 ∧ m.FromY = -1) →
      (0 ≤ m.ToX ∧ m.ToX < 9) → (0 ≤ m.ToY ∧ m.ToY < 9) → m.Piece = .Pawn →
      (∃ y, b.cell y m.ToX = some ⟨.Pawn, b.CurrentPlayer⟩) →
      IsValidMove b m = some false) ∧
    (∀ (b : Board) (m : Move), (m.FromX = -1 ∧ m.FromY = -1) → m.Piece = .Pawn →
      IsValidMove b m = some true →
      ∃ b', MakeMove b m = some b' ∧
        ∃! y : Int, b'.cell y m.ToX = some ⟨.Pawn, b.CurrentPlayer⟩) := by
  refine ⟨?_, ?_, ?_⟩
  · intro b hb pl x y1 y2 h1 h2
    obtain ⟨fy1, fx1, rfl, rfl, g1⟩ := (cell_eq_some_iff _ _ _ _).1 h1
    obtain ⟨fy2, fx2, rfl, hx, g2⟩ := (cell_eq_some_iff _ _ _ _).1 h2
    have hxx : fx2 = fx1 := (fin_cast_inj hx).symm
    subst hxx
    rw [reachable_NoDoublePawn b hb pl fx2 fy1 fy2 g1 g2]
  · intro b m hdrop htx hty hk ⟨y, hy⟩
    rw [IsValidMove_of_drop b m hdrop htx hty]
    obtain ⟨fy, fx, rfl, hx, g⟩ := (cell_eq_some_iff _ _ _ _).1 hy
    obtain ⟨ty, hty'⟩ := exists_fin m.ToY hty
    obtain ⟨r, hr, hiff⟩ := isValidDrop_fin b m ty fx hty' hx
    rw [hr]
    cases r with
    | false => rfl
    | true =>
      exact absurd ⟨fy, by rw [g], by rw [g]⟩ ((hiff.1 rfl).2.2.1 hk).1
  · intro b m hdrop hk hv
    obtain ⟨b', hm⟩ := valid_move_applies b m hv
    refine ⟨b', hm, ?_⟩
    rcases valid_step_cases b b' m hv hm with
      ⟨ty, tx, _, hty, htx, hd, rfl⟩ | ⟨fy, fx, ty, tx, _, hfx, _, _, _, _⟩
    · have hcol := (isValidDrop_inv b m ty tx hty htx hd).2.2 hk
      refine ⟨((ty : ℕ) : ℤ), ?_, ?_⟩
      · show (dropBoard b ty tx m.Piece).cell _ _ = _
        rw [htx, cell_fin]
        simp [dropBoard, setGrid_apply, hk]
      · intro y hy
        rw [htx] at hy
        obtain ⟨fy, fx, rfl, hx, g⟩ := (cell_eq_some_iff _ _ _ _).1 hy
        have hxx : fx = tx := (fin_cast_inj hx).symm
        subst hxx
        simp only [dropBoard, setGrid_apply, and_true] at g
        by_cases c : fy = ty
        · rw [c]
        · rw [if_neg c] at g
          exact absurd ⟨fy, by rw [g], by rw [g]⟩ hcol
    · have := fin_inRange fx
      omega

/-- C3 at concrete inputs: after the opening pawn push on column 4 the first mover's
pawn on (4,5) is the only one of its column; a pawn drop on column 4 of `positionA`,
which already holds the first mover's pawn on (4,1), is rejected; and after the pawn
drop on (0,4) column 0 holds exactly one pawn of the first mover. -/
theorem C3_no_double_pawn_witness :
    (∀ y : Int, (play [⟨4, 6, 4, 5, .Empty, false⟩]).cell y 4 = some ⟨.Pawn, .Sente⟩ → 5 = y) ∧
    IsValidMove positionA ⟨-1, -1, 4, 5, .Pawn, false⟩ = some false ∧
    (∃ b', MakeMove positionA ⟨-1, -1, 0, 4, .Pawn, false⟩ = some b' ∧
      ∃! y : Int, b'.cell y 0 = some ⟨.Pawn, .Sente⟩) :=
  ⟨fun y h => C3_no_double_pawn.1 (play [⟨4, 6, 4, 5, .Empty, false⟩]) (play_reachable _)
      .Sente 4 5 y (by decide) h,
    C3_no_double_pawn.2.1 positionA ⟨-1, -1, 4, 5, .Pawn, false⟩ (by decide) (by decide)
      (by decide) rfl ⟨1, by decide⟩,
    C3_no_double_pawn.2.2 positionA ⟨-1, -1, 0, 4, .Pawn, false⟩ (by decide) rfl (by decide)⟩

/-! ## Conservation of material -/

theorem sum_swap_one {ι : Type} [Fintype ι] [DecidableEq ι] (F G : ι → ℕ) (i : ι)
    (h : ∀ j, j ≠ i → F j = G j) : ∑ j, F j + G i = ∑ j, G j + F i := by
  rw [← Finset.add_sum_erase Finset.univ F (Finset.mem_univ i),
    ← Finset.add_sum_erase Finset.univ G (Finset.mem_univ i)]
  have : ∑ j ∈ Finset.univ.erase i, F j = ∑ j ∈ Finset.univ.erase i, G j :=
    Finset.sum_congr rfl fun j hj => h j (Finset.ne_of_mem_erase hj)
  omega

theorem countGrid_setGrid (f : Piece → Bool) (g : Fin 9 → Fin 9 → Piece) (y x : Fin 9)
    (p : Piece) :
    countGrid f (setGrid g y x p) + (if f (g y x) then 1 else 0) =
      countGrid f g + (if f p then 1 else 0) := by
  unfold countGrid
  have hrow : (∑ x' : Fin 9, if f (setGrid g y x p y x') then 1 else 0) +
      (if f (g y x) then 1 else 0) =
      (∑ x' : Fin 9, if f (g y x') then 1 else 0) + (if f p then 1 else 0) := by
    have := sum_swap_one (fun x' => if f (setGrid g y x p y x') then 1 else 0)
      (fun x' => if f (g y x') then 1 else 0) x
      (fun j hj => by simp [setGrid_apply, hj])
    simpa [setGrid_apply] using this
  have hother := sum_swap_one
    (fun y' => ∑ x' : Fin 9, if f (setGrid g y x p y' x') then 1 else 0)
    (fun y' => ∑ x' : Fin 9, if f (g y' x') then 1 else 0) y
    (fun j hj => by simp [setGrid_apply, hj])
  simp only at hother
  omega

theorem New_counts :
    ∀ k ∈ stockKinds, (countGrid (isKind k) New.Grid : Int) = supply k := by
  decide

theorem isKind_eq : ∀ (t : PType) (pl : Player), ∀ k ∈ stockKinds,
    isKind k ⟨t, pl⟩ = decide (getOriginalPiece t = k) := by
  decide

theorem getOriginalPiece_getPromotedPiece (t : PType) :
    getOriginalPiece (getPromotedPiece t) = getOriginalPiece t := by
  cases t <;> rfl

theorem isPromoted_getOriginalPiece (t : PType) : isPromoted (getOriginalPiece t) = false := by
  cases t <;> rfl

theorem getOriginalPiece_of_not_promoted (t : PType) (h : isPromoted t = false) :
    getOriginalPiece t = t := by
  cases t <;> first | rfl | simp [isPromoted] at h

theorem stockKinds_ne_empty : ∀ k ∈ stockKinds, k ≠ PType.Empty := by
  decide

theorem Conserved_New : Conserved New :=
  ⟨fun k hk => by
      have h := New_counts k hk
      have hs : New.SenteCaptures k = 0 := rfl
      have hg : New.GoteCaptures k = 0 := rfl
      rw [hs, hg, h]
      simp,
    fun _ _ => ⟨rfl, rfl⟩⟩

theorem Conserved_drop (b : Board) (ty tx : Fin 9) (k : PType) (hinv : Conserved b)
    (hempty : (b.Grid ty tx).Typ = .Empty)
    (hstock : 1 ≤ (if b.CurrentPlayer = .Sente then b.SenteCaptures k else b.GoteCaptures k)) :
    Conserved (dropBoard b ty tx k) := by
  have hkp : isPromoted k = false := by
    cases hp : isPromoted k with
    | false => rfl
    | true =>
      obtain ⟨h1, h2⟩ := hinv.2 k hp
      rw [h1, h2] at hstock
      simp at hstock
  constructor
  · intro j hj
    have hc := countGrid_setGrid (isKind j) b.Grid ty tx ⟨k, b.CurrentPlayer⟩
    have h0 : isKind j (b.Grid ty tx) = false := by
      have := isKind_eq (b.Grid ty tx).Typ (b.Grid ty tx).Player j hj
      rw [this, hempty]
      simpa [getOriginalPiece] using (stockKinds_ne_empty j hj).symm
    have h1 : isKind j ⟨k, b.CurrentPlayer⟩ = decide (k = j) := by
      rw [isKind_eq k b.CurrentPlayer j hj, getOriginalPiece_of_not_promoted k hkp]
    have hj0 := hinv.1 j hj
    rw [h0, h1] at hc
    simp only [dropBoard, setCount]
    by_cases hcp : b.CurrentPlayer = .Sente <;> by_cases hjk : k = j
    · subst hjk
      simp only [hcp, if_true, decide_True, setCount] at hc ⊢
      simp at hc
      omega
    · have hjk' : ¬ j = k := fun h => hjk h.symm
      simp only [hcp, if_true, hjk, hjk', decide_False, if_false, setCount] at hc ⊢
      simp at hc
      omega
    · subst hjk
      simp only [hcp, if_false, if_true, decide_True, setCount] at hc ⊢
      simp at hc
      omega
    · have hjk' : ¬ j = k := fun h => hjk h.symm
      simp only [hcp, if_false, hjk, hjk', decide_False, setCount] at hc ⊢
      simp at hc
      omega
  · intro j hj
    have hne : j ≠ k := by
      rintro rfl
      rw [hkp] at hj
      exact absurd hj (by decide)
    obtain ⟨h1, h2⟩ := hinv.2 j hj
    simp only [dropBoard]
    constructor
    · split <;> simp [setCount, hne, h1]
    · split <;> simp [setCount, hne, h2]

theorem isKind_movedPiece (j : PType) (hj : j ∈ stockKinds) (p : Piece) (promote : Bool) :
    isKind j (movedPiece p promote) = isKind j p := by
  unfold movedPiece
  cases promote with
  | false => rfl
  | true =>
    simp only [if_true]
    rw [isKind_eq _ p.Player j hj, isKind_eq p.Typ p.Player j hj,
      getOriginalPiece_getPromotedPiece]

theorem Conserved_move (b : Board) (fy fx ty tx : Fin 9) (promote : Bool)
    (hinv : Conserved b) (hne : ¬ (ty = fy ∧ tx = fx)) :
    Conserved (moveBoard b fy fx ty tx promote) := by
  constructor
  · intro j hj
    have hc1 := countGrid_setGrid (isKind j) b.Grid fy fx Piece.zero
    have hc2 := countGrid_setGrid (isKind j) (setGrid b.Grid fy fx Piece.zero) ty tx
      (movedPiece (b.Grid fy fx) promote)
    rw [setGrid_apply, if_neg hne, isKind_movedPiece j hj] at hc2
    have hz : isKind j Piece.zero = false := by
      have := isKind_eq .Empty .None j hj
      rw [Piece.zero, this]
      simpa [getOriginalPiece] using (stockKinds_ne_empty j hj).symm
    have hd : isKind j (b.Grid ty tx) = decide (getOriginalPiece (b.Grid ty tx).Typ = j) :=
      isKind_eq (b.Grid ty tx).Typ (b.Grid ty tx).Player j hj
    rw [hz] at hc1
    rw [hd] at hc2
    have hj0 := hinv.1 j hj
    have hoE : (b.Grid ty tx).Typ = .Empty → ¬ getOriginalPiece (b.Grid ty tx).Typ = j := by
      intro he
      rw [he]
      exact fun h => stockKinds_ne_empty j hj h.symm
    simp only [moveBoard]
    generalize getOriginalPiece (b.Grid ty tx).Typ = o at hc2 hoE ⊢
    clear hne hd
    by_cases he : (b.Grid ty tx).Typ = .Empty
    · have hoj := hoE he
      rw [if_neg (by simp [he]), if_neg (by simp [he])]
      cases ha : isKind j (b.Grid fy fx) <;> simp [ha, hoj] at hc1 hc2 <;> omega
    · by_cases hcp : b.CurrentPlayer = .Sente <;> by_cases hoj : o = j
      · subst hoj
        rw [if_pos ⟨he, hcp⟩, if_neg (by simp [hcp])]
        cases ha : isKind o (b.Grid fy fx) <;> simp [ha, setCount] at hc1 hc2 ⊢ <;> omega
      · have hoj' : ¬ j = o := fun h => hoj h.symm
        rw [if_pos ⟨he, hcp⟩, if_neg (by simp [hcp])]
        cases ha : isKind j (b.Grid fy fx) <;> simp [ha, setCount, hoj, hoj'] at hc1 hc2 ⊢ <;>
          omega
      · subst hoj
        rw [if_neg (by simp [hcp]), if_pos ⟨he, hcp⟩]
        cases ha : isKind o (b.Grid fy fx) <;> simp [ha, setCount] at hc1 hc2 ⊢ <;> omega
      · have hoj' : ¬ j = o := fun h => hoj h.symm
        rw [if_neg (by simp [hcp]), if_pos ⟨he, hcp⟩]
        cases ha : isKind j (b.Grid fy fx) <;> simp [ha, setCount, hoj, hoj'] at hc1 hc2 ⊢ <;>
          omega
  · intro j hj
    have hne' : j ≠ getOriginalPiece (b.Grid ty tx).Typ := by
      intro h
      rw [h, isPromoted_getOriginalPiece] at hj
      exact absurd hj (by decide)
    obtain ⟨h1, h2⟩ := hinv.2 j hj
    simp only [moveBoard]
    constructor
    · split <;> simp [setCount, hne', h1]
    · split <;> simp [setCount, hne', h2]

theorem reachable_Conserved (b : Board) (hb : Reachable b) : Conserved b := by
  induction hb with
  | init => exact Conserved_New
  | step m _ hv hm ih =>
    rcases valid_step_cases _ _ m hv hm with
      ⟨ty, tx, _, hty, htx, hd, rfl⟩ | ⟨fy, fx, ty, tx, hfy, hfx, hty, htx, hn, rfl⟩
    · obtain ⟨h1, h2, _⟩ := isValidDrop_inv _ m ty tx hty htx hd
      exact Conserved_drop _ ty tx m.Piece ih h2 h1
    · obtain ⟨h1, h2, h3, _, _⟩ := isValidNormalMove_inv _ m fy fx ty tx hfy hfx hty htx hn
      exact Conserved_move _ fy fx ty tx m.Promote ih
        (valid_move_src_ne_dest _ fy fx ty tx h1 h2 h3)

/-- C4: in every board reachable from `New` by accepted moves, for each of the seven
stock kinds the number of pieces of that kind on the grid, in base or promoted form and
of either owner, plus both players' stock counts for the kind equals the supply of the
opening position (18 pawns, 4 lances, 4 knights, 4 silvers, 4 golds, 2 bishops,
2 rooks), and every promoted kind has stock count zero for both players. -/
theorem C4_material_conserved (b : Board) (hb : Reachable b) :
    (∀ k ∈ [PType.Pawn, .Lance, .Knight, .Silver, .Gold, .Bishop, .Rook],
      (countGrid (fun p => decide (p.Typ = k ∨ p.Typ = getPromotedPiece k)) b.Grid : Int) +
        b.SenteCaptures k + b.GoteCaptures k = supply k) ∧
    (supply .Pawn = 18 ∧ supply .Lance = 4 ∧ supply .Knight = 4 ∧ supply .Silver = 4 ∧
      supply .Gold = 4 ∧ supply .Bishop = 2 ∧ supply .Rook = 2) ∧
    (∀ k ∈ [PType.PromPawn, .PromLance, .PromKnight, .PromSilver, .PromBishop, .PromRook],
      b.SenteCaptures k = 0 ∧ b.GoteCaptures k = 0) := by
  obtain ⟨h1, h2⟩ := reachable_Conserved b hb
  refine ⟨h1, by decide, ?_⟩
  intro k hk
  apply h2
  revert k
  decide

/-- C4 at a concrete input: after the bishop raid, in which the first mover has taken
a pawn, the pawns on the grid and in the two stocks still number 18, one of them in the
first mover's stock. -/
theorem C4_material_conserved_witness :
    ((countGrid (fun p => decide (p.Typ = PType.Pawn ∨ p.Typ = getPromotedPiece .Pawn))
        (play bishopRaid).Grid : Int) +
      (play bishopRaid).SenteCaptures .Pawn + (play bishopRaid).GoteCaptures .Pawn =
        supply .Pawn) ∧
    (play bishopRaid).SenteCaptures .Pawn = 1 :=
  ⟨(C4_material_conserved (play bishopRaid) (play_reachable bishopRaid)).1 .Pawn (by decide),
    by decide⟩

/-! ## Kings -/

theorem getPromotedPiece_eq_king (t : PType) : getPromotedPiece t = .King ↔ t = .King := by
  cases t <;> simp [getPromotedPiece]

theorem getOriginalPiece_eq_king (t : PType) : getOriginalPiece t = .King ↔ t = .King := by
  cases t <;> simp [getOriginalPiece]

theorem movedPiece_eq_king (p : Piece) (promote : Bool) (pl : Player) :
    movedPiece p promote = ⟨.King, pl⟩ ↔ p = ⟨.King, pl⟩ := by
  obtain ⟨t, o⟩ := p
  unfold movedPiece
  cases promote with
  | false => simp
  | true => simp [getPromotedPiece_eq_king]

theorem KingsKept_New : KingsKept New := by
  unfold KingsKept kingCount
  decide

theorem kingCount_drop (pl : Player) (b : Board) (ty tx : Fin 9) (k : PType)
    (hempty : (b.Grid ty tx).Typ = .Empty) (hk : k ≠ .King) :
    kingCount pl (dropBoard b ty tx k) = kingCount pl b := by
  unfold kingCount
  have hc := countGrid_setGrid (fun p => decide (p = ⟨.King, pl⟩)) b.Grid ty tx
    ⟨k, b.CurrentPlayer⟩
  have h0 : ¬ b.Grid ty tx = ⟨.King, pl⟩ := by
    intro h
    rw [h] at hempty
    simp at hempty
  have h1 : ¬ (⟨k, b.CurrentPlayer⟩ : Piece) = ⟨.King, pl⟩ := by
    intro h
    exact hk (congrArg Piece.Typ h)
  simp only [h0, h1, decide_False, Bool.false_eq_true, if_false, add_zero] at hc
  exact hc

theorem kingCount_move (pl : Player) (b : Board) (fy fx ty tx : Fin 9) (promote : Bool)
    (hne : ¬ (ty = fy ∧ tx = fx)) (hd : (b.Grid ty tx).Typ ≠ .King) :
    kingCount pl (moveBoard b fy fx ty tx promote) = kingCount pl b := by
  unfold kingCount
  have hc1 := countGrid_setGrid (fun p => decide (p = ⟨.King, pl⟩)) b.Grid fy fx Piece.zero
  have hc2 := countGrid_setGrid (fun p => decide (p = ⟨.King, pl⟩))
    (setGrid b.Grid fy fx Piece.zero) ty tx (movedPiece (b.Grid fy fx) promote)
  rw [setGrid_apply, if_neg hne] at hc2
  have h0 : ¬ b.Grid ty tx = ⟨.King, pl⟩ := fun h => hd (congrArg Piece.Typ h)
  have hz : ¬ Piece.zero = ⟨.King, pl⟩ := by
    simp [Piece.zero]
  simp only [h0, hz, decide_False, Bool.false_eq_true, if_false, add_zero,
    movedPiece_eq_king] at hc1 hc2
  simp only [moveBoard]
  omega

theorem KingsKept_step (b b' : Board) (m : Move) (hinv : KingsKept b)
    (hv : IsValidMove b m = some true)
    (hk : ∀ pl : Player, b.cell m.ToY m.ToX ≠ some ⟨.King, pl⟩)
    (hm : MakeMove b m = some b') : KingsKept b' := by
  obtain ⟨i1, i2, i3, i4⟩ := hinv
  rcases valid_step_cases _ _ m hv hm with
    ⟨ty, tx, _, hty, htx, hd, rfl⟩ | ⟨fy, fx, ty, tx, hfy, hfx, hty, htx, hn, rfl⟩
  · obtain ⟨h1, h2, _⟩ := isValidDrop_inv _ m ty tx hty htx hd
    have hkk : m.Piece ≠ .King := by
      intro h
      rw [h, i3, i4] at h1
      simp at h1
    refine ⟨by rw [kingCount_drop _ _ _ _ _ h2 hkk, i1],
      by rw [kingCount_drop _ _ _ _ _ h2 hkk, i2], ?_, ?_⟩
    · simp only [dropBoard]
      split <;> simp [setCount, Ne.symm hkk, i3]
    · simp only [dropBoard]
      split <;> simp [setCount, Ne.symm hkk, i4]
  · obtain ⟨h1, h2, h3, _, _⟩ := isValidNormalMove_inv _ m fy fx ty tx hfy hfx hty htx hn
    have hne := valid_move_src_ne_dest _ fy fx ty tx h1 h2 h3
    have hdk : (b.Grid ty tx).Typ ≠ .King := by
      intro h
      apply hk (b.Grid ty tx).Player
      rw [hty, htx, cell_fin, ← h]
    have hok : PType.King ≠ getOriginalPiece (b.Grid ty tx).Typ := by
      intro h
      exact hdk ((getOriginalPiece_eq_king _).1 h.symm)
    refine ⟨by rw [kingCount_move _ _ _ _ _ _ _ hne hdk, i1],
      by rw [kingCount_move _ _ _ _ _ _ _ hne hdk, i2], ?_, ?_⟩
    · simp only [moveBoard]
      split <;> simp [setCount, hok, i3]
    · simp only [moveBoard]
      split <;> simp [setCount, hok, i4]

/-- C5, for games in which no king is taken: in every board reachable from `New` by
accepted moves none of which has a king on its destination square, each player has
exactly one king on the grid and neither player's stock holds a king. -/
theorem C5_kings_kept_while_no_king_is_taken (b : Board) (hb : ReachableSparingKings b) :
    kingCount .Sente b = 1 ∧ kingCount .Gote b = 1 ∧
      b.SenteCaptures .King = 0 ∧ b.GoteCaptures .King = 0 := by
  induction hb with
  | init => exact KingsKept_New
  | step m _ hv hk hm ih => exact KingsKept_step _ _ m ih hv hk hm

/-- C5 at a concrete input: the board after the opening pawn push from (4,6) to (4,5). -/
theorem C5_kings_kept_while_no_king_is_taken_witness :
    kingCount .Sente (moveBoard New 6 4 5 4 false) = 1 ∧
    kingCount .Gote (moveBoard New 6 4 5 4 false) = 1 ∧
    (moveBoard New 6 4 5 4 false).SenteCaptures .King = 0 ∧
    (moveBoard New 6 4 5 4 false).GoteCaptures .King = 0 :=
  C5_kings_kept_while_no_king_is_taken (moveBoard New 6 4 5 4 false)
    (ReachableSparingKings.step ⟨4, 6, 4, 5, .Empty, false⟩ ReachableSparingKings.init
      (by decide) (by decide)
      (MakeMove_move New ⟨4, 6, 4, 5, .Empty, false⟩ 6 4 5 4 rfl rfl rfl rfl))

/-- C5 does not hold for every accepted game: `kingCaptureGame` consists of accepted
moves only, its last move is accepted with the second mover's king on its destination
(4,0), and on the board it reaches the second mover has no king on the grid while the
first mover's stock holds a king. -/
theorem C5_king_is_captured_in_kingCaptureGame :
    Reachable (play kingCaptureGame) ∧
    (play (kingCaptureGame.take 4)).cell 0 4 = some ⟨.King, .Gote⟩ ∧
    IsValidMove (play (kingCaptureGame.take 4)) ⟨6, 2, 4, 0, .Empty, false⟩ = some true ∧
    (playMoves New kingCaptureGame).isSome = true ∧
    kingCount .Gote (play kingCaptureGame) = 0 ∧
    (play kingCaptureGame).SenteCaptures .King = 1 :=
  ⟨play_reachable kingCaptureGame, by decide, by decide, by decide, by decide, by decide⟩

/-! ## The path walk -/

theorem sign_cases (v : Int) :
    (v < 0 ∧ sign v = -1) ∨ (v = 0 ∧ sign v = 0) ∨ (0 < v ∧ sign v = 1) := by
  unfold sign
  split
  · exact Or.inl ⟨by assumption, rfl⟩
  · split
    · exact Or.inr (Or.inr ⟨by assumption, rfl⟩)
    · exact Or.inr (Or.inl ⟨by omega, rfl⟩)

theorem abs_cases (v : Int) : (v < 0 ∧ abs v = -v) ∨ (0 ≤ v ∧ abs v = v) := by
  unfold abs
  split
  · exact Or.inl ⟨by assumption, rfl⟩
  · exact Or.inr ⟨by omega, rfl⟩

/-- When the walk started at `(x, y)` answers true, the destination is `j` steps ahead
and the `j` cells walked over are empty cells of the grid. -/
theorem isPathClearLoop_true (b : Board) (m : Move) (dx dy : Int) :
    ∀ (fuel : Nat) (x y : Int), isPathClearLoop b m dx dy fuel x y = some true →
      ∃ j : Nat, m.ToX = x + j * dx ∧ m.ToY = y + j * dy ∧
        ∀ i : Nat, i < j → ∃ c, b.cell (y + i * dy) (x + i * dx) = some c ∧ c.Typ = .Empty := by
  intro fuel
  induction fuel with
  | zero =>
    intro x y h
    simp [isPathClearLoop] at h
  | succ fuel ih =>
    intro x y h
    unfold isPathClearLoop at h
    by_cases hc : x ≠ m.ToX ∨ y ≠ m.ToY
    · rw [if_pos hc] at h
      split at h
      · simp at h
      · cases hcell : b.cell y x with
        | none => simp [hcell] at h
        | some c =>
          simp only [hcell] at h
          by_cases he : c.Typ = .Empty
          · rw [if_neg (by simpa using he)] at h
            obtain ⟨j, hx, hy, hcells⟩ := ih (x + dx) (y + dy) h
            refine ⟨j + 1, ?_, ?_, ?_⟩
            · rw [hx]
              push_cast
              ring
            · rw [hy]
              push_cast
              ring
            · intro i hi
              cases i with
              | zero => exact ⟨c, by simpa using hcell, he⟩
              | succ i =>
                obtain ⟨c', hc', he'⟩ := hcells i (by omega)
                refine ⟨c', ?_, he'⟩
                rw [← hc']
                congr 1 <;> push_cast <;> ring
          · rw [if_pos (by simpa using he)] at h
            simp at h
    · rw [if_neg hc] at h
      refine ⟨0, ?_, ?_, ?_⟩
      · simp only [Nat.cast_zero, zero_mul, add_zero]
        by_contra hx
        exact hc (Or.inl fun h' => hx h'.symm)
      · simp only [Nat.cast_zero, zero_mul, add_zero]
        by_contra hy
        exact hc (Or.inr fun h' => hy h'.symm)
      · intro i hi
        omega

/-- The walk answers within its fuel whenever a measure `mu` that is positive on the
grid and drops with every step inside the grid is below the fuel. -/
theorem isPathClearLoop_total (b : Board) (m : Move) (dx dy : Int) (mu : Int → Int → Nat)
    (hpos : ∀ x y : Int, (0 ≤ x ∧ x < 9) → (0 ≤ y ∧ y < 9) → 1 ≤ mu x y)
    (hstep : ∀ x y : Int, (0 ≤ x ∧ x < 9) → (0 ≤ y ∧ y < 9) →
      (0 ≤ x + dx ∧ x + dx < 9) → (0 ≤ y + dy ∧ y + dy < 9) → mu (x + dx) (y + dy) < mu x y) :
    ∀ (fuel : Nat) (x y : Int), 1 ≤ fuel →
      ((0 ≤ x ∧ x < 9) → (0 ≤ y ∧ y < 9) → mu x y < fuel) →
      ∃ r, isPathClearLoop b m dx dy fuel x y = some r := by
  intro fuel
  induction fuel with
  | zero =>
    intro x y h1
    omega
  | succ fuel ih =>
    intro x y _ hmu
    unfold isPathClearLoop
    by_cases hc : x ≠ m.ToX ∨ y ≠ m.ToY
    · rw [if_pos hc]
      by_cases hr : x < 0 ∨ x ≥ BoardSize ∨ y < 0 ∨ y ≥ BoardSize
      · rw [if_pos hr]
        exact ⟨false, rfl⟩
      · rw [if_neg hr]
        rw [BoardSize_eq] at hr
        have hx : 0 ≤ x ∧ x < 9 := by omega
        have hy : 0 ≤ y ∧ y < 9 := by omega
        obtain ⟨c, hcell⟩ := cell_isSome b y x hy hx
        simp only [hcell]
        by_cases he : c.Typ = .Empty
        · rw [if_neg (by simpa using he)]
          have h1 := hpos x y hx hy
          have h2 := hmu hx hy
          apply ih (x + dx) (y + dy) (by omega)
          intro hx' hy'
          have := hstep x y hx hy hx' hy'
          omega
        · rw [if_pos (by simpa using he)]
          exact ⟨false, rfl⟩
    · rw [if_neg hc]
      exact ⟨true, rfl⟩

/-- The method `isPathClear` always returns: ten units of fuel are enough on every
board and for every move. -/
theorem isPathClear_total (b : Board) (m : Move) : ∃ r, isPathClear b m = some r := by
  unfold isPathClear
  simp only
  rcases sign_cases (m.ToX - m.FromX) with ⟨_, hsx⟩ | ⟨hzx, hsx⟩ | ⟨_, hsx⟩
  · rw [hsx]
    apply isPathClearLoop_total b m (-1) _ (fun x _ => (x + 1).toNat)
    · intro x y hx _
      omega
    · intro x y hx _ hx' _
      omega
    · omega
    · intro hx _
      omega
  · rcases sign_cases (m.ToY - m.FromY) with ⟨_, hsy⟩ | ⟨hzy, hsy⟩ | ⟨_, hsy⟩
    · rw [hsy]
      apply isPathClearLoop_total b m _ (-1) (fun _ y => (y + 1).toNat)
      · intro x y _ hy
        omega
      · intro x y _ hy _ hy'
        omega
      · omega
      · intro _ hy
        omega
    · rw [hsx, hsy]
      refine ⟨true, ?_⟩
      unfold isPathClearLoop
      rw [if_neg (by omega)]
    · rw [hsy]
      apply isPathClearLoop_total b m _ 1 (fun _ y => (9 - y).toNat)
      · intro x y _ hy
        omega
      · intro x y _ hy _ hy'
        omega
      · omega
      · intro _ hy
        omega
  · rw [hsx]
    apply isPathClearLoop_total b m 1 _ (fun x _ => (9 - x).toNat)
    · intro x y hx _
      omega
    · intro x y hx _ hx' _
      omega
    · omega
    · intro hx _
      omega

theorem isValidPieceMoveLoop_total (b : Board) (m : Move) (p : Piece) (dx dy : Int)
    (dirs : List Direction) : ∃ r, isValidPieceMoveLoop b m p dx dy dirs = some r := by
  induction dirs with
  | nil => exact ⟨false, rfl⟩
  | cons dir dirs ih =>
    unfold isValidPieceMoveLoop
    split
    · split
      · exact ⟨true, rfl⟩
      · exact ih
    · split
      · split
        · exact ⟨_, rfl⟩
        · obtain ⟨r, hr⟩ := isPathClear_total b m
          rw [hr]
          cases r with
          | true => exact ⟨true, rfl⟩
          | false => exact ih
      · exact ih

theorem isValidPieceMove_total (b : Board) (m : Move) (p : Piece) :
    ∃ r, isValidPieceMove b m p = some r :=
  isValidPieceMoveLoop_total b m p _ _ _

theorem isValidNormalMove_total (b : Board) (m : Move)
    (hfx : 0 ≤ m.FromX ∧ m.FromX < 9) (hfy : 0 ≤ m.FromY ∧ m.FromY < 9)
    (htx : 0 ≤ m.ToX ∧ m.ToX < 9) (hty : 0 ≤ m.ToY ∧ m.ToY < 9) :
    ∃ r, isValidNormalMove b m = some r := by
  obtain ⟨p, hp⟩ := cell_isSome b m.FromY m.FromX hfy hfx
  obtain ⟨d, hd⟩ := cell_isSome b m.ToY m.ToX hty htx
  rw [isValidNormalMove_eq b m p d hp hd]
  split
  · exact ⟨false, rfl⟩
  · split
    · exact ⟨false, rfl⟩
    · split
      · exact ⟨false, rfl⟩
      · exact isValidPieceMove_total b m p

/-- What an accepted piece move looks like: a knight makes the literal jump of a table
entry; any other piece moves one step along a non-sliding entry, or `j + 1` steps along
a sliding entry over `j` empty cells. -/
theorem isValidPieceMove_true (b : Board) (m : Move) (p : Piece)
    (h : isValidPieceMove b m p = some true) :
    ∃ dir ∈ p.GetMovements,
      (p.Typ = .Knight ∧ m.ToX - m.FromX = dir.DX ∧ m.ToY - m.FromY = dir.DY) ∨
      (p.Typ ≠ .Knight ∧ dir.Repeat = false ∧
        dir.DX = sign (m.ToX - m.FromX) ∧ dir.DY = sign (m.ToY - m.FromY) ∧
        m.ToX - m.FromX = dir.DX ∧ m.ToY - m.FromY = dir.DY) ∨
      (p.Typ ≠ .Knight ∧ dir.Repeat = true ∧
        dir.DX = sign (m.ToX - m.FromX) ∧ dir.DY = sign (m.ToY - m.FromY) ∧ ∃ j : Nat,
        m.ToX - m.FromX = (j + 1) * dir.DX ∧ m.ToY - m.FromY = (j + 1) * dir.DY ∧
        ∀ i : Nat, i < j → ∃ c,
          b.cell (m.FromY + (i + 1) * dir.DY) (m.FromX + (i + 1) * dir.DX) = some c ∧
          c.Typ = .Empty) := by
  unfold isValidPieceMove at h
  obtain ⟨dir, hmem, hcase⟩ := isValidPieceMoveLoop_sound b m p _ _ _ h
  refine ⟨dir, hmem, ?_⟩
  rcases hcase with ⟨hk, hx, hy⟩ | ⟨hk, hsx, hsy, hrest⟩
  · exact Or.inl ⟨hk, hx, hy⟩
  · rcases hrest with ⟨hr, hax, hay⟩ | ⟨hr, hpc⟩
    · refine Or.inr (Or.inl ⟨hk, hr, hsx, hsy, ?_, ?_⟩)
      · rw [hsx] at hax ⊢
        rcases sign_cases (m.ToX - m.FromX) with ⟨h1, h2⟩ | ⟨h1, h2⟩ | ⟨h1, h2⟩ <;>
          rw [h2] at hax ⊢ <;>
          rcases abs_cases (m.ToX - m.FromX) with ⟨h3, h4⟩ | ⟨h3, h4⟩ <;>
          rw [h4] at hax <;> simp [abs] at hax <;> omega
      · rw [hsy] at hay ⊢
        rcases sign_cases (m.ToY - m.FromY) with ⟨h1, h2⟩ | ⟨h1, h2⟩ | ⟨h1, h2⟩ <;>
          rw [h2] at hay ⊢ <;>
          rcases abs_cases (m.ToY - m.FromY) with ⟨h3, h4⟩ | ⟨h3, h4⟩ <;>
          rw [h4] at hay <;> simp [abs] at hay <;> omega
    · refine Or.inr (Or.inr ⟨hk, hr, hsx, hsy, ?_⟩)
      unfold isPathClear at hpc
      simp only at hpc
      rw [← hsx, ← hsy] at hpc
      obtain ⟨j, hx, hy, hcells⟩ := isPathClearLoop_true b m _ _ _ _ _ hpc
      refine ⟨j, ?_, ?_, ?_⟩
      · rw [hx]
        ring
      · rw [hy]
        ring
      · intro i hi
        obtain ⟨c, hc, he⟩ := hcells i hi
        refine ⟨c, ?_, he⟩
        rw [← hc]
        congr 1 <;> ring

/-! ## Path obstruction -/

/-- C6: for an in-range board move whose source holds a lance, bishop, rook, promoted
bishop or promoted rook and whose source and destination share a row, a column or a
diagonal, `IsValidMove` answers false as soon as one cell strictly between source and
destination is occupied, whatever the source and destination cells hold. -/
theorem C6_blocked_slide_rejected (b : Board) (m : Move) (p : Piece)
    (hfx : 0 ≤ m.FromX ∧ m.FromX < 9) (hfy : 0 ≤ m.FromY ∧ m.FromY < 9)
    (htx : 0 ≤ m.ToX ∧ m.ToX < 9) (hty : 0 ≤ m.ToY ∧ m.ToY < 9)
    (hsrc : b.cell m.FromY m.FromX = some p)
    (hkind : p.Typ = .Lance ∨ p.Typ = .Bishop ∨ p.Typ = .Rook ∨ p.Typ = .PromBishop ∨
      p.Typ = .PromRook)
    (_hline : m.ToX - m.FromX = 0 ∨ m.ToY - m.FromY = 0 ∨
      abs (m.ToX - m.FromX) = abs (m.ToY - m.FromY))
    (hblock : ∃ k : Int, 0 < k ∧ k < max (abs (m.ToX - m.FromX)) (abs (m.ToY - m.FromY)) ∧
      ∃ c, b.cell (m.FromY + k * sign (m.ToY - m.FromY))
        (m.FromX + k * sign (m.ToX - m.FromX)) = some c ∧ c.Typ ≠ .Empty) :
    IsValidMove b m = some false := by
  obtain ⟨dest, hd⟩ := cell_isSome b m.ToY m.ToX hty htx
  rw [IsValidMove_of_inRange b m hfx hfy htx hty, isValidNormalMove_eq b m p dest hsrc hd]
  have hpm : isValidPieceMove b m p = some false := by
    obtain ⟨r, hr⟩ := isValidPieceMove_total b m p
    cases r with
    | false => exact hr
    | true =>
      exfalso
      obtain ⟨k, hk0, hkmax, c, hc, hne⟩ := hblock
      obtain ⟨dir, _, hcase⟩ := isValidPieceMove_true b m p hr
      rcases hcase with ⟨hkn, _⟩ | ⟨_, _, hsx, hsy, hx, hy⟩ | ⟨_, _, hsx, hsy, j, hx, hy, hcells⟩
      · rcases hkind with h | h | h | h | h <;> rw [h] at hkn <;> exact absurd hkn (by decide)
      · rw [hsx] at hx
        rw [hsy] at hy
        rcases sign_cases (m.ToX - m.FromX) with ⟨h1, h2⟩ | ⟨h1, h2⟩ | ⟨h1, h2⟩ <;>
          rcases sign_cases (m.ToY - m.FromY) with ⟨h3, h4⟩ | ⟨h3, h4⟩ | ⟨h3, h4⟩ <;>
          rcases abs_cases (m.ToX - m.FromX) with ⟨h5, h6⟩ | ⟨h5, h6⟩ <;>
          rcases abs_cases (m.ToY - m.FromY) with ⟨h7, h8⟩ | ⟨h7, h8⟩ <;>
          omega
      · rw [hsx] at hx
        rw [hsy] at hy
        have hkj : k ≤ j := by
          rcases sign_cases (m.ToX - m.FromX) with ⟨h1, h2⟩ | ⟨h1, h2⟩ | ⟨h1, h2⟩ <;>
            rcases sign_cases (m.ToY - m.FromY) with ⟨h3, h4⟩ | ⟨h3, h4⟩ | ⟨h3, h4⟩ <;>
            rcases abs_cases (m.ToX - m.FromX) with ⟨h5, h6⟩ | ⟨h5, h6⟩ <;>
            rcases abs_cases (m.ToY - m.FromY) with ⟨h7, h8⟩ | ⟨h7, h8⟩ <;>
            rw [h2] at hx <;> rw [h4] at hy <;> omega
        obtain ⟨c', hc', he'⟩ := hcells (k.toNat - 1) (by omega)
        have hcast : (((k.toNat - 1 : ℕ) : ℤ) + 1) = k := by omega
        rw [hcast, hsx, hsy, hc] at hc'
        exact hne ((Option.some.inj hc') ▸ he')
  rw [hpm]
  split
  · rfl
  · split
    · rfl
    · split <;> rfl

/-- C6 at a concrete input: in `positionA` the bishop on (1,7) cannot reach (4,4),
because (3,5) on its diagonal is occupied. -/
theorem C6_blocked_slide_rejected_witness :
    IsValidMove positionA ⟨1, 7, 4, 4, .Empty, false⟩ = some false :=
  C6_blocked_slide_rejected positionA ⟨1, 7, 4, 4, .Empty, false⟩ ⟨.Bishop, .Sente⟩
    (by decide) (by decide) (by decide) (by decide) (by decide) (by decide) (by decide)
    ⟨2, by decide, by decide, ⟨.Pawn, .Gote⟩, by decide, by decide⟩

/-! ## Drops and promotion requests -/

/-- C7: with the first or second mover to move, `IsValidMove` answers a drop with an
in-range destination, and it answers true exactly when the mover's stock holds the
dropped kind, the destination is empty, a pawn is dropped neither on a column with an
unpromoted pawn of the mover nor on the mover's farthest rank, a lance is not dropped
on the mover's farthest rank and a knight is not dropped on the mover's two farthest
ranks; no other kind is restricted. -/
theorem C7_drop_accepted_iff (b : Board) (m : Move)
    (hpl : b.CurrentPlayer = .Sente ∨ b.CurrentPlayer = .Gote)
    (hdrop : m.FromX = -1 ∧ m.FromY = -1)
    (htx : 0 ≤ m.ToX ∧ m.ToX < 9) (hty : 0 ≤ m.ToY ∧ m.ToY < 9) :
    ∃ r, IsValidMove b m = some r ∧ (r = true ↔
      ((b.CurrentPlayer = .Sente → 1 ≤ b.SenteCaptures m.Piece) ∧
       (b.CurrentPlayer = .Gote → 1 ≤ b.GoteCaptures m.Piece)) ∧
      (∃ c, b.cell m.ToY m.ToX = some c ∧ c.Typ = .Empty) ∧
      (m.Piece = .Pawn →
        (∀ (y : Int) (c : Piece), b.cell y m.ToX = some c →
          ¬ (c.Typ = .Pawn ∧ c.Player = b.CurrentPlayer)) ∧
        ¬ ((b.CurrentPlayer = .Sente ∧ m.ToY = 0) ∨ (b.CurrentPlayer = .Gote ∧ m.ToY = 8))) ∧
      (m.Piece = .Lance →
        ¬ ((b.CurrentPlayer = .Sente ∧ m.ToY = 0) ∨ (b.CurrentPlayer = .Gote ∧ m.ToY = 8))) ∧
      (m.Piece = .Knight →
        ¬ ((b.CurrentPlayer = .Sente ∧ m.ToY ≤ 1) ∨ (b.CurrentPlayer = .Gote ∧ 7 ≤ m.ToY)))) := by
  obtain ⟨ty, hty'⟩ := exists_fin m.ToY hty
  obtain ⟨tx, htx'⟩ := exists_fin m.ToX htx
  obtain ⟨r, hr, hiff⟩ := isValidDrop_fin b m ty tx hty' htx'
  refine ⟨r, by rw [IsValidMove_of_drop b m hdrop htx hty, hr], ?_⟩
  rw [hiff]
  have hstock : (1 ≤ (if b.CurrentPlayer = .Sente then b.SenteCaptures m.Piece
      else b.GoteCaptures m.Piece)) ↔
      ((b.CurrentPlayer = .Sente → 1 ≤ b.SenteCaptures m.Piece) ∧
       (b.CurrentPlayer = .Gote → 1 ≤ b.GoteCaptures m.Piece)) := by
    rcases hpl with h | h <;> simp [h]
  have hcell : (b.Grid ty tx).Typ = .Empty ↔
      ∃ c, b.cell m.ToY m.ToX = some c ∧ c.Typ = .Empty := by
    rw [hty', htx', cell_fin]
    simp
  have hcol : (¬ ∃ y : Fin 9, (b.Grid y tx).Typ = .Pawn ∧
      (b.Grid y tx).Player = b.CurrentPlayer) ↔
      ∀ (y : Int) (c : Piece), b.cell y m.ToX = some c →
        ¬ (c.Typ = .Pawn ∧ c.Player = b.CurrentPlayer) := by
    constructor
    · intro h y c hc hp
      rw [htx'] at hc
      obtain ⟨fy, fx, rfl, hx, g⟩ := (cell_eq_some_iff _ _ _ _).1 hc
      have hxx : fx = tx := (fin_cast_inj hx).symm
      subst hxx
      exact h ⟨fy, by rw [g]; exact hp⟩
    · rintro h ⟨y, hy⟩
      exact h ((y : ℕ) : ℤ) (b.Grid y tx) (by rw [htx', cell_fin]) hy
  rw [hstock, hcell, hcol]

/-- C7 at a concrete input: in `positionA` the first mover may drop the stocked pawn
on (0,4). -/
theorem C7_drop_accepted_iff_witness :
    ∃ r, IsValidMove positionA ⟨-1, -1, 0, 4, .Pawn, false⟩ = some r ∧ (r = true ↔
      ((positionA.CurrentPlayer = .Sente → 1 ≤ positionA.SenteCaptures .Pawn) ∧
       (positionA.CurrentPlayer = .Gote → 1 ≤ positionA.GoteCaptures .Pawn)) ∧
      (∃ c, positionA.cell 4 0 = some c ∧ c.Typ = .Empty) ∧
      (PType.Pawn = .Pawn →
        (∀ (y : Int) (c : Piece), positionA.cell y 0 = some c →
          ¬ (c.Typ = .Pawn ∧ c.Player = positionA.CurrentPlayer)) ∧
        ¬ ((positionA.CurrentPlayer = .Sente ∧ (4 : Int) = 0) ∨
          (positionA.CurrentPlayer = .Gote ∧ (4 : Int) = 8))) ∧
      (PType.Pawn = .Lance →
        ¬ ((positionA.CurrentPlayer = .Sente ∧ (4 : Int) = 0) ∨
          (positionA.CurrentPlayer = .Gote ∧ (4 : Int) = 8))) ∧
      (PType.Pawn = .Knight →
        ¬ ((positionA.CurrentPlayer = .Sente ∧ (4 : Int) ≤ 1) ∨
          (positionA.CurrentPlayer = .Gote ∧ (7 : Int) ≤ 4)))) :=
  C7_drop_accepted_iff positionA ⟨-1, -1, 0, 4, .Pawn, false⟩ (by decide) (by decide)
    (by decide) (by decide)

/-- C8: with the first or second mover to move, for an in-range board move with the
promote flag set whose source holds a piece of the mover, whose destination does not
hold a piece of the mover and whose displacement is an available movement of the piece,
`IsValidMove` answers true exactly when the piece is an unpromoted pawn, lance, knight,
silver, bishop or rook and the source row or the destination row lies in the mover's
farthest three ranks (rows 0-2 for the first mover, rows 6-8 for the second); so a
promotion request for a king, a gold or a promoted piece is rejected. -/
theorem C8_promotion_request_accepted_iff (b : Board) (m : Move) (p dest : Piece)
    (hpl : b.CurrentPlayer = .Sente ∨ b.CurrentPlayer = .Gote)
    (hfx : 0 ≤ m.FromX ∧ m.FromX < 9) (hfy : 0 ≤ m.FromY ∧ m.FromY < 9)
    (htx : 0 ≤ m.ToX ∧ m.ToX < 9) (hty : 0 ≤ m.ToY ∧ m.ToY < 9)
    (hflag : m.Promote = true)
    (hsrc : b.cell m.FromY m.FromX = some p)
    (hown : p.Typ ≠ .Empty ∧ p.Player = b.CurrentPlayer)
    (hdst : b.cell m.ToY m.ToX = some dest)
    (hfree : ¬ (dest.Typ ≠ .Empty ∧ dest.Player = b.CurrentPlayer))
    (hmv : isValidPieceMove b m p = some true) :
    ∃ r, IsValidMove b m = some r ∧
      (r = true ↔
        (p.Typ = .Pawn ∨ p.Typ = .Lance ∨ p.Typ = .Knight ∨ p.Typ = .Silver ∨
          p.Typ = .Bishop ∨ p.Typ = .Rook) ∧
        ((b.CurrentPlayer = .Sente ∧ (m.FromY ≤ 2 ∨ m.ToY ≤ 2)) ∨
         (b.CurrentPlayer = .Gote ∧ (6 ≤ m.FromY ∨ 6 ≤ m.ToY)))) ∧
      (p.Typ = .King ∨ p.Typ = .Gold ∨ isPromoted p.Typ = true → r = false) := by
  rw [IsValidMove_of_inRange b m hfx hfy htx hty, isValidNormalMove_eq b m p dest hsrc hdst,
    if_neg (by simp [hown.1, hown.2]), if_neg hfree, hmv]
  have hprom : isValidPromotion b m p = true ↔
      (p.Typ = .Pawn ∨ p.Typ = .Lance ∨ p.Typ = .Knight ∨ p.Typ = .Silver ∨
          p.Typ = .Bishop ∨ p.Typ = .Rook) ∧
        ((b.CurrentPlayer = .Sente ∧ (m.FromY ≤ 2 ∨ m.ToY ≤ 2)) ∨
         (b.CurrentPlayer = .Gote ∧ (6 ≤ m.FromY ∨ 6 ≤ m.ToY))) := by
    rcases hpl with h | h <;> cases ht : p.Typ <;>
      simp [isValidPromotion, hflag, h, ht, PType.CanPromote]
  cases hr : isValidPromotion b m p with
  | true =>
    refine ⟨true, by simp, ?_, ?_⟩
    · simpa using hprom.1 hr
    · intro hk
      exfalso
      obtain ⟨hkind, _⟩ := hprom.1 hr
      rcases hk with h | h | h
      · rw [h] at hkind
        simp at hkind
      · rw [h] at hkind
        simp at hkind
      · rcases hkind with h' | h' | h' | h' | h' | h' <;> rw [h'] at h <;> simp [isPromoted] at h
  | false =>
    refine ⟨false, by simp, ?_, fun _ => rfl⟩
    rw [← hprom, hr]

/-- C8 at a concrete input: in `positionA` the knight on (2,3) may jump to (3,1) with
promotion. -/
theorem C8_promotion_request_accepted_iff_witness :
    ∃ r, IsValidMove positionA ⟨2, 3, 3, 1, .Empty, true⟩ = some r ∧
      (r = true ↔
        (PType.Knight = .Pawn ∨ PType.Knight = .Lance ∨ PType.Knight = .Knight ∨
          PType.Knight = .Silver ∨ PType.Knight = .Bishop ∨ PType.Knight = .Rook) ∧
        ((positionA.CurrentPlayer = .Sente ∧ ((3 : Int) ≤ 2 ∨ (1 : Int) ≤ 2)) ∨
         (positionA.CurrentPlayer = .Gote ∧ ((6 : Int) ≤ 3 ∨ (6 : Int) ≤ 1)))) ∧
      (PType.Knight = .King ∨ PType.Knight = .Gold ∨ isPromoted .Knight = true → r = false) :=
  C8_promotion_request_accepted_iff positionA ⟨2, 3, 3, 1, .Empty, true⟩ ⟨.Knight, .Sente⟩
    Piece.zero (by decide) (by decide) (by decide) (by decide) (by decide) rfl (by decide)
    (by decide) (by decide) (by decide) (by decide)

/-! ## Displacements of accepted board moves -/

theorem IsValidMove_true_of_not_drop (b : Board) (m : Move)
    (hnd : ¬ (m.FromX = -1 ∧ m.FromY = -1)) (hv : IsValidMove b m = some true) :
    ∃ fy fx ty tx : Fin 9, m.FromY = ((fy : ℕ) : ℤ) ∧ m.FromX = ((fx : ℕ) : ℤ) ∧
      m.ToY = ((ty : ℕ) : ℤ) ∧ m.ToX = ((tx : ℕ) : ℤ) ∧ isValidNormalMove b m = some true := by
  unfold IsValidMove at hv
  rw [BoardSize_eq, if_neg hnd] at hv
  by_cases hr : m.FromX < 0 ∨ m.FromX ≥ 9 ∨ m.FromY < 0 ∨ m.FromY ≥ 9 ∨
      m.ToX < 0 ∨ m.ToX ≥ 9 ∨ m.ToY < 0 ∨ m.ToY ≥ 9
  · simp [hr] at hv
  · rw [if_neg hr] at hv
    obtain ⟨fy, hfy⟩ := exists_fin m.FromY (by omega)
    obtain ⟨fx, hfx⟩ := exists_fin m.FromX (by omega)
    obtain ⟨ty, hty⟩ := exists_fin m.ToY (by omega)
    obtain ⟨tx, htx⟩ := exists_fin m.ToX (by omega)
    exact ⟨fy, fx, ty, tx, hfy, hfx, hty, htx, hv⟩

theorem bishop_directions : ∀ (pl : Player), ∀ dir ∈ (⟨.Bishop, pl⟩ : Piece).GetMovements,
    (dir.DX = 1 ∨ dir.DX = -1) ∧ (dir.DY = 1 ∨ dir.DY = -1) := by
  decide

theorem rook_lance_directions : ∀ (pl : Player),
    (∀ dir ∈ (⟨.Rook, pl⟩ : Piece).GetMovements, dir.DX = 0 ∨ dir.DY = 0) ∧
    (∀ dir ∈ (⟨.Lance, pl⟩ : Piece).GetMovements, dir.DX = 0 ∨ dir.DY = 0) := by
  decide

theorem promBishop_directions : ∀ (pl : Player),
    ∀ dir ∈ (⟨.PromBishop, pl⟩ : Piece).GetMovements,
      ((dir.DX = 1 ∨ dir.DX = -1) ∧ (dir.DY = 1 ∨ dir.DY = -1)) ∨
      (dir.Repeat = false ∧
        ((dir.DX = 0 ∧ (dir.DY = 1 ∨ dir.DY = -1)) ∨ ((dir.DX = 1 ∨ dir.DX = -1) ∧ dir.DY = 0))) := by
  decide

theorem promRook_directions : ∀ (pl : Player),
    ∀ dir ∈ (⟨.PromRook, pl⟩ : Piece).GetMovements,
      (dir.DX = 0 ∨ dir.DY = 0) ∨
      (dir.Repeat = false ∧ (dir.DX = 1 ∨ dir.DX = -1) ∧ (dir.DY = 1 ∨ dir.DY = -1)) := by
  decide

/-- C9: for every board move that `IsValidMove` accepts, the displacement is `k` times
a direction of the moving piece's orientation-adjusted movement list with `k ≥ 1`, and
`k = 1` unless the direction slides (so the knight makes the table's literal jump); a
bishop moves with `|dx| = |dy|`, a rook or lance with `dx = 0` or `dy = 0`, and a
promoted bishop or rook leaves its sliding lines by one cell only. -/
theorem C9_accepted_move_follows_direction (b : Board) (m : Move)
    (hnd : ¬ (m.FromX = -1 ∧ m.FromY = -1)) (hv : IsValidMove b m = some true) :
    ∃ p, b.cell m.FromY m.FromX = some p ∧
      (∃ dir ∈ p.GetMovements, ∃ k : Int, 1 ≤ k ∧
        m.ToX - m.FromX = k * dir.DX ∧ m.ToY - m.FromY = k * dir.DY ∧
        (dir.Repeat = false → k = 1)) ∧
      (p.Typ = .Bishop → abs (m.ToX - m.FromX) = abs (m.ToY - m.FromY)) ∧
      (p.Typ = .Rook ∨ p.Typ = .Lance → m.ToX - m.FromX = 0 ∨ m.ToY - m.FromY = 0) ∧
      (p.Typ = .PromBishop → abs (m.ToX - m.FromX) = abs (m.ToY - m.FromY) ∨
        abs (m.ToX - m.FromX) + abs (m.ToY - m.FromY) = 1) ∧
      (p.Typ = .PromRook → m.ToX - m.FromX = 0 ∨ m.ToY - m.FromY = 0 ∨
        (abs (m.ToX - m.FromX) = 1 ∧ abs (m.ToY - m.FromY) = 1)) := by
  obtain ⟨fy, fx, ty, tx, hfy, hfx, hty, htx, hn⟩ := IsValidMove_true_of_not_drop b m hnd hv
  obtain ⟨_, _, _, _, hpm⟩ := isValidNormalMove_inv b m fy fx ty tx hfy hfx hty htx hn
  refine ⟨b.Grid fy fx, by rw [hfy, hfx, cell_fin], ?_⟩
  generalize b.Grid fy fx = p at hpm
  obtain ⟨t, pl⟩ := p
  have hmain : ∃ dir ∈ (⟨t, pl⟩ : Piece).GetMovements, ∃ k : Int, 1 ≤ k ∧
      m.ToX - m.FromX = k * dir.DX ∧ m.ToY - m.FromY = k * dir.DY ∧
      (dir.Repeat = false → k = 1) := by
    obtain ⟨dir, hmem, hcase⟩ := isValidPieceMove_true b m _ hpm
    refine ⟨dir, hmem, ?_⟩
    rcases hcase with ⟨_, hx, hy⟩ | ⟨_, _, _, _, hx, hy⟩ | ⟨_, hr, _, _, j, hx, hy, _⟩
    · exact ⟨1, le_refl _, by omega, by omega, fun _ => rfl⟩
    · exact ⟨1, le_refl _, by omega, by omega, fun _ => rfl⟩
    · exact ⟨j + 1, by omega, hx, hy, fun h => by rw [hr] at h; exact absurd h (by decide)⟩
  refine ⟨hmain, ?_, ?_, ?_, ?_⟩
  · intro ht
    simp only at ht
    subst ht
    obtain ⟨dir, hmem, k, hk, hx, hy, _⟩ := hmain
    obtain ⟨h1, h2⟩ := bishop_directions pl dir hmem
    rw [hx, hy]
    rcases h1 with h1 | h1 <;> rcases h2 with h2 | h2 <;> rw [h1, h2] <;> unfold abs <;>
      split <;> split <;> omega
  · intro ht
    simp only at ht
    obtain ⟨dir, hmem, k, hk, hx, hy, _⟩ := hmain
    rcases ht with ht | ht <;> subst ht
    · rcases (rook_lance_directions pl).1 dir hmem with h | h
      · exact Or.inl (by rw [hx, h]; simp)
      · exact Or.inr (by rw [hy, h]; simp)
    · rcases (rook_lance_directions pl).2 dir hmem with h | h
      · exact Or.inl (by rw [hx, h]; simp)
      · exact Or.inr (by rw [hy, h]; simp)
  · intro ht
    simp only at ht
    subst ht
    obtain ⟨dir, hmem, k, hk, hx, hy, hone⟩ := hmain
    rw [hx, hy]
    rcases promBishop_directions pl dir hmem with ⟨h1, h2⟩ | ⟨hr, h⟩
    · left
      rcases h1 with h1 | h1 <;> rcases h2 with h2 | h2 <;> rw [h1, h2] <;> unfold abs <;>
        split <;> split <;> omega
    · right
      rw [hone hr]
      rcases h with ⟨h1, h2 | h2⟩ | ⟨h1 | h1, h2⟩ <;> rw [h1, h2] <;> decide
  · intro ht
    simp only at ht
    subst ht
    obtain ⟨dir, hmem, k, hk, hx, hy, hone⟩ := hmain
    rw [hx, hy]
    rcases promRook_directions pl dir hmem with h | ⟨hr, h1, h2⟩
    · rcases h with h | h
      · exact Or.inl (by rw [h]; simp)
      · exact Or.inr (Or.inl (by rw [h]; simp))
    · right
      right
      rw [hone hr]
      rcases h1 with h1 | h1 <;> rcases h2 with h2 | h2 <;> rw [h1, h2] <;> decide

/-- C9 at a concrete input: the bishop's capture on (6,2) in `bishopRaid` goes five
cells along a diagonal. -/
theorem C9_accepted_move_follows_direction_witness :
    ∃ p, (play (bishopRaid.take 2)).cell 7 1 = some p ∧
      (∃ dir ∈ p.GetMovements, ∃ k : Int, 1 ≤ k ∧
        (6 : Int) - 1 = k * dir.DX ∧ (2 : Int) - 7 = k * dir.DY ∧
        (dir.Repeat = false → k = 1)) ∧
      (p.Typ = .Bishop → abs ((6 : Int) - 1) = abs ((2 : Int) - 7)) ∧
      (p.Typ = .Rook ∨ p.Typ = .Lance → (6 : Int) - 1 = 0 ∨ (2 : Int) - 7 = 0) ∧
      (p.Typ = .PromBishop → abs ((6 : Int) - 1) = abs ((2 : Int) - 7) ∨
        abs ((6 : Int) - 1) + abs ((2 : Int) - 7) = 1) ∧
      (p.Typ = .PromRook → (6 : Int) - 1 = 0 ∨ (2 : Int) - 7 = 0 ∨
        (abs ((6 : Int) - 1) = 1 ∧ abs ((2 : Int) - 7) = 1)) :=
  C9_accepted_move_follows_direction (play (bishopRaid.take 2)) ⟨1, 7, 6, 2, .Empty, true⟩
    (by decide) (by decide)

/-! ## Check detection leaves the board alone -/

theorem scanCells_eq_finCells :
    scanCells = finCells.map fun c => ((((c.1 : ℕ) : ℤ)), (((c.2 : ℕ) : ℤ))) := by
  decide

theorem findKingLoop_fin (b : Board) (player : Player) (cells : List (Fin 9 × Fin 9)) :
    ∃ r : Int × Int,
      findKingLoop b player (cells.map fun c => ((((c.1 : ℕ) : ℤ)), (((c.2 : ℕ) : ℤ)))) =
        some r ∧
      (r = (-1, -1) ∨ ((0 ≤ r.1 ∧ r.1 < 9) ∧ (0 ≤ r.2 ∧ r.2 < 9))) := by
  induction cells with
  | nil => exact ⟨(-1, -1), rfl, Or.inl rfl⟩
  | cons c cells ih =>
    simp only [List.map_cons, findKingLoop, cell_fin]
    split
    · exact ⟨_, rfl, Or.inr ⟨fin_inRange c.1, fin_inRange c.2⟩⟩
    · exact ih

theorem IsCheckLoop_total (b : Board) (opponent : Player) (kingX kingY : Int)
    (hkx : 0 ≤ kingX ∧ kingX < 9) (hky : 0 ≤ kingY ∧ kingY < 9)
    (cells : List (Fin 9 × Fin 9)) :
    ∃ r, IsCheckLoop b opponent kingX kingY
      (cells.map fun c => ((((c.1 : ℕ) : ℤ)), (((c.2 : ℕ) : ℤ)))) = some r := by
  induction cells with
  | nil => exact ⟨false, rfl⟩
  | cons c cells ih =>
    simp only [List.map_cons, IsCheckLoop, cell_fin]
    split
    · obtain ⟨r, hr⟩ := isValidNormalMove_total b
        ⟨((c.1 : ℕ) : ℤ), ((c.2 : ℕ) : ℤ), kingX, kingY, .Empty, false⟩
        (fin_inRange c.1) (fin_inRange c.2) hkx hky
      rw [hr]
      cases r with
      | true => exact ⟨true, rfl⟩
      | false => exact ih
    · exact ih

/-- C10: on every board `IsCheck` returns, and the board it leaves behind is the board
it was called on: the player to move, every grid cell and both stocks are unchanged,
whether the king is absent, an attacker is found or none is found. -/
theorem C10_IsCheck_restores_board (b : Board) : ∃ r, IsCheck b = some (r, b) := by
  unfold IsCheck
  obtain ⟨k, hk, hrange⟩ := findKingLoop_fin b b.CurrentPlayer finCells
  rw [← scanCells_eq_finCells] at hk
  obtain ⟨kingX, kingY⟩ := k
  simp only [findKing, hk]
  by_cases hx : kingX = -1
  · rw [if_pos hx]
    exact ⟨false, rfl⟩
  · rw [if_neg hx]
    rcases hrange with h | ⟨hkx, hky⟩
    · exact absurd (congrArg Prod.fst h) hx
    · obtain ⟨r, hr⟩ := IsCheckLoop_total { b with CurrentPlayer := getNextPlayer b.CurrentPlayer }
        (getNextPlayer b.CurrentPlayer) kingX kingY hkx hky finCells
      rw [← scanCells_eq_finCells] at hr
      rw [hr]
      cases r with
      | true => exact ⟨true, rfl⟩
      | false => exact ⟨false, rfl⟩

/-! ## Effects of `MakeMove` -/

theorem MakeMove_player (b b' : Board) (m : Move) (hv : IsValidMove b m = some true)
    (hm : MakeMove b m = some b') : b'.CurrentPlayer = getNextPlayer b.CurrentPlayer := by
  rcases valid_step_cases b b' m hv hm with
    ⟨_, _, _, _, _, _, rfl⟩ | ⟨_, _, _, _, _, _, _, _, _, rfl⟩ <;> rfl

/-- C11: with the first or second mover to move, after `MakeMove` applies an accepted
move (drop or board move) the other player is to move, and a second accepted move
returns the turn to the original player. -/
theorem C11_turn_alternates (b : Board) (m : Move)
    (hpl : b.CurrentPlayer = .Sente ∨ b.CurrentPlayer = .Gote)
    (hv : IsValidMove b m = some true) :
    ∃ b', MakeMove b m = some b' ∧
      (b.CurrentPlayer = .Sente → b'.CurrentPlayer = .Gote) ∧
      (b.CurrentPlayer = .Gote → b'.CurrentPlayer = .Sente) ∧
      b'.CurrentPlayer = b.CurrentPlayer.Opposite ∧
      ∀ (m2 : Move) (b2 : Board), IsValidMove b' m2 = some true → MakeMove b' m2 = some b2 →
        b2.CurrentPlayer = b.CurrentPlayer := by
  obtain ⟨b', hm⟩ := valid_move_applies b m hv
  have h1 := MakeMove_player b b' m hv hm
  refine ⟨b', hm, ?_, ?_, ?_, ?_⟩
  · intro h
    rw [h1, h]
    rfl
  · intro h
    rw [h1, h]
    rfl
  · rcases hpl with h | h <;> rw [h1, h] <;> rfl
  · intro m2 b2 hv2 hm2
    rw [MakeMove_player b' b2 m2 hv2 hm2, h1]
    rcases hpl with h | h <;> rw [h] <;> rfl

/-- C11 at a concrete input: the opening pawn push from (4,6) to (4,5) on `New`. -/
theorem C11_turn_alternates_witness :
    ∃ b', MakeMove New ⟨4, 6, 4, 5, .Empty, false⟩ = some b' ∧
      (New.CurrentPlayer = .Sente → b'.CurrentPlayer = .Gote) ∧
      (New.CurrentPlayer = .Gote → b'.CurrentPlayer = .Sente) ∧
      b'.CurrentPlayer = New.CurrentPlayer.Opposite ∧
      ∀ (m2 : Move) (b2 : Board), IsValidMove b' m2 = some true → MakeMove b' m2 = some b2 →
        b2.CurrentPlayer = New.CurrentPlayer :=
  C11_turn_alternates New ⟨4, 6, 4, 5, .Empty, false⟩ (by decide) (by decide)

/-- C12: when an accepted board move lands on an occupied cell, which then holds an
opponent piece of some kind `k`, `MakeMove` raises the mover's stock count for the
demoted form of `k` by exactly one and leaves the count of every other kind, promoted
kinds included, as it was; taking a promoted rook adds one rook. -/
theorem C12_capture_adds_demoted_kind (b : Board) (m : Move) (d : Piece)
    (hnd : ¬ (m.FromX = -1 ∧ m.FromY = -1)) (hv : IsValidMove b m = some true)
    (hd : b.cell m.ToY m.ToX = some d) (hocc : d.Typ ≠ .Empty) :
    d.Player ≠ b.CurrentPlayer ∧
    ∃ b', MakeMove b m = some b' ∧
      stockOf b' b.CurrentPlayer (getOriginalPiece d.Typ) =
        stockOf b b.CurrentPlayer (getOriginalPiece d.Typ) + 1 ∧
      (∀ j, j ≠ getOriginalPiece d.Typ →
        stockOf b' b.CurrentPlayer j = stockOf b b.CurrentPlayer j) ∧
      (d.Typ = .PromRook →
        stockOf b' b.CurrentPlayer .Rook = stockOf b b.CurrentPlayer .Rook + 1) := by
  obtain ⟨fy, fx, ty, tx, hfy, hfx, hty, htx, hn⟩ := IsValidMove_true_of_not_drop b m hnd hv
  obtain ⟨_, _, h3, _, _⟩ := isValidNormalMove_inv b m fy fx ty tx hfy hfx hty htx hn
  rw [hty, htx, cell_fin] at hd
  have hg : b.Grid ty tx = d := Option.some.inj hd
  rw [hg] at h3
  have hkey : stockOf (moveBoard b fy fx ty tx m.Promote) b.CurrentPlayer =
      setCount (stockOf b b.CurrentPlayer) (getOriginalPiece d.Typ)
        (stockOf b b.CurrentPlayer (getOriginalPiece d.Typ) + 1) := by
    unfold stockOf moveBoard
    by_cases hc : b.CurrentPlayer = .Sente <;> simp [hc, hg, hocc]
  refine ⟨fun h => h3 ⟨hocc, h⟩, moveBoard b fy fx ty tx m.Promote,
    MakeMove_move b m fy fx ty tx hfy hfx hty htx, ?_, ?_, ?_⟩
  · rw [hkey]
    simp [setCount]
  · intro j hj
    rw [hkey]
    simp [setCount, hj]
  · intro hk
    rw [hkey, hk]
    simp [setCount, getOriginalPiece]

/-- C12 at a concrete input: in `positionD` the gold on (4,4) takes the promoted rook
on (4,3), and the first mover's rook count goes up by one. -/
theorem C12_capture_adds_demoted_kind_witness :
    (⟨.PromRook, .Gote⟩ : Piece).Player ≠ positionD.CurrentPlayer ∧
    ∃ b', MakeMove positionD ⟨4, 4, 4, 3, .Empty, false⟩ = some b' ∧
      stockOf b' positionD.CurrentPlayer (getOriginalPiece .PromRook) =
        stockOf positionD positionD.CurrentPlayer (getOriginalPiece .PromRook) + 1 ∧
      (∀ j, j ≠ getOriginalPiece .PromRook →
        stockOf b' positionD.CurrentPlayer j = stockOf positionD positionD.CurrentPlayer j) ∧
      (PType.PromRook = .PromRook →
        stockOf b' positionD.CurrentPlayer .Rook =
          stockOf positionD positionD.CurrentPlayer .Rook + 1) :=
  C12_capture_adds_demoted_kind positionD ⟨4, 4, 4, 3, .Empty, false⟩ ⟨.PromRook, .Gote⟩
    (by decide) (by decide) (by decide) (by decide)

theorem getPromotedPiece_of_CanPromote (t : PType) (h : t.CanPromote = true) :
    isPromoted (getPromotedPiece t) = true ∧ getPromotedPiece t ≠ t := by
  cases t <;> first | exact ⟨rfl, by decide⟩ | simp [PType.CanPromote] at h

theorem isValidPromotion_flag (b : Board) (m : Move) (p : Piece)
    (h : isValidPromotion b m p = true) (hflag : m.Promote = true) : p.Typ.CanPromote = true := by
  unfold isValidPromotion at h
  cases hc : p.Typ.CanPromote with
  | true => rfl
  | false => simp [hflag, hc] at h

/-- C13: after `MakeMove` applies an accepted board move the source cell is empty and
the destination cell holds a piece of the mover: the moved piece with its kind
unchanged when the promote flag is unset, and with the promoted counterpart of its kind
(a promoted kind, different from the kind it had) when the flag is set, so that a pawn
becomes a promoted pawn. -/
theorem C13_board_move_places_piece (b : Board) (m : Move) (p : Piece)
    (hnd : ¬ (m.FromX = -1 ∧ m.FromY = -1)) (hv : IsValidMove b m = some true)
    (hp : b.cell m.FromY m.FromX = some p) :
    ∃ b', MakeMove b m = some b' ∧
      b'.cell m.FromY m.FromX = some ⟨.Empty, .None⟩ ∧
      (m.Promote = false → b'.cell m.ToY m.ToX = some ⟨p.Typ, b.CurrentPlayer⟩) ∧
      (m.Promote = true →
        b'.cell m.ToY m.ToX = some ⟨getPromotedPiece p.Typ, b.CurrentPlayer⟩ ∧
        isPromoted (getPromotedPiece p.Typ) = true ∧ getPromotedPiece p.Typ ≠ p.Typ) ∧
      (m.Promote = true → p.Typ = .Pawn →
        b'.cell m.ToY m.ToX = some ⟨.PromPawn, b.CurrentPlayer⟩) := by
  obtain ⟨fy, fx, ty, tx, hfy, hfx, hty, htx, hn⟩ := IsValidMove_true_of_not_drop b m hnd hv
  obtain ⟨h1, h2, h3, h4, _⟩ := isValidNormalMove_inv b m fy fx ty tx hfy hfx hty htx hn
  have hne := valid_move_src_ne_dest b fy fx ty tx h1 h2 h3
  rw [hfy, hfx, cell_fin] at hp
  have hg : b.Grid fy fx = p := Option.some.inj hp
  rw [hg] at h2 h4
  have hsrc : (moveBoard b fy fx ty tx m.Promote).cell m.FromY m.FromX = some ⟨.Empty, .None⟩ := by
    rw [hfy, hfx, cell_fin]
    simp only [moveBoard, setGrid_apply, and_self, if_true]
    rw [if_neg (fun h => hne ⟨h.1.symm, h.2.symm⟩)]
    rfl
  have hdst : (moveBoard b fy fx ty tx m.Promote).cell m.ToY m.ToX =
      some (movedPiece p m.Promote) := by
    rw [hty, htx, cell_fin]
    simp [moveBoard, setGrid_apply, hg]
  refine ⟨moveBoard b fy fx ty tx m.Promote, MakeMove_move b m fy fx ty tx hfy hfx hty htx,
    hsrc, ?_, ?_, ?_⟩
  · intro hf
    rw [hdst, hf, ← h2]
    rfl
  · intro hf
    refine ⟨?_, getPromotedPiece_of_CanPromote p.Typ (isValidPromotion_flag b m p h4 hf)⟩
    rw [hdst, hf, ← h2]
    rfl
  · intro hf hk
    rw [hdst, hf, ← h2]
    simp [movedPiece, hk, getPromotedPiece]

/-- C13 at a concrete input: in `positionA` the pawn on (4,1) steps to (4,0) with
promotion and becomes a promoted pawn. -/
theorem C13_board_move_places_piece_witness :
    ∃ b', MakeMove positionA ⟨4, 1, 4, 0, .Empty, true⟩ = some b' ∧
      b'.cell 1 4 = some ⟨.Empty, .None⟩ ∧
      (true = false → b'.cell 0 4 = some ⟨.Pawn, positionA.CurrentPlayer⟩) ∧
      (true = true →
        b'.cell 0 4 = some ⟨getPromotedPiece .Pawn, positionA.CurrentPlayer⟩ ∧
        isPromoted (getPromotedPiece .Pawn) = true ∧ getPromotedPiece .Pawn ≠ .Pawn) ∧
      (true = true → PType.Pawn = .Pawn →
        b'.cell 0 4 = some ⟨.PromPawn, positionA.CurrentPlayer⟩) :=
  C13_board_move_places_piece positionA ⟨4, 1, 4, 0, .Empty, true⟩ ⟨.Pawn, .Sente⟩
    (by decide) (by decide) (by decide)

theorem getNextPlayer_eq_Opposite (pl : Player) (h : pl = .Sente ∨ pl = .Gote) :
    getNextPlayer pl = pl.Opposite := by
  rcases h with h | h <;> rw [h] <;> rfl

theorem DropPiece_fin (b : Board) (ty tx : Fin 9) (k : PType)
    (hpl : b.CurrentPlayer = .Sente ∨ b.CurrentPlayer = .Gote) :
    DropPiece b ((tx : ℕ) : ℤ) ((ty : ℕ) : ℤ) k = some (dropBoard b ty tx k) := by
  unfold DropPiece dropBoard
  rw [getNextPlayer_eq_Opposite _ hpl]
  by_cases hc : b.CurrentPlayer = .Sente
  · simp [hc, setCell_fin]
  · simp [hc, setCell_fin]

/-- C14: with the first or second mover to move, the promote flag of a drop move with an
in-range destination changes neither the answer of `IsValidMove` nor the board
`MakeMove` produces; and for an accepted drop of kind `k`, `MakeMove` on the drop move
and `DropPiece` on its destination and kind produce the same board: the mover's stock
count for `k` is one less, the destination holds a piece of kind `k` of the mover and
the other player is to move. -/
theorem C14_drop_agrees_with_DropPiece (b : Board) (m : Move)
    (hpl : b.CurrentPlayer = .Sente ∨ b.CurrentPlayer = .Gote)
    (hdrop : m.FromX = -1 ∧ m.FromY = -1)
    (htx : 0 ≤ m.ToX ∧ m.ToX < 9) (hty : 0 ≤ m.ToY ∧ m.ToY < 9) :
    (∀ flag : Bool,
      IsValidMove b { m with Promote := flag } = IsValidMove b m ∧
      MakeMove b { m with Promote := flag } = MakeMove b m) ∧
    (IsValidMove b m = some true →
      ∃ b', MakeMove b m = some b' ∧ DropPiece b m.ToX m.ToY m.Piece = some b' ∧
        stockOf b' b.CurrentPlayer m.Piece = stockOf b b.CurrentPlayer m.Piece - 1 ∧
        b'.cell m.ToY m.ToX = some ⟨m.Piece, b.CurrentPlayer⟩ ∧
        b'.CurrentPlayer = b.CurrentPlayer.Opposite) := by
  obtain ⟨ty, hty'⟩ := exists_fin m.ToY hty
  obtain ⟨tx, htx'⟩ := exists_fin m.ToX htx
  constructor
  · intro flag
    constructor
    · rw [IsValidMove_of_drop b m hdrop htx hty,
        IsValidMove_of_drop b { m with Promote := flag } hdrop htx hty]
      rfl
    · rw [MakeMove_drop b m ty tx hdrop hty' htx',
        MakeMove_drop b { m with Promote := flag } ty tx hdrop hty' htx']
  · intro _
    refine ⟨dropBoard b ty tx m.Piece, MakeMove_drop b m ty tx hdrop hty' htx', ?_, ?_, ?_, ?_⟩
    · rw [hty', htx']
      exact DropPiece_fin b ty tx m.Piece hpl
    · unfold stockOf dropBoard
      by_cases hc : b.CurrentPlayer = .Sente <;> simp [hc, setCount]
    · rw [hty', htx', cell_fin]
      simp [dropBoard, setGrid_apply]
    · exact getNextPlayer_eq_Opposite _ hpl

/-- C14 at a concrete input: the pawn drop on (0,4) in `positionA`. -/
theorem C14_drop_agrees_with_DropPiece_witness :
    ∃ b', MakeMove positionA ⟨-1, -1, 0, 4, .Pawn, false⟩ = some b' ∧
      DropPiece positionA 0 4 .Pawn = some b' ∧
      stockOf b' positionA.CurrentPlayer .Pawn =
        stockOf positionA positionA.CurrentPlayer .Pawn - 1 ∧
      b'.cell 4 0 = some ⟨.Pawn, positionA.CurrentPlayer⟩ ∧
      b'.CurrentPlayer = positionA.CurrentPlayer.Opposite :=
  (C14_drop_agrees_with_DropPiece positionA ⟨-1, -1, 0, 4, .Pawn, false⟩ (by decide)
    (by decide) (by decide) (by decide)).2 (by decide)

theorem cell_eq_of_grid (b b' : Board) (y x : Int)
    (h : ∀ fy fx : Fin 9, y = ((fy : ℕ) : ℤ) → x = ((fx : ℕ) : ℤ) → b'.Grid fy fx = b.Grid fy fx) :
    b'.cell y x = b.cell y x := by
  by_cases hr : (0 ≤ y ∧ y < 9) ∧ (0 ≤ x ∧ x < 9)
  · obtain ⟨fy, hy⟩ := exists_fin y hr.1
    obtain ⟨fx, hx⟩ := exists_fin x hr.2
    rw [hy, hx, cell_fin, cell_fin, h fy fx hy hx]
  · unfold Board.cell
    rw [dif_neg hr, dif_neg hr]

/-- C15: `MakeMove` on an accepted move changes, besides the player to move, only this:
for a drop, the destination cell and the mover's stock count of the dropped kind; for a
board move, the source cell, the destination cell and, only when the destination was
occupied, the mover's stock count of the demoted kind of the piece taken.  Every other
cell, every other count of the mover's stock and the whole stock of the opponent stay
as they were. -/
theorem C15_MakeMove_frame (b : Board) (m : Move) (hv : IsValidMove b m = some true) :
    ∃ b', MakeMove b m = some b' ∧
      (b.CurrentPlayer = .Sente → b'.GoteCaptures = b.GoteCaptures) ∧
      (b.CurrentPlayer ≠ .Sente → b'.SenteCaptures = b.SenteCaptures) ∧
      ((m.FromX = -1 ∧ m.FromY = -1) →
        (∀ y x : Int, ¬ (y = m.ToY ∧ x = m.ToX) → b'.cell y x = b.cell y x) ∧
        (∀ j, j ≠ m.Piece → stockOf b' b.CurrentPlayer j = stockOf b b.CurrentPlayer j)) ∧
      (¬ (m.FromX = -1 ∧ m.FromY = -1) →
        (∀ y x : Int, ¬ (y = m.FromY ∧ x = m.FromX) → ¬ (y = m.ToY ∧ x = m.ToX) →
          b'.cell y x = b.cell y x) ∧
        (∀ d, b.cell m.ToY m.ToX = some d →
          (d.Typ = .Empty → stockOf b' b.CurrentPlayer = stockOf b b.CurrentPlayer) ∧
          (∀ j, j ≠ getOriginalPiece d.Typ →
            stockOf b' b.CurrentPlayer j = stockOf b b.CurrentPlayer j))) := by
  obtain ⟨b', hm⟩ := valid_move_applies b m hv
  refine ⟨b', hm, ?_⟩
  rcases valid_step_cases b b' m hv hm with
    ⟨ty, tx, hdrop, hty, htx, _, rfl⟩ | ⟨fy, fx, ty, tx, hfy, hfx, hty, htx, _, rfl⟩
  · refine ⟨?_, ?_, ?_, fun h => absurd hdrop h⟩
    · intro hc
      simp [dropBoard, hc]
    · intro hc
      simp [dropBoard, hc]
    · intro _
      constructor
      · intro y x hne
        apply cell_eq_of_grid
        intro gy gx hy hx
        simp only [dropBoard, setGrid_apply]
        rw [if_neg]
        rintro ⟨rfl, rfl⟩
        exact hne ⟨hy.trans hty.symm, hx.trans htx.symm⟩
      · intro j hj
        unfold stockOf dropBoard
        by_cases hc : b.CurrentPlayer = .Sente <;> simp [hc, setCount, hj]
  · have hnd : ¬ (m.FromX = -1 ∧ m.FromY = -1) := by
      have := fin_inRange fx
      omega
    refine ⟨?_, ?_, fun h => absurd h hnd, ?_⟩
    · intro hc
      simp [moveBoard, hc]
    · intro hc
      simp [moveBoard, hc]
    · intro _
      constructor
      · intro y x hne1 hne2
        apply cell_eq_of_grid
        intro gy gx hy hx
        simp only [moveBoard, setGrid_apply]
        rw [if_neg, if_neg]
        · rintro ⟨rfl, rfl⟩
          exact hne1 ⟨hy.trans hfy.symm, hx.trans hfx.symm⟩
        · rintro ⟨rfl, rfl⟩
          exact hne2 ⟨hy.trans hty.symm, hx.trans htx.symm⟩
      · intro d hd
        rw [hty, htx, cell_fin] at hd
        have hg : b.Grid ty tx = d := Option.some.inj hd
        constructor
        · intro he
          unfold stockOf moveBoard
          by_cases hc : b.CurrentPlayer = .Sente <;> simp [hc, hg, he]
        · intro j hj
          unfold stockOf moveBoard
          by_cases hc : b.CurrentPlayer = .Sente <;>
            by_cases he : d.Typ = .Empty <;> simp [hc, hg, he, setCount, hj]

/-- C15 at a concrete input: the capture of the promoted rook in `positionD`. -/
theorem C15_MakeMove_frame_witness :
    ∃ b', MakeMove positionD ⟨4, 4, 4, 3, .Empty, false⟩ = some b' ∧
      (positionD.CurrentPlayer = .Sente → b'.GoteCaptures = positionD.GoteCaptures) ∧
      (positionD.CurrentPlayer ≠ .Sente → b'.SenteCaptures = positionD.SenteCaptures) ∧
      (((4 : Int) = -1 ∧ (4 : Int) = -1) →
        (∀ y x : Int, ¬ (y = 3 ∧ x = 4) → b'.cell y x = positionD.cell y x) ∧
        (∀ j, j ≠ PType.Empty →
          stockOf b' positionD.CurrentPlayer j = stockOf positionD positionD.CurrentPlayer j)) ∧
      (¬ ((4 : Int) = -1 ∧ (4 : Int) = -1) →
        (∀ y x : Int, ¬ (y = 4 ∧ x = 4) → ¬ (y = 3 ∧ x = 4) →
          b'.cell y x = positionD.cell y x) ∧
        (∀ d, positionD.cell 3 4 = some d →
          (d.Typ = .Empty →
            stockOf b' positionD.CurrentPlayer = stockOf positionD positionD.CurrentPlayer) ∧
          (∀ j, j ≠ getOriginalPiece d.Typ →
            stockOf b' positionD.CurrentPlayer j =
              stockOf positionD positionD.CurrentPlayer j))) :=
  C15_MakeMove_frame positionD ⟨4, 4, 4, 3, .Empty, false⟩ (by decide)

/-! ## Totality and bounds of the validator -/

/-- C16: `IsValidMove` returns a boolean on every board for every move with arbitrary
integer coordinates, so it never reads the grid outside `[0,9) x [0,9)` (such a read is
`none` in `Board.cell`) and never exhausts the fuel of the path walk; it answers false
when the destination column or row is outside `[0,9)`, and when the source is not the
drop sentinel `(-1,-1)` and its column or row is outside `[0,9)`, which includes a
source with only one coordinate equal to `-1`. -/
theorem C16_IsValidMove_total_and_bounded (b : Board) (m : Move) :
    (∃ r, IsValidMove b m = some r) ∧
    ((m.ToX < 0 ∨ 9 ≤ m.ToX ∨ m.ToY < 0 ∨ 9 ≤ m.ToY) → IsValidMove b m = some false) ∧
    (¬ (m.FromX = -1 ∧ m.FromY = -1) →
      (m.FromX < 0 ∨ 9 ≤ m.FromX ∨ m.FromY < 0 ∨ 9 ≤ m.FromY) →
      IsValidMove b m = some false) := by
  refine ⟨?_, ?_, ?_⟩
  · by_cases hd : m.FromX = -1 ∧ m.FromY = -1
    · by_cases hr : m.ToX < 0 ∨ m.ToX ≥ BoardSize ∨ m.ToY < 0 ∨ m.ToY ≥ BoardSize
      · exact ⟨false, by unfold IsValidMove; rw [if_pos hd, if_pos hr]⟩
      · rw [BoardSize_eq] at hr
        have htx : 0 ≤ m.ToX ∧ m.ToX < 9 := by omega
        have hty : 0 ≤ m.ToY ∧ m.ToY < 9 := by omega
        obtain ⟨ty, hty'⟩ := exists_fin m.ToY hty
        obtain ⟨tx, htx'⟩ := exists_fin m.ToX htx
        obtain ⟨r, hr', _⟩ := isValidDrop_fin b m ty tx hty' htx'
        exact ⟨r, by rw [IsValidMove_of_drop b m hd htx hty, hr']⟩
    · by_cases hr : m.FromX < 0 ∨ m.FromX ≥ BoardSize ∨ m.FromY < 0 ∨ m.FromY ≥ BoardSize ∨
          m.ToX < 0 ∨ m.ToX ≥ BoardSize ∨ m.ToY < 0 ∨ m.ToY ≥ BoardSize
      · exact ⟨false, by unfold IsValidMove; rw [if_neg hd, if_pos hr]⟩
      · rw [BoardSize_eq] at hr
        have hfx : 0 ≤ m.FromX ∧ m.FromX < 9 := by omega
        have hfy : 0 ≤ m.FromY ∧ m.FromY < 9 := by omega
        have htx : 0 ≤ m.ToX ∧ m.ToX < 9 := by omega
        have hty : 0 ≤ m.ToY ∧ m.ToY < 9 := by omega
        rw [IsValidMove_of_inRange b m hfx hfy htx hty]
        exact isValidNormalMove_total b m hfx hfy htx hty
  · intro hr
    unfold IsValidMove
    rw [BoardSize_eq]
    by_cases hd : m.FromX = -1 ∧ m.FromY = -1
    · rw [if_pos hd, if_pos (by omega)]
    · rw [if_neg hd, if_pos (by omega)]
  · intro hd hr
    unfold IsValidMove
    rw [BoardSize_eq, if_neg hd, if_pos (by omega)]

/-- C16 at a concrete input: a source with only one coordinate equal to `-1` is
rejected on the opening board. -/
theorem C16_IsValidMove_total_and_bounded_witness :
    IsValidMove New ⟨-1, 6, 4, 5, .Pawn, false⟩ = some false :=
  (C16_IsValidMove_total_and_bounded New ⟨-1, 6, 4, 5, .Pawn, false⟩).2.2 (by decide)
    (by decide)

/-! ## Stock queries -/

theorem GetCaptures_eq (b : Board) (player : Player) :
    GetCaptures b player =
      List.replicate (stockOf b player .Pawn).toNat .Pawn ++
      (List.replicate (stockOf b player .Lance).toNat .Lance ++
      (List.replicate (stockOf b player .Knight).toNat .Knight ++
      (List.replicate (stockOf b player .Silver).toNat .Silver ++
      (List.replicate (stockOf b player .Gold).toNat .Gold ++
      (List.replicate (stockOf b player .Bishop).toNat .Bishop ++
       List.replicate (stockOf b player .Rook).toNat .Rook))))) := by
  unfold GetCaptures stockOf
  simp only [List.foldl_cons, List.foldl_nil, List.nil_append, List.append_assoc]

/-- C17: `GetCaptures` lists the stock of a player (the first mover's map for `Sente`,
the second mover's for `Gote`) in the fixed order pawn, lance, knight, silver, gold,
bishop, rook, each kind as many times as its count and not at all when the count is
zero or negative; no other kind occurs, and the length is the sum of the seven counts
(each taken as zero when negative). -/
theorem C17_GetCaptures_lists_stock (b : Board) (player : Player) :
    (stockOf b .Sente = b.SenteCaptures ∧ stockOf b .Gote = b.GoteCaptures) ∧
    GetCaptures b player =
      List.replicate (stockOf b player .Pawn).toNat .Pawn ++
      (List.replicate (stockOf b player .Lance).toNat .Lance ++
      (List.replicate (stockOf b player .Knight).toNat .Knight ++
      (List.replicate (stockOf b player .Silver).toNat .Silver ++
      (List.replicate (stockOf b player .Gold).toNat .Gold ++
      (List.replicate (stockOf b player .Bishop).toNat .Bishop ++
       List.replicate (stockOf b player .Rook).toNat .Rook))))) ∧
    (∀ k ∈ [PType.Pawn, .Lance, .Knight, .Silver, .Gold, .Bishop, .Rook],
      (GetCaptures b player).count k = (stockOf b player k).toNat ∧
      (stockOf b player k ≤ 0 → k ∉ GetCaptures b player)) ∧
    (∀ k ∈ GetCaptures b player,
      k ∈ [PType.Pawn, .Lance, .Knight, .Silver, .Gold, .Bishop, .Rook]) ∧
    (GetCaptures b player).length =
      (stockOf b player .Pawn).toNat + (stockOf b player .Lance).toNat +
      (stockOf b player .Knight).toNat + (stockOf b player .Silver).toNat +
      (stockOf b player .Gold).toNat + (stockOf b player .Bishop).toNat +
      (stockOf b player .Rook).toNat ∧
    ((∀ k ∈ [PType.Pawn, .Lance, .Knight, .Silver, .Gold, .Bishop, .Rook],
        0 ≤ stockOf b player k) →
      ((GetCaptures b player).length : Int) =
        stockOf b player .Pawn + stockOf b player .Lance + stockOf b player .Knight +
        stockOf b player .Silver + stockOf b player .Gold + stockOf b player .Bishop +
        stockOf b player .Rook) := by
  have hcount : ∀ k ∈ [PType.Pawn, .Lance, .Knight, .Silver, .Gold, .Bishop, .Rook],
      (GetCaptures b player).count k = (stockOf b player k).toNat := by
    intro k hk
    rw [GetCaptures_eq]
    simp only [List.mem_cons, List.mem_singleton, List.not_mem_nil, or_false] at hk
    rcases hk with rfl | rfl | rfl | rfl | rfl | rfl | rfl <;>
      simp [List.count_append, List.count_replicate]
  have hlen : (GetCaptures b player).length =
      (stockOf b player .Pawn).toNat + (stockOf b player .Lance).toNat +
      (stockOf b player .Knight).toNat + (stockOf b player .Silver).toNat +
      (stockOf b player .Gold).toNat + (stockOf b player .Bishop).toNat +
      (stockOf b player .Rook).toNat := by
    rw [GetCaptures_eq]
    simp only [List.length_append, List.length_replicate]
    omega
  refine ⟨⟨rfl, rfl⟩, GetCaptures_eq b player, ?_, ?_, hlen, ?_⟩
  · intro k hk
    refine ⟨hcount k hk, ?_⟩
    intro hle hmem
    have h1 := List.count_pos_iff.2 hmem
    rw [hcount k hk] at h1
    omega
  · intro k hk
    rw [GetCaptures_eq] at hk
    simp only [List.mem_append, List.mem_replicate] at hk
    simp only [List.mem_cons, List.mem_singleton, List.not_mem_nil, or_false]
    rcases hk with h | h | h | h | h | h | h
    · exact Or.inl h.2
    · exact Or.inr (Or.inl h.2)
    · exact Or.inr (Or.inr (Or.inl h.2))
    · exact Or.inr (Or.inr (Or.inr (Or.inl h.2)))
    · exact Or.inr (Or.inr (Or.inr (Or.inr (Or.inl h.2))))
    · exact Or.inr (Or.inr (Or.inr (Or.inr (Or.inr (Or.inl h.2)))))
    · exact Or.inr (Or.inr (Or.inr (Or.inr (Or.inr (Or.inr h.2)))))
  · intro hpos
    rw [hlen]
    have h1 := hpos .Pawn (by decide)
    have h2 := hpos .Lance (by decide)
    have h3 := hpos .Knight (by decide)
    have h4 := hpos .Silver (by decide)
    have h5 := hpos .Gold (by decide)
    have h6 := hpos .Bishop (by decide)
    have h7 := hpos .Rook (by decide)
    omega

/-- C17 at a concrete input: the first mover's stock in `positionA` is one pawn and one
knight, so `GetCaptures` has length two. -/
theorem C17_GetCaptures_lists_stock_witness :
    ((GetCaptures positionA .Sente).length : Int) =
      stockOf positionA .Sente .Pawn + stockOf positionA .Sente .Lance +
      stockOf positionA .Sente .Knight + stockOf positionA .Sente .Silver +
      stockOf positionA .Sente .Gold + stockOf positionA .Sente .Bishop +
      stockOf positionA .Sente .Rook :=
  (C17_GetCaptures_lists_stock positionA .Sente).2.2.2.2.2 (by decide)

theorem scanCells_inRange : ∀ c ∈ scanCells, (0 ≤ c.1 ∧ c.1 < 9) ∧ (0 ≤ c.2 ∧ c.2 < 9) := by
  decide

theorem mem_scanCells_fin : ∀ fx fy : Fin 9, ((((fx : ℕ) : ℤ)), (((fy : ℕ) : ℤ))) ∈ scanCells := by
  decide

theorem scanCells_ordered :
    scanCells.Pairwise fun a c => a.2 < c.2 ∨ (a.2 = c.2 ∧ a.1 < c.1) := by
  decide

theorem GetValidDropPositionsLoop_eq (b : Board) (k : PType) (cells : List (Int × Int))
    (hr : ∀ c ∈ cells, (0 ≤ c.1 ∧ c.1 < 9) ∧ (0 ≤ c.2 ∧ c.2 < 9)) :
    GetValidDropPositionsLoop b k cells =
      some (cells.filter fun c =>
        decide (IsValidMove b ⟨-1, -1, c.1, c.2, k, false⟩ = some true)) := by
  induction cells with
  | nil => rfl
  | cons c cells ih =>
    obtain ⟨x, y⟩ := c
    have hc := hr (x, y) (List.mem_cons_self _ _)
    have ih' := ih fun c hc' => hr c (List.mem_cons_of_mem _ hc')
    obtain ⟨ty, hty⟩ := exists_fin y hc.2
    obtain ⟨tx, htx⟩ := exists_fin x hc.1
    obtain ⟨r, hrd, _⟩ := isValidDrop_fin b ⟨-1, -1, x, y, k, false⟩ ty tx hty htx
    have hv : IsValidMove b ⟨-1, -1, x, y, k, false⟩ = some r := by
      rw [IsValidMove_of_drop b _ ⟨rfl, rfl⟩ hc.1 hc.2, hrd]
    unfold GetValidDropPositionsLoop
    rw [hrd, ih', List.filter_cons]
    simp only [hv]
    cases r <;> simp

/-- C18: `GetValidDropPositions` returns exactly the cells `(x, y)` of the grid for
which `IsValidMove` accepts the drop of the kind on `(x, y)`, as the scan order leaves
them: ordered by row and then by column, hence each cell once; it returns no cell when
the mover's stock count of the kind is not positive. -/
theorem C18_GetValidDropPositions_exact (b : Board) (k : PType) :
    ∃ ps, GetValidDropPositions b k = some ps ∧
      (∀ x y : Int, (x, y) ∈ ps ↔
        (0 ≤ x ∧ x < 9) ∧ (0 ≤ y ∧ y < 9) ∧
          IsValidMove b ⟨-1, -1, x, y, k, false⟩ = some true) ∧
      ps.Pairwise (fun a c => a.2 < c.2 ∨ (a.2 = c.2 ∧ a.1 < c.1)) ∧
      ps.Nodup ∧
      (stockOf b b.CurrentPlayer k ≤ 0 → ps = []) := by
  refine ⟨_, GetValidDropPositionsLoop_eq b k scanCells scanCells_inRange, ?_, ?_, ?_, ?_⟩
  · intro x y
    rw [List.mem_filter]
    constructor
    · rintro ⟨hmem, hv⟩
      have := scanCells_inRange (x, y) hmem
      exact ⟨this.1, this.2, by simpa using hv⟩
    · rintro ⟨hx, hy, hv⟩
      obtain ⟨fx, rfl⟩ := exists_fin x hx
      obtain ⟨fy, rfl⟩ := exists_fin y hy
      exact ⟨mem_scanCells_fin fx fy, by simpa using hv⟩
  · exact scanCells_ordered.sublist (List.filter_sublist _)
  · have hp : (scanCells.filter fun c =>
        decide (IsValidMove b ⟨-1, -1, c.1, c.2, k, false⟩ = some true)).Pairwise
        (fun a c => a.2 < c.2 ∨ (a.2 = c.2 ∧ a.1 < c.1)) :=
      scanCells_ordered.sublist (List.filter_sublist _)
    refine hp.imp ?_
    intro a c h heq
    rw [heq] at h
    omega
  · intro hs
    rw [List.filter_eq_nil_iff]
    intro c hc hv
    have hrc := scanCells_inRange c hc
    obtain ⟨ty, hty⟩ := exists_fin c.2 hrc.2
    obtain ⟨tx, htx⟩ := exists_fin c.1 hrc.1
    obtain ⟨r, hrd, hiff⟩ := isValidDrop_fin b ⟨-1, -1, c.1, c.2, k, false⟩ ty tx hty htx
    rw [IsValidMove_of_drop b _ ⟨rfl, rfl⟩ hrc.1 hrc.2, hrd] at hv
    simp only [Option.some.injEq, decide_eq_true_eq] at hv
    have h1 := (hiff.1 hv).1
    unfold stockOf at hs
    simp only at h1
    split at h1 <;> rename_i hcp <;> simp only [hcp, if_true, if_false] at hs <;> omega

/-- C18 at a concrete input: the first mover of `positionA` has no lance in stock, so
no cell is offered for a lance drop. -/
theorem C18_GetValidDropPositions_exact_witness :
    GetValidDropPositions positionA .Lance = some [] := by
  obtain ⟨ps, h1, _, _, _, h5⟩ := C18_GetValidDropPositions_exact positionA .Lance
  rw [h1, h5 (by decide)]

/-! ## The opening position -/

/-- C19: on the opening board, for every column `x` the first mover's pawn move from
`(x,6)` to `(x,5)` without promotion is accepted, and after `MakeMove` applies it the
second mover is to move, `(x,5)` holds the first mover's pawn and `(x,6)` is empty. -/
theorem C19_opening_pawn_push (x : Fin 9) :
    IsValidMove New ⟨((x : ℕ) : ℤ), 6, ((x : ℕ) : ℤ), 5, .Empty, false⟩ = some true ∧
    ∃ b', MakeMove New ⟨((x : ℕ) : ℤ), 6, ((x : ℕ) : ℤ), 5, .Empty, false⟩ = some b' ∧
      b'.CurrentPlayer = .Gote ∧
      b'.cell 5 ((x : ℕ) : ℤ) = some ⟨.Pawn, .Sente⟩ ∧
      b'.cell 6 ((x : ℕ) : ℤ) = some ⟨.Empty, .None⟩ := by
  refine ⟨?_, moveBoard New 6 x 5 x false,
    MakeMove_move New ⟨((x : ℕ) : ℤ), 6, ((x : ℕ) : ℤ), 5, .Empty, false⟩ 6 x 5 x rfl rfl rfl rfl,
    rfl, ?_, ?_⟩
  · revert x
    decide
  · revert x
    decide
  · revert x
    decide

/-! ## Orientation of the movement lists -/

/-- C20: for every kind, the movement list of a piece of the second mover is the list
of the same kind of the first mover with `DY` negated in every entry and `DX`, the
slides flag, the promoted-only flag, the length and the order unchanged; negating once
more gives the first mover's list back; the empty kind has no movements for either
owner. -/
theorem C20_GetMovements_flips_DY (t : PType) :
    (⟨t, .Gote⟩ : Piece).GetMovements =
      (⟨t, .Sente⟩ : Piece).GetMovements.map
        (fun d => ⟨d.DX, -d.DY, d.Repeat, d.PromOnly⟩) ∧
    (⟨t, .Gote⟩ : Piece).GetMovements.length = (⟨t, .Sente⟩ : Piece).GetMovements.length ∧
    (⟨t, .Gote⟩ : Piece).GetMovements.map (fun d => ⟨d.DX, -d.DY, d.Repeat, d.PromOnly⟩) =
      (⟨t, .Sente⟩ : Piece).GetMovements ∧
    (⟨.Empty, .Sente⟩ : Piece).GetMovements = [] ∧
    (⟨.Empty, .Gote⟩ : Piece).GetMovements = [] := by
  revert t
  decide

/-! ## Promotion and demotion of kinds -/

/-- C21: `getPromotedPiece` and `getOriginalPiece` are mutually inverse between the six
promotable base kinds and the six promoted kinds: a kind with `CanPromote` is sent to a
promoted kind different from it and demoted back to itself, a promoted kind is demoted
to a promotable base kind and promoted back to itself; `getPromotedPiece` returns a
kind unchanged exactly when `CanPromote` is false, and `getOriginalPiece` returns every
kind that is not promoted (base kinds, king, gold, empty) unchanged. -/
theorem C21_promote_demote_inverse (t : PType) :
    (t.CanPromote = true →
      isPromoted (getPromotedPiece t) = true ∧ getPromotedPiece t ≠ t ∧
      getOriginalPiece (getPromotedPiece t) = t) ∧
    (isPromoted t = true →
      (getOriginalPiece t).CanPromote = true ∧ getPromotedPiece (getOriginalPiece t) = t) ∧
    (getPromotedPiece t = t ↔ t.CanPromote = false) ∧
    (isPromoted t = false → getOriginalPiece t = t) ∧
    (t.CanPromote = true ↔
      t ∈ [PType.Pawn, .Lance, .Knight, .Silver, .Bishop, .Rook]) ∧
    (isPromoted t = true ↔
      t ∈ [PType.PromPawn, .PromLance, .PromKnight, .PromSilver, .PromBishop, .PromRook]) := by
  revert t
  decide

/-- C21 at a concrete input: the pawn. -/
theorem C21_promote_demote_inverse_witness :
    isPromoted (getPromotedPiece .Pawn) = true ∧ getPromotedPiece .Pawn ≠ .Pawn ∧
      getOriginalPiece (getPromotedPiece .Pawn) = .Pawn :=
  (C21_promote_demote_inverse .Pawn).1 rfl

/-! ## The unused drop helper -/

/-- C22: with the first or second mover to move, every drop with an in-range
destination that `isValidDrop` accepts is also accepted by `canDropToPosition`. -/
theorem C22_canDropToPosition_subsumed (b : Board) (m : Move)
    (hpl : b.CurrentPlayer = .Sente ∨ b.CurrentPlayer = .Gote)
    (hdrop : m.FromX = -1 ∧ m.FromY = -1)
    (htx : 0 ≤ m.ToX ∧ m.ToX < 9) (hty : 0 ≤ m.ToY ∧ m.ToY < 9)
    (hv : isValidDrop b m = some true) :
    canDropToPosition b m = true ∧ IsValidMove b m = some true := by
  obtain ⟨ty, hty'⟩ := exists_fin m.ToY hty
  obtain ⟨tx, htx'⟩ := exists_fin m.ToX htx
  obtain ⟨r, hr, hiff⟩ := isValidDrop_fin b m ty tx hty' htx'
  rw [hv] at hr
  have hrt : r = true := (Option.some.inj hr).symm
  obtain ⟨_, _, hp, hl, hk⟩ := hiff.1 hrt
  refine ⟨?_, by rw [IsValidMove_of_drop b m hdrop htx hty, hv]⟩
  unfold canDropToPosition
  rw [BoardSize_sub_one, BoardSize_sub_two]
  rcases hpl with hc | hc
  · rw [if_pos hc]
    cases hkind : m.Piece <;> simp only [] <;> try rfl
    · have := (hp hkind).2
      rw [if_neg (fun h => this (Or.inl ⟨hc, h⟩))]
    · have := hl hkind
      rw [if_neg (fun h => this (Or.inl ⟨hc, h⟩))]
    · have := hk hkind
      rw [if_neg (fun h => this (Or.inl ⟨hc, h⟩))]
  · rw [if_neg (by rw [hc]; decide)]
    cases hkind : m.Piece <;> simp only [] <;> try rfl
    · have := (hp hkind).2
      rw [if_neg (fun h => this (Or.inr ⟨hc, h⟩))]
    · have := hl hkind
      rw [if_neg (fun h => this (Or.inr ⟨hc, h⟩))]
    · have := hk hkind
      rw [if_neg (fun h => this (Or.inr ⟨hc, h⟩))]

/-- C22 at a concrete input: the pawn drop on (0,4) in `positionA`. -/
theorem C22_canDropToPosition_subsumed_witness :
    canDropToPosition positionA ⟨-1, -1, 0, 4, .Pawn, false⟩ = true ∧
      IsValidMove positionA ⟨-1, -1, 0, 4, .Pawn, false⟩ = some true :=
  C22_canDropToPosition_subsumed positionA ⟨-1, -1, 0, 4, .Pawn, false⟩ (by decide)
    (by decide) (by decide) (by decide) (by decide)

/-- C23: `New` is the canonical opening board: the first mover is to move, both stocks
list no piece, the first mover has lance, knight, silver, gold, king, gold, silver,
knight, lance on row 8, a bishop on column 1 and a rook on column 7 of an otherwise
empty row 7 and nine pawns on row 6, rows 3 to 5 are empty, and the second mover's side
is the first mover's turned by 180 degrees: cell `(8-x, 8-y)` holds the kind of cell
`(x, y)` with the other owner, or both are empty. -/
theorem C23_New_is_opening_board :
    New.CurrentPlayer = .Sente ∧
    GetCaptures New .Sente = [] ∧ GetCaptures New .Gote = [] ∧
    indices.map (fun x => New.cell 8 x) =
      [some ⟨.Lance, .Sente⟩, some ⟨.Knight, .Sente⟩, some ⟨.Silver, .Sente⟩,
       some ⟨.Gold, .Sente⟩, some ⟨.King, .Sente⟩, some ⟨.Gold, .Sente⟩,
       some ⟨.Silver, .Sente⟩, some ⟨.Knight, .Sente⟩, some ⟨.Lance, .Sente⟩] ∧
    indices.map (fun x => New.cell 7 x) =
      [some ⟨.Empty, .None⟩, some ⟨.Bishop, .Sente⟩, some ⟨.Empty, .None⟩,
       some ⟨.Empty, .None⟩, some ⟨.Empty, .None⟩, some ⟨.Empty, .None⟩,
       some ⟨.Empty, .None⟩, some ⟨.Rook, .Sente⟩, some ⟨.Empty, .None⟩] ∧
    (∀ x : Fin 9, New.cell 6 ((x : ℕ) : ℤ) = some ⟨.Pawn, .Sente⟩) ∧
    (∀ (y : Fin 3) (x : Fin 9),
      New.cell (3 + ((y : ℕ) : ℤ)) ((x : ℕ) : ℤ) = some ⟨.Empty, .None⟩) ∧
    (∀ y x : Fin 9,
      ((New.Grid y x).Typ = .Empty ∧
        New.cell (8 - ((y : ℕ) : ℤ)) (8 - ((x : ℕ) : ℤ)) = some ⟨.Empty, .None⟩) ∨
      ((New.Grid y x).Typ ≠ .Empty ∧ (New.Grid y x).Player ≠ .None ∧
        New.cell (8 - ((y : ℕ) : ℤ)) (8 - ((x : ℕ) : ℤ)) =
          some ⟨(New.Grid y x).Typ, (New.Grid y x).Player.Opposite⟩)) := by
  decide

/-! ## The promotion decision of the game and the validator -/

/-- C24: in `positionA` the first mover's pawn on (4,1) can only go to (4,0) with
promotion; the move is accepted with the promote flag set and `shouldPromote` would set
the flag, but the unflagged move the game builds is rejected by `IsValidMove`, so it is
never passed on to `handleMove`. -/
theorem C24_forced_promotion_blocked_by_gate :
    positionA.CurrentPlayer = .Sente ∧
    positionA.cell 1 4 = some ⟨.Pawn, .Sente⟩ ∧
    IsValidMove positionA ⟨4, 1, 4, 0, .Empty, true⟩ = some true ∧
    shouldPromote positionA ⟨4, 1, 4, 0, .Empty, false⟩ = some true ∧
    IsValidMove positionA ⟨4, 1, 4, 0, .Empty, false⟩ = some false := by
  decide

theorem isPathClearLoop_flag (b : Board) (m : Move) (flag : Bool) (dx dy : Int) :
    ∀ (fuel : Nat) (x y : Int),
      isPathClearLoop b { m with Promote := flag } dx dy fuel x y =
        isPathClearLoop b m dx dy fuel x y := by
  intro fuel
  induction fuel with
  | zero =>
    intro x y
    rfl
  | succ fuel ih =>
    intro x y
    unfold isPathClearLoop
    simp only [ih]

theorem isPathClear_flag (b : Board) (m : Move) (flag : Bool) :
    isPathClear b { m with Promote := flag } = isPathClear b m := by
  unfold isPathClear
  exact isPathClearLoop_flag b m flag _ _ _ _ _

theorem isValidPieceMoveLoop_flag (b : Board) (m : Move) (flag : Bool) (p : Piece)
    (dx dy : Int) (dirs : List Direction) :
    isValidPieceMoveLoop b { m with Promote := flag } p dx dy dirs =
      isValidPieceMoveLoop b m p dx dy dirs := by
  induction dirs with
  | nil => rfl
  | cons dir dirs ih =>
    unfold isValidPieceMoveLoop
    rw [ih, isPathClear_flag]

theorem isValidPieceMove_flag (b : Board) (m : Move) (flag : Bool) (p : Piece) :
    isValidPieceMove b { m with Promote := flag } p = isValidPieceMove b m p := by
  unfold isValidPieceMove
  exact isValidPieceMoveLoop_flag b m flag p _ _ _

/-- C25: for every board move with the promote flag unset that `IsValidMove` accepts,
`shouldPromote` returns, and the move `handleMove` then passes to `MakeMove` (the same
move, flagged when `shouldPromote` says so) is accepted by `IsValidMove` on the same
board. -/
theorem C25_handleMove_passes_valid_move (b : Board) (m : Move)
    (hnd : ¬ (m.FromX = -1 ∧ m.FromY = -1)) (hflag : m.Promote = false)
    (hv : IsValidMove b m = some true) :
    ∃ f m', shouldPromote b m = some f ∧ handleMoveArg b m = some m' ∧
      m' = { m with Promote := f } ∧ IsValidMove b m' = some true := by
  obtain ⟨fy, fx, ty, tx, hfy, hfx, hty, htx, hn⟩ := IsValidMove_true_of_not_drop b m hnd hv
  obtain ⟨h1, h2, h3, h4, h5⟩ := isValidNormalMove_inv b m fy fx ty tx hfy hfx hty htx hn
  have hsrc : b.cell m.FromY m.FromX = some (b.Grid fy fx) := by rw [hfy, hfx, cell_fin]
  have hdst : b.cell m.ToY m.ToX = some (b.Grid ty tx) := by rw [hty, htx, cell_fin]
  have hmeq : m = { m with Promote := false } := by
    cases m
    simp only at hflag
    rw [hflag]
  have hmust : mustPromote b m (b.Grid fy fx) = false := by
    cases hmp : mustPromote b m (b.Grid fy fx) with
    | false => rfl
    | true => simp [isValidPromotion, hflag, hmp] at h4
  have hsp : ∃ f, shouldPromote b m = some f ∧ (f = true →
      isValidPromotion b { m with Promote := true } (b.Grid fy fx) = true) := by
    unfold shouldPromote GetPiece
    rw [if_neg hnd, hsrc]
    simp only
    by_cases hcan : (b.Grid fy fx).Typ.CanPromote = true
    · rw [if_neg (by simpa using hcan)]
      have hforced : (if b.CurrentPlayer = .Sente then
            if ((b.Grid fy fx).Typ = .Pawn ∨ (b.Grid fy fx).Typ = .Lance) ∧ m.ToY = 0 then true
            else if (b.Grid fy fx).Typ = .Knight ∧ m.ToY ≤ 1 then true
            else false
          else
            if ((b.Grid fy fx).Typ = .Pawn ∨ (b.Grid fy fx).Typ = .Lance) ∧
                m.ToY = BoardSize - 1 then true
            else if (b.Grid fy fx).Typ = .Knight ∧ m.ToY ≥ BoardSize - 2 then true
            else false) = false := by
        unfold mustPromote at hmust
        by_cases hc : b.CurrentPlayer = .Sente
        · rw [if_pos hc] at hmust ⊢
          cases ht : (b.Grid fy fx).Typ <;> simp [ht] at hmust ⊢ <;> omega
        · rw [if_neg hc] at hmust ⊢
          cases ht : (b.Grid fy fx).Typ <;> simp [ht] at hmust ⊢ <;> omega
      rw [hforced]
      simp only [Bool.false_eq_true, if_false]
      by_cases hc : b.CurrentPlayer = .Sente
      · rw [if_pos hc]
        refine ⟨_, rfl, ?_⟩
        intro hz
        simp only [decide_eq_true_eq] at hz
        simp [isValidPromotion, hcan, hc, hz]
      · rw [if_neg hc]
        refine ⟨_, rfl, ?_⟩
        intro hz
        simp only [decide_eq_true_eq] at hz
        simp [isValidPromotion, hcan, hc, hz]
    · rw [if_pos hcan]
      exact ⟨false, rfl, fun h => absurd h (by decide)⟩
  obtain ⟨f, hf, hfv⟩ := hsp
  cases f with
  | false =>
    refine ⟨false, m, hf, by simp [handleMoveArg, hf], hmeq, hv⟩
  | true =>
    refine ⟨true, { m with Promote := true }, hf, by simp [handleMoveArg, hf], rfl, ?_⟩
    rw [IsValidMove_of_inRange b { m with Promote := true }
        (by rw [hfx]; exact fin_inRange fx) (by rw [hfy]; exact fin_inRange fy)
        (by rw [htx]; exact fin_inRange tx) (by rw [hty]; exact fin_inRange ty),
      isValidNormalMove_eq b { m with Promote := true } (b.Grid fy fx) (b.Grid ty tx)
        hsrc hdst,
      if_neg (by simp [h1, h2]), if_neg h3, if_neg (by simp [hfv rfl]),
      isValidPieceMove_flag]
    exact h5

/-- C25 at a concrete input: in `positionA` the lance on (8,4) takes the gold on (8,2);
`shouldPromote` sets the flag and the flagged move is accepted. -/
theorem C25_handleMove_passes_valid_move_witness :
    ∃ f m', shouldPromote positionA ⟨8, 4, 8, 2, .Empty, false⟩ = some f ∧
      handleMoveArg positionA ⟨8, 4, 8, 2, .Empty, false⟩ = some m' ∧
      m' = { (⟨8, 4, 8, 2, .Empty, false⟩ : Move) with Promote := f } ∧
      IsValidMove positionA m' = some true :=
  C25_handleMove_passes_valid_move positionA ⟨8, 4, 8, 2, .Empty, false⟩ (by decide) rfl
    (by decide)

/-! ## Termination of the path walk -/

theorem isPathClearReads_le (b : Board) (m : Move) (dx dy : Int) (mu : Int → Int → Nat)
    (hpos : ∀ x y : Int, (0 ≤ x ∧ x < 9) → (0 ≤ y ∧ y < 9) → 1 ≤ mu x y)
    (hstep : ∀ x y : Int, (0 ≤ x ∧ x < 9) → (0 ≤ y ∧ y < 9) →
      (0 ≤ x + dx ∧ x + dx < 9) → (0 ≤ y + dy ∧ y + dy < 9) → mu (x + dx) (y + dy) < mu x y) :
    ∀ (fuel : Nat) (x y : Int),
      isPathClearReads b m dx dy fuel x y ≤
        if (0 ≤ x ∧ x < 9) ∧ (0 ≤ y ∧ y < 9) then mu x y else 0 := by
  intro fuel
  induction fuel with
  | zero =>
    intro x y
    simp [isPathClearReads]
  | succ fuel ih =>
    intro x y
    unfold isPathClearReads
    by_cases hc : x ≠ m.ToX ∨ y ≠ m.ToY
    · rw [if_pos hc]
      by_cases hr : x < 0 ∨ x ≥ BoardSize ∨ y < 0 ∨ y ≥ BoardSize
      · rw [if_pos hr]
        exact Nat.zero_le _
      · rw [if_neg hr]
        rw [BoardSize_eq] at hr
        have hx : 0 ≤ x ∧ x < 9 := by omega
        have hy : 0 ≤ y ∧ y < 9 := by omega
        obtain ⟨c, hcell⟩ := cell_isSome b y x hy hx
        have h1 := hpos x y hx hy
        rw [if_pos ⟨hx, hy⟩]
        simp only [hcell]
        by_cases he : c.Typ = .Empty
        · rw [if_neg (by simpa using he)]
          have h2 := ih (x + dx) (y + dy)
          by_cases hn : (0 ≤ x + dx ∧ x + dx < 9) ∧ (0 ≤ y + dy ∧ y + dy < 9)
          · rw [if_pos hn] at h2
            have := hstep x y hx hy hn.1 hn.2
            omega
          · rw [if_neg hn] at h2
            omega
        · rw [if_pos (by simpa using he)]
          exact h1
    · rw [if_neg hc]
      exact Nat.zero_le _

/-- A walk with a step of signs that is not stuck on the spot answers within ten tests
of the loop condition and reads at most nine cells, wherever it starts. -/
theorem walk_bounds (b : Board) (m : Move) (dx dy x0 y0 : Int)
    (hdx : dx = -1 ∨ dx = 0 ∨ dx = 1) (hdy : dy = -1 ∨ dy = 0 ∨ dy = 1)
    (hzero : dx = 0 ∧ dy = 0 → x0 = m.ToX ∧ y0 = m.ToY) :
    (∃ r, isPathClearLoop b m dx dy 10 x0 y0 = some r) ∧
    ∀ fuel, isPathClearReads b m dx dy fuel x0 y0 ≤ 9 := by
  have key : ∀ mu : Int → Int → Nat,
      (∀ x y : Int, (0 ≤ x ∧ x < 9) → (0 ≤ y ∧ y < 9) → 1 ≤ mu x y ∧ mu x y ≤ 9) →
      (∀ x y : Int, (0 ≤ x ∧ x < 9) → (0 ≤ y ∧ y < 9) →
        (0 ≤ x + dx ∧ x + dx < 9) → (0 ≤ y + dy ∧ y + dy < 9) →
        mu (x + dx) (y + dy) < mu x y) →
      (∃ r, isPathClearLoop b m dx dy 10 x0 y0 = some r) ∧
      ∀ fuel, isPathClearReads b m dx dy fuel x0 y0 ≤ 9 := by
    intro mu hb hs
    constructor
    · apply isPathClearLoop_total b m dx dy mu (fun x y hx hy => (hb x y hx hy).1) hs 10 x0 y0
        (by omega)
      intro hx hy
      have := (hb x0 y0 hx hy).2
      omega
    · intro fuel
      have h := isPathClearReads_le b m dx dy mu (fun x y hx hy => (hb x y hx hy).1) hs
        fuel x0 y0
      split at h
      · rename_i hr
        have := (hb x0 y0 hr.1 hr.2).2
        omega
      · omega
  rcases hdx with hx | hx | hx
  · apply key fun x _ => (x + 1).toNat
    · intro x y h1 _
      omega
    · intro x y h1 _ h2 _
      omega
  · rcases hdy with hy | hy | hy
    · apply key fun _ y => (y + 1).toNat
      · intro x y _ h1
        omega
      · intro x y _ h1 _ h2
        omega
    · obtain ⟨rfl, rfl⟩ := hzero ⟨hx, hy⟩
      constructor
      · refine ⟨true, ?_⟩
        unfold isPathClearLoop
        rw [if_neg (by omega)]
      · intro fuel
        cases fuel with
        | zero => simp [isPathClearReads]
        | succ fuel =>
          unfold isPathClearReads
          rw [if_neg (by omega)]
          omega
    · apply key fun _ y => (9 - y).toNat
      · intro x y _ h1
        omega
      · intro x y _ h1 _ h2
        omega
  · apply key fun x _ => (9 - x).toNat
    · intro x y h1 _
      omega
    · intro x y h1 _ h2 _
      omega

theorem sign_range (v : Int) : sign v = -1 ∨ sign v = 0 ∨ sign v = 1 := by
  rcases sign_cases v with ⟨_, h⟩ | ⟨_, h⟩ | ⟨_, h⟩
  · exact Or.inl h
  · exact Or.inr (Or.inl h)
  · exact Or.inr (Or.inr h)

theorem wrap64_id (v : Int) (h : isInt64 v) : wrap64 v = v := by
  unfold isInt64 at h
  unfold wrap64
  omega

theorem wrap64_eq_zero (v w : Int) (hv : isInt64 v) (hw : isInt64 w)
    (h : wrap64 (v - w) = 0) : v = w := by
  unfold isInt64 at hv hw
  unfold wrap64 at h
  omega

theorem isPathClearLoop64_eq (b : Board) (m : Move) (dx dy : Int)
    (hdx : dx = -1 ∨ dx = 0 ∨ dx = 1) (hdy : dy = -1 ∨ dy = 0 ∨ dy = 1) :
    ∀ (fuel : Nat) (x y : Int),
      isPathClearLoop64 b m dx dy fuel x y = isPathClearLoop b m dx dy fuel x y := by
  intro fuel
  induction fuel with
  | zero =>
    intro x y
    rfl
  | succ fuel ih =>
    intro x y
    unfold isPathClearLoop64 isPathClearLoop
    by_cases hc : x ≠ m.ToX ∨ y ≠ m.ToY
    · rw [if_pos hc, if_pos hc]
      by_cases hr : x < 0 ∨ x ≥ BoardSize ∨ y < 0 ∨ y ≥ BoardSize
      · rw [if_pos hr, if_pos hr]
      · rw [if_neg hr, if_neg hr]
        rw [BoardSize_eq] at hr
        have h1 : wrap64 (x + dx) = x + dx := wrap64_id _ (by unfold isInt64; omega)
        have h2 : wrap64 (y + dy) = y + dy := wrap64_id _ (by unfold isInt64; omega)
        rw [h1, h2, ih]
    · rw [if_neg hc, if_neg hc]

theorem isPathClear64_eq_loop (b : Board) (m : Move) :
    isPathClear64 b m =
      isPathClearLoop b m (sign (wrap64 (m.ToX - m.FromX))) (sign (wrap64 (m.ToY - m.FromY))) 10
        (wrap64 (m.FromX + sign (wrap64 (m.ToX - m.FromX))))
        (wrap64 (m.FromY + sign (wrap64 (m.ToY - m.FromY)))) := by
  unfold isPathClear64
  exact isPathClearLoop64_eq b m _ _ (sign_range _) (sign_range _) _ _ _

theorem wrap64_walk (v w d : Int) (j : Nat) (hw : isInt64 w)
    (hd : d = -1 ∨ d = 0 ∨ d = 1) (h : w = wrap64 (v + d) + j * d) :
    w = wrap64 (v + ((j + 1 : Nat) : Int) * d) := by
  unfold isInt64 at hw
  unfold wrap64 at h ⊢
  push_cast
  rcases hd with rfl | rfl | rfl <;> omega

theorem isPathClearReads64_eq (b : Board) (m : Move) (dx dy : Int)
    (hdx : dx = -1 ∨ dx = 0 ∨ dx = 1) (hdy : dy = -1 ∨ dy = 0 ∨ dy = 1) :
    ∀ (fuel : Nat) (x y : Int),
      isPathClearReads64 b m dx dy fuel x y = isPathClearReads b m dx dy fuel x y := by
  intro fuel
  induction fuel with
  | zero =>
    intro x y
    rfl
  | succ fuel ih =>
    intro x y
    unfold isPathClearReads64 isPathClearReads
    by_cases hc : x ≠ m.ToX ∨ y ≠ m.ToY
    · rw [if_pos hc, if_pos hc]
      by_cases hr : x < 0 ∨ x ≥ BoardSize ∨ y < 0 ∨ y ≥ BoardSize
      · rw [if_pos hr, if_pos hr]
      · rw [if_neg hr, if_neg hr]
        rw [BoardSize_eq] at hr
        have h1 : wrap64 (x + dx) = x + dx := wrap64_id _ (by unfold isInt64; omega)
        have h2 : wrap64 (y + dy) = y + dy := wrap64_id _ (by unfold isInt64; omega)
        rw [h1, h2, ih]
    · rw [if_neg hc, if_neg hc]

theorem isPathClear_true_line (b : Board) (m : Move) (h : isPathClear b m = some true) :
    ∃ k : Nat, m.ToX = m.FromX + k * sign (m.ToX - m.FromX) ∧
      m.ToY = m.FromY + k * sign (m.ToY - m.FromY) := by
  unfold isPathClear at h
  simp only at h
  obtain ⟨j, hx, hy, _⟩ := isPathClearLoop_true b m _ _ _ _ _ h
  refine ⟨j + 1, hx.trans ?_, hy.trans ?_⟩
  · push_cast
    ring
  · push_cast
    ring

theorem isPathClear64_eq_isPathClear (b : Board) (m : Move)
    (h1 : -4611686018427387904 ≤ m.FromX ∧ m.FromX < 4611686018427387904)
    (h2 : -4611686018427387904 ≤ m.FromY ∧ m.FromY < 4611686018427387904)
    (h3 : -4611686018427387904 ≤ m.ToX ∧ m.ToX < 4611686018427387904)
    (h4 : -4611686018427387904 ≤ m.ToY ∧ m.ToY < 4611686018427387904) :
    isPathClear64 b m = isPathClear b m := by
  rw [isPathClear64_eq_loop]
  unfold isPathClear
  simp only
  have w1 : wrap64 (m.ToX - m.FromX) = m.ToX - m.FromX :=
    wrap64_id _ (by unfold isInt64; omega)
  have w2 : wrap64 (m.ToY - m.FromY) = m.ToY - m.FromY :=
    wrap64_id _ (by unfold isInt64; omega)
  rw [w1, w2]
  have w3 : wrap64 (m.FromX + sign (m.ToX - m.FromX)) = m.FromX + sign (m.ToX - m.FromX) := by
    apply wrap64_id
    unfold isInt64
    rcases sign_range (m.ToX - m.FromX) with h | h | h <;> rw [h] <;> omega
  have w4 : wrap64 (m.FromY + sign (m.ToY - m.FromY)) = m.FromY + sign (m.ToY - m.FromY) := by
    apply wrap64_id
    unfold isInt64
    rcases sign_range (m.ToY - m.FromY) with h | h | h <;> rw [h] <;> omega
  rw [w3, w4]

/-- C26, on the 64-bit integers of the code: for every board and every move whose
coordinates are 64-bit integers `isPathClear` returns within ten tests of its loop
condition and reads at most nine cells before it reaches the destination or leaves the
grid.  It answers true only if the destination is the source plus `k` times the step of
signs in wrap-around arithmetic; when the four coordinates are below `2^62` in size, as
all coordinates in `[0,9)` are, this holds in exact arithmetic, and a destination off
that line gives false. -/
theorem C26_isPathClear64_terminates (b : Board) (m : Move)
    (hint : isInt64 m.FromX ∧ isInt64 m.FromY ∧ isInt64 m.ToX ∧ isInt64 m.ToY) :
    (∃ r, isPathClear64 b m = some r) ∧
    (∀ fuel, isPathClearReads64 b m (sign (wrap64 (m.ToX - m.FromX)))
      (sign (wrap64 (m.ToY - m.FromY))) fuel
      (wrap64 (m.FromX + sign (wrap64 (m.ToX - m.FromX))))
      (wrap64 (m.FromY + sign (wrap64 (m.ToY - m.FromY)))) ≤ 9) ∧
    (isPathClear64 b m = some true →
      ∃ k : Nat, m.ToX = wrap64 (m.FromX + k * sign (wrap64 (m.ToX - m.FromX))) ∧
        m.ToY = wrap64 (m.FromY + k * sign (wrap64 (m.ToY - m.FromY)))) ∧
    ((-4611686018427387904 ≤ m.FromX ∧ m.FromX < 4611686018427387904) ∧
      (-4611686018427387904 ≤ m.FromY ∧ m.FromY < 4611686018427387904) ∧
      (-4611686018427387904 ≤ m.ToX ∧ m.ToX < 4611686018427387904) ∧
      (-4611686018427387904 ≤ m.ToY ∧ m.ToY < 4611686018427387904) →
      (isPathClear64 b m = some true →
        ∃ k : Nat, m.ToX = m.FromX + k * sign (m.ToX - m.FromX) ∧
          m.ToY = m.FromY + k * sign (m.ToY - m.FromY)) ∧
      ((¬ ∃ k : Nat, m.ToX = m.FromX + k * sign (m.ToX - m.FromX) ∧
          m.ToY = m.FromY + k * sign (m.ToY - m.FromY)) →
        isPathClear64 b m = some false)) := by
  obtain ⟨h1, h2, h3, h4⟩ := hint
  have hzero : sign (wrap64 (m.ToX - m.FromX)) = 0 ∧ sign (wrap64 (m.ToY - m.FromY)) = 0 →
      wrap64 (m.FromX + sign (wrap64 (m.ToX - m.FromX))) = m.ToX ∧
      wrap64 (m.FromY + sign (wrap64 (m.ToY - m.FromY))) = m.ToY := by
    rintro ⟨z1, z2⟩
    have a1 := wrap64_eq_zero _ _ h3 h1 ((sign_eq_zero_iff _).1 z1)
    have a2 := wrap64_eq_zero _ _ h4 h2 ((sign_eq_zero_iff _).1 z2)
    rw [z1, z2, add_zero, add_zero, wrap64_id _ h1, wrap64_id _ h2]
    exact ⟨a1.symm, a2.symm⟩
  obtain ⟨htot, hreads⟩ := walk_bounds b m _ _ _ _ (sign_range (wrap64 (m.ToX - m.FromX)))
    (sign_range (wrap64 (m.ToY - m.FromY))) hzero
  rw [← isPathClear64_eq_loop] at htot
  refine ⟨htot, ?_, ?_, ?_⟩
  · intro fuel
    rw [isPathClearReads64_eq b m _ _ (sign_range _) (sign_range _)]
    exact hreads fuel
  · intro h
    rw [isPathClear64_eq_loop] at h
    obtain ⟨j, hx, hy, _⟩ := isPathClearLoop_true b m _ _ _ _ _ h
    exact ⟨j + 1, wrap64_walk m.FromX m.ToX _ j h3 (sign_range _) hx,
      wrap64_walk m.FromY m.ToY _ j h4 (sign_range _) hy⟩
  · rintro ⟨b1, b2, b3, b4⟩
    have heq := isPathClear64_eq_isPathClear b m b1 b2 b3 b4
    constructor
    · intro h
      rw [heq] at h
      exact isPathClear_true_line b m h
    · intro hoff
      obtain ⟨r, hr⟩ := htot
      cases r with
      | false => exact hr
      | true =>
        rw [heq] at hr
        exact absurd (isPathClear_true_line b m hr) hoff

/-- C26 at a concrete input: on the opening board the destination (3,6) is off every
line through the source (1,7), and the walk answers false. -/
theorem C26_isPathClear64_terminates_witness :
    isPathClear64 New ⟨1, 7, 3, 6, .Empty, false⟩ = some false :=
  ((C26_isPathClear64_terminates New ⟨1, 7, 3, 6, .Empty, false⟩
      ⟨⟨by decide, by decide⟩, ⟨by decide, by decide⟩, ⟨by decide, by decide⟩,
        ⟨by decide, by decide⟩⟩).2.2.2
      ⟨by decide, by decide, by decide, by decide⟩).2 (by
    rintro ⟨k, h1, h2⟩
    have s1 : sign ((3 : Int) - 1) = 1 := by decide
    have s2 : sign ((6 : Int) - 7) = -1 := by decide
    simp only [s1, s2] at h1 h2
    omega)

/-- C26 does not hold in exact arithmetic for all 64-bit coordinates: for the move from
`(-2^63, 0)` to `(2^63 - 1, 1)` the subtraction and the first step wrap around, the
walk starts on the destination and answers true, although the destination is not the
source plus a multiple of the step of signs, whether the signs are taken of the exact
differences or of the wrapped ones. -/
theorem C26_isPathClear64_true_off_the_line :
    isInt64 (-9223372036854775808) ∧ isInt64 9223372036854775807 ∧
    isPathClear64 New ⟨-9223372036854775808, 0, 9223372036854775807, 1, .Empty, false⟩ =
      some true ∧
    (¬ ∃ k : Nat,
      (9223372036854775807 : Int) =
        -9223372036854775808 + k * sign (9223372036854775807 - -9223372036854775808) ∧
      (1 : Int) = 0 + k * sign (1 - 0)) ∧
    (¬ ∃ k : Nat,
      (9223372036854775807 : Int) =
        -9223372036854775808 + k * sign (wrap64 (9223372036854775807 - -9223372036854775808)) ∧
      (1 : Int) = 0 + k * sign (wrap64 (1 - 0))) := by
  refine ⟨⟨by decide, by decide⟩, ⟨by decide, by decide⟩, by decide, ?_, ?_⟩
  · rintro ⟨k, h1, h2⟩
    have s1 : sign ((9223372036854775807 : Int) - -9223372036854775808) = 1 := by decide
    have s2 : sign ((1 : Int) - 0) = 1 := by decide
    simp only [s1, s2] at h1 h2
    omega
  · rintro ⟨k, h1, h2⟩
    have s1 : sign (wrap64 ((9223372036854775807 : Int) - -9223372036854775808)) = -1 := by
      decide
    have s2 : sign (wrap64 ((1 : Int) - 0)) = 1 := by decide
    simp only [s1, s2] at h1 h2
    omega

end Shogi
